import Mathlib

/-!
# ddprof allocation tracker: shallow embedding and checked properties

The definitions below transcribe `src/lib/allocation_tracker.cc` into pure
state-passing functions.  Everything the C++ code asks of its surroundings
(the ring-buffer writer, the clock, the eventfd, `getpid`, `gettid`, the
stack-bounds query, the pseudo-random generator) is answered by an explicit
environment value, so that a claim "for every answer of the ring buffer" is a
universally quantified statement over that environment.  The live-address
set is the set of bits of the `AddressBitset`; the bit an address is keyed to
is the parameter `Consts.address_slot`, the identity for an exact set.

Two further sections transcribe `get_elf_offsets` and `report_module` of
`src/ddprof_module_lib.cc` (libelf and libdwfl answers are an environment
value) and `DsoSymbolLookup::get_or_insert` of `src/dso_symbol_lookup.cc`
(the two lookup maps are partial functions).
-/

namespace ddprof

/-! ## Machine integers -/

/-- Value of a two's-complement 64-bit signed integer holding `x` (conversion
of a `uint64_t` result back to `int64_t`). -/
def wrap_i64 (x : Int) : Int := (x + 2 ^ 63) % 2 ^ 64 - 2 ^ 63

/-- Value of `x` converted to `uint64_t`. -/
def to_u64 (x : Int) : Nat := (x % 2 ^ 64).toNat

/-- Number of low bits of `n` that do not fit the 53-bit significand of a
`double`, for `n < 2^(53 + fuel)`. -/
def drop_bits : Nat → Nat → Nat
  | 0, _ => 0
  | fuel + 1, n => if n < 2 ^ 53 then 0 else drop_bits fuel (n / 2) + 1

/-- Value of the `uint64_t` `n` converted to `double`: `n` rounded to 53
significant bits, to nearest with ties to even (the default IEEE 754 rounding
mode); the result is an integer of at most `2^64`. -/
def to_double (n : Nat) : Nat :=
  let e := drop_bits 11 n
  let q := n / 2 ^ e
  let r := n % 2 ^ e
  if 2 * r > 2 ^ e ∨ (2 * r = 2 ^ e ∧ q % 2 = 1) then (q + 1) * 2 ^ e else q * 2 ^ e

/-- Width in bits of `perf_event_header::size` (a `__u16` in the Linux perf
ABI, the header type the unit test reads records through). -/
def header_size_bits : Nat := 16

/-- Value stored by an assignment to the 16-bit `header.size` field. -/
def to_header_size (n : Nat) : Nat := n % 2 ^ header_size_bits

/-- The value of `PerfClock::time_point::max()` (64-bit signed tick count). -/
def time_point_max : Int := 2 ^ 63 - 1

/-! ## Constants declared in headers -/

/-- Compile-time constants the tracker uses; their declarations live in
headers, so they are parameters of the embedding. -/
structure Consts where
  /-- The `k_max_consecutive_failures` constant. -/
  k_max_consecutive_failures : Nat
  /-- The `liveallocation::kMaxTracked` constant. -/
  kMaxTracked : Nat
  /-- The `kStackMargin` constant (192 with NDEBUG, 720 otherwise). -/
  kStackMargin : Int
  /-- The value of `sizeof(perf_event_lost)`. -/
  sizeof_perf_event_lost : Nat
  /-- The value of `sizeof(ClearLiveAllocationEvent)`. -/
  sizeof_ClearLiveAllocationEvent : Nat
  /-- The value of `sizeof(DeallocationEvent)`. -/
  sizeof_DeallocationEvent : Nat
  /-- Bytes of an `AllocationEvent` before the stack bytes: header, sample_id,
  addr, period, abi, regs and size_stack. -/
  sizeof_AllocationEvent_fixed : Nat
  /-- The flag bit `AllocationTracker::kTrackDeallocations`. -/
  kTrackDeallocations : Nat
  /-- The flag bit `AllocationTracker::kDeterministicSampling`. -/
  kDeterministicSampling : Nat
  /-- The value of `static_cast<int>(RingBufferType::kMPSCRingBuffer)`. -/
  kMPSCRingBuffer : Int
  /-- Modelled from the spec: the bit of the `AddressBitset` an address is keyed
  to (address_bitset.hpp is not among the sources; the spec describes a
  fixed-capacity bitset keyed by a hash of the address, in which two addresses
  can collide).  The identity when the set is exact. -/
  address_slot : Nat → Nat

/-- Modelled from the spec: `sizeof_allocation_event` (allocation_event.hpp is
not among the sources); the event is the fixed part, `stack_size` stack bytes
and the trailing 8-byte `dyn_size`. -/
def sizeof_allocation_event (c : Consts) (stack_size : Nat) : Nat :=
  c.sizeof_AllocationEvent_fixed + stack_size + 8

/-- Modelled from the spec: `align_up` (declared in a header) rounds `x` up to
the next multiple of `a`. -/
def align_up (x : Int) (a : Int) : Int := ((x + a - 1) / a) * a

/-! ## Results -/

/-- Error categories used by the tracker. -/
inductive DDWhat where
  | DD_WHAT_UKNW
  | DD_WHAT_PERFRB
  | DD_WHAT_DWFL_LIB_ERROR
  deriving DecidableEq

/-- A `DDRes`: success (`{}`) or an error of some category. -/
inductive DDRes where
  | ok
  | error (what : DDWhat)
  deriving DecidableEq

/-- The `IsDDResOK` test. -/
def IsDDResOK : DDRes → Bool
  | .ok => true
  | .error _ => false

/-- Ways in which the C++ code has no result the embedding can return. -/
inductive Stuck where
  /-- Integer division by a zero sampling interval. -/
  | division_by_zero
  /-- The sampling loop did not finish within the given fuel. -/
  | out_of_fuel
  deriving DecidableEq

/-! ## Ring-buffer records -/

/-- Record type tags written to `header.type`. -/
inductive EventType where
  | PERF_RECORD_SAMPLE
  | PERF_RECORD_LOST
  | PERF_CUSTOM_EVENT_DEALLOCATION
  | PERF_CUSTOM_EVENT_CLEAR_LIVE_ALLOCATION
  deriving DecidableEq

/-- The `perf_event_header` of a record. -/
structure Header where
  type : EventType
  misc : Nat
  size : Nat
  deriving DecidableEq

/-- The `sample_id` block of a record. -/
structure SampleId where
  time : Int
  pid : Nat
  tid : Nat
  deriving DecidableEq

/-- The four record layouts the tracker writes. -/
inductive Event where
  | sample (hdr : Header) (sample_id : SampleId) (addr period size_stack dyn_size : Nat)
  | dealloc (hdr : Header) (sample_id : SampleId) (ptr : Nat)
  | clear (hdr : Header) (sample_id : SampleId)
  | lost (hdr : Header) (sample_id : SampleId) (id lost : Nat)
  deriving DecidableEq

/-- Header of any record. -/
def Event.hdr : Event → Header
  | .sample h _ _ _ _ _ => h
  | .dealloc h _ _ => h
  | .clear h _ => h
  | .lost h _ _ _ => h

/-- The sample_id block of any record. -/
def Event.sid : Event → SampleId
  | .sample _ s _ _ _ _ => s
  | .dealloc _ s _ => s
  | .clear _ s => s
  | .lost _ s _ _ => s

/-- A committed buffer: the byte count that was passed to `reserve` for it and
the record written into it. -/
structure Committed where
  reserved : Nat
  event : Event
  deriving DecidableEq

/-- Whether a committed record is a SAMPLE. -/
def Committed.isSample (r : Committed) : Bool :=
  r.event.hdr.type == EventType.PERF_RECORD_SAMPLE

/-- Whether a committed record is a LOST record. -/
def Committed.isLost (r : Committed) : Bool :=
  r.event.hdr.type == EventType.PERF_RECORD_LOST

/-- Whether a committed record is a DEALLOCATION record. -/
def Committed.isDealloc (r : Committed) : Bool :=
  r.event.hdr.type == EventType.PERF_CUSTOM_EVENT_DEALLOCATION

/-- Whether a committed record is a CLEAR_LIVE_ALLOCATION record. -/
def Committed.isClear (r : Committed) : Bool :=
  r.event.hdr.type == EventType.PERF_CUSTOM_EVENT_CLEAR_LIVE_ALLOCATION

/-- The `period` field of a SAMPLE, 0 for other records. -/
def Committed.period (r : Committed) : Nat :=
  match r.event with
  | .sample _ _ _ p _ _ => p
  | _ => 0

/-- The `addr` field of a SAMPLE, 0 for other records. -/
def Committed.addr (r : Committed) : Nat :=
  match r.event with
  | .sample _ _ a _ _ _ => a
  | _ => 0

/-- The `ptr` field of a DEALLOCATION record, 0 for other records. -/
def Committed.ptr (r : Committed) : Nat :=
  match r.event with
  | .dealloc _ _ p => p
  | _ => 0

/-- The `lost` field of a LOST record, 0 for other records. -/
def Committed.lostField (r : Committed) : Nat :=
  match r.event with
  | .lost _ _ _ l => l
  | _ => 0

/-! ## Environment -/

/-- Answer of `MPSCRingBufferWriter::reserve`: a buffer, an empty buffer
because the ring is full, or an empty buffer with `timeout` set. -/
inductive Reserve where
  | ok
  | full
  | timeout
  deriving DecidableEq

/-- What the writer, the eventfd and the clock answer during one `push_*`
function call. -/
structure WriterEnv where
  /-- Result of `writer.reserve`. -/
  reserve : Reserve
  /-- Return value of `writer.commit` (consumer must be notified). -/
  commit : Bool
  /-- Whether `write(_pevent.fd, ...)` returns `sizeof(count)`. -/
  write_ok : Bool
  /-- Value of `PerfClock::now()`. -/
  now : Int

/-- A `std::span` of stack bytes: start address and length. -/
structure Span where
  ptr : Nat
  size : Nat
  deriving DecidableEq

/-- The `empty()` test of a span. -/
def Span.empty (s : Span) : Bool := s.size == 0

/-- Address one past the last byte (`to_address(end())`). -/
def Span.endAddr (s : Span) : Nat := s.ptr + s.size

/-- Everything the surroundings answer during one tracker entry point. -/
structure Env where
  /-- Answers to `push_lost_sample`. -/
  lost : WriterEnv
  /-- Answers to `push_clear_live_allocation`. -/
  clear : WriterEnv
  /-- Answers to `push_alloc_sample` or `push_dealloc_sample`. -/
  main : WriterEnv
  /-- Value of `getpid()`. -/
  getpid : Nat
  /-- Value of `ddprof::gettid()`. -/
  gettid : Nat
  /-- Result of `retrieve_stack_bounds()`. -/
  retrieve_stack_bounds : Span
  /-- Address of the local `p` in `push_alloc_sample`. -/
  stack_base_ptr : Nat
  /-- Return value of `save_context` (bytes of stack actually saved). -/
  dyn_size : Nat
  /-- The value `dist(gen)` yields at its k-th use in this call (integer part). -/
  draws : Nat → Nat

/-! ## Tracker and thread state -/

/-- The `IntervalTimerCheck` configuration; `is_set` tells whether a callback
was supplied. -/
structure IntervalTimerCheck where
  is_set : Bool
  initial_delay : Int
  interval : Int
  deriving DecidableEq

/-- The tracker singleton.  The first six fields are its `TrackerState`
(`_state`), then come the configuration members, then what the surroundings
can observe of its effects. -/
structure AllocationTracker where
  track_allocations : Bool
  track_deallocations : Bool
  pid : Nat
  lost_count : Nat
  failure_count : Nat
  next_check_time : Int
  sampling_interval : Nat
  deterministic_sampling : Bool
  stack_sample_size : Nat
  /-- The live-address set `_allocated_address_set`: the bits of the
  `AddressBitset` that are set.  `add(addr)` sets the bit `address_slot addr`
  and tells whether it was clear before, `remove(addr)` clears it and tells
  whether it was set, `count()` is the number of set bits. -/
  allocated_address_set : Finset Nat
  interval_timer_check : IntervalTimerCheck
  /-- Records committed to the ring buffer, oldest first. -/
  ring : List Committed
  /-- Whether the ring mapping `_pevent` is attached. -/
  mapped : Bool
  /-- Whether the static pointer `_instance` is non-null. -/
  has_instance : Bool
  /-- Times at which the timer callback was invoked, oldest first. -/
  callback_times : List Int
  /-- The static registry `_thread_entries`: tids inside `init_tl_state`. -/
  thread_entries : Finset Nat
  deriving DecidableEq

/-- The per-thread state `TrackerThreadLocalState`. -/
structure TrackerThreadLocalState where
  tid : Nat
  remaining_bytes : Int
  remaining_bytes_initialized : Bool
  stack_bounds : Span
  reentry_guard : Bool
  deriving DecidableEq

namespace AllocationTracker

/-- The `AllocationTracker::free` member. -/
def free (t : AllocationTracker) : AllocationTracker :=
  { t with
    track_allocations := false
    track_deallocations := false
    mapped := false
    has_instance := false }

/-- The `AllocationTracker::free_on_consecutive_failures` member. -/
def free_on_consecutive_failures (c : Consts) (t : AllocationTracker) (success : Bool) :
    AllocationTracker :=
  if !success then
    let t1 := { t with failure_count := (t.failure_count + 1) % 2 ^ 32 }
    if t1.failure_count ≥ c.k_max_consecutive_failures then t1.free else t1
  else
    if t.failure_count > 0 then { t with failure_count := 0 } else t

/-- The `AllocationTracker::update_timer` member.  Time points and durations
are 64-bit signed tick counts; the sum `now + interval` is kept in 64 bits
(it wraps in two's complement where the exact sum does not fit). -/
def update_timer (t : AllocationTracker) (now : Int) : AllocationTracker :=
  if now ≤ t.next_check_time then t
  else if !t.interval_timer_check.is_set || t.interval_timer_check.interval == 0 then
    { t with next_check_time := time_point_max }
  else
    { t with
      next_check_time := wrap_i64 (now + t.interval_timer_check.interval)
      callback_times := t.callback_times ++ [now] }

/-- The guarded call `if (now > next_check_time) update_timer(now)` that ends
every `push_*` function. -/
def check_timer (t : AllocationTracker) (now : Int) : AllocationTracker :=
  if now > t.next_check_time then t.update_timer now else t

/-- The lazy refresh of the cached process id done before a record is
stamped: `if (_state.pid == 0) _state.pid = getpid()`. -/
def cache_pid (t : AllocationTracker) (env : Env) : AllocationTracker :=
  if t.pid == 0 then { t with pid := env.getpid } else t

/-- The lazy refresh of the cached thread id done before a record is stamped:
`if (tl_state.tid == 0) tl_state.tid = gettid()`. -/
def cache_tid (tl : TrackerThreadLocalState) (env : Env) : TrackerThreadLocalState :=
  if tl.tid == 0 then { tl with tid := env.gettid } else tl

/-- The LOST record `push_lost_sample` writes into its buffer, with the
byte count it reserved. -/
def lost_record (c : Consts) (now : Int) (pid tid lost_count : Nat) : Committed :=
  { reserved := c.sizeof_perf_event_lost
    event := Event.lost
      { type := .PERF_RECORD_LOST, misc := 0, size := to_header_size c.sizeof_perf_event_lost }
      { time := now, pid := pid, tid := tid } 0 lost_count }

/-- The CLEAR_LIVE_ALLOCATION record `push_clear_live_allocation` writes into
its buffer, with the byte count it reserved. -/
def clear_record (c : Consts) (now : Int) (pid tid : Nat) : Committed :=
  { reserved := c.sizeof_ClearLiveAllocationEvent
    event := Event.clear
      { type := .PERF_CUSTOM_EVENT_CLEAR_LIVE_ALLOCATION, misc := 0,
        size := to_header_size c.sizeof_ClearLiveAllocationEvent }
      { time := now, pid := pid, tid := tid } }

/-- The DEALLOCATION record `push_dealloc_sample` writes into its buffer, with
the byte count it reserved. -/
def dealloc_record (c : Consts) (now : Int) (pid tid addr : Nat) : Committed :=
  { reserved := c.sizeof_DeallocationEvent
    event := Event.dealloc
      { type := .PERF_CUSTOM_EVENT_DEALLOCATION, misc := 0,
        size := to_header_size c.sizeof_DeallocationEvent }
      { time := now, pid := pid, tid := tid } addr }

/-- The SAMPLE record `push_alloc_sample` writes into its buffer of
`event_size = sizeof_allocation_event(sample_stack_size)` bytes. -/
def sample_record (c : Consts) (now : Int) (pid tid addr allocated_size sample_stack_size
    dyn_size : Nat) : Committed :=
  { reserved := sizeof_allocation_event c sample_stack_size
    event := Event.sample
      { type := .PERF_RECORD_SAMPLE, misc := 0,
        size := to_header_size (sizeof_allocation_event c sample_stack_size) }
      { time := now, pid := pid, tid := tid } addr allocated_size sample_stack_size dyn_size }

/-- The `AllocationTracker::push_lost_sample` member; the last component is
the value left in `notify_needed`, which the callers initialise to false. -/
def push_lost_sample (c : Consts) (t : AllocationTracker) (tl : TrackerThreadLocalState)
    (env : Env) : DDRes × AllocationTracker × TrackerThreadLocalState × Bool :=
  let lost_count := t.lost_count
  let t0 := { t with lost_count := 0 }
  if lost_count == 0 then (.ok, t0, tl, false)
  else
    match env.lost.reserve with
    | .full =>
      (.ok, { t0 with lost_count := (t0.lost_count + lost_count) % 2 ^ 64 }, tl, false)
    | .timeout =>
      (.error .DD_WHAT_PERFRB,
        { t0 with lost_count := (t0.lost_count + lost_count) % 2 ^ 64 }, tl, false)
    | .ok =>
      let now := env.lost.now
      let t1 := t0.cache_pid env
      let tl1 := cache_tid tl env
      let t2 := { t1 with ring := t1.ring ++ [lost_record c now t1.pid tl1.tid lost_count] }
      (.ok, t2.check_timer now, tl1, env.lost.commit)

/-- The guarded call `if (_state.lost_count) push_lost_sample(...)` that opens
`push_alloc_sample` and `push_dealloc_sample`; its result is ignored, the last
component is the value left in `notify_consumer`. -/
def flush_lost (c : Consts) (t : AllocationTracker) (tl : TrackerThreadLocalState)
    (env : Env) : AllocationTracker × TrackerThreadLocalState × Bool :=
  if t.lost_count != 0 then (push_lost_sample c t tl env).2 else (t, tl, false)

/-- The `AllocationTracker::push_clear_live_allocation` member. -/
def push_clear_live_allocation (c : Consts) (t : AllocationTracker)
    (tl : TrackerThreadLocalState) (env : Env) :
    DDRes × AllocationTracker × TrackerThreadLocalState :=
  match env.clear.reserve with
  | .full => (.error .DD_WHAT_PERFRB, t, tl)
  | .timeout => (.error .DD_WHAT_PERFRB, t, tl)
  | .ok =>
    let now := env.clear.now
    let t1 := t.cache_pid env
    let tl1 := cache_tid tl env
    let t2 := { t1 with ring := t1.ring ++ [clear_record c now t1.pid tl1.tid] }
    if env.clear.commit && !env.clear.write_ok then (.error .DD_WHAT_PERFRB, t2, tl1)
    else (.ok, t2.check_timer now, tl1)

/-- The `AllocationTracker::push_dealloc_sample` member. -/
def push_dealloc_sample (c : Consts) (t : AllocationTracker) (tl : TrackerThreadLocalState)
    (env : Env) (addr : Nat) : DDRes × AllocationTracker × TrackerThreadLocalState :=
  let f := flush_lost c t tl env
  let t0 := f.1
  let tl0 := f.2.1
  let notify_consumer := f.2.2
  match env.main.reserve with
  | .full => (.ok, { t0 with lost_count := (t0.lost_count + 1) % 2 ^ 64 }, tl0)
  | .timeout =>
    (.error .DD_WHAT_PERFRB, { t0 with lost_count := (t0.lost_count + 1) % 2 ^ 64 }, tl0)
  | .ok =>
    let now := env.main.now
    let t1 := t0.cache_pid env
    let tl1 := cache_tid tl0 env
    let t2 := { t1 with ring := t1.ring ++ [dealloc_record c now t1.pid tl1.tid addr] }
    if (env.main.commit || notify_consumer) && !env.main.write_ok then
      (.error .DD_WHAT_PERFRB, t2, tl1)
    else (.ok, t2.check_timer now, tl1)

/-- The stack size requested for a sample: `align_up(min(max(stack_size +
kStackMargin, 0), _stack_sample_size), sizeof(uint64_t))` stored in a
`uint32_t`, where `stack_size` is the distance from the local `p` to the end of
the thread's stack. -/
def sample_stack_size (c : Consts) (t : AllocationTracker) (stack_bounds : Span)
    (env : Env) : Nat :=
  let stack_size : Int := (stack_bounds.endAddr : Int) - (env.stack_base_ptr : Int)
  (align_up (min (max (stack_size + c.kStackMargin) 0) (t.stack_sample_size : Int)) 8
    % 2 ^ 32).toNat

/-- The `AllocationTracker::push_alloc_sample` member. -/
def push_alloc_sample (c : Consts) (t : AllocationTracker) (tl : TrackerThreadLocalState)
    (env : Env) (addr : Nat) (allocated_size : Nat) :
    DDRes × AllocationTracker × TrackerThreadLocalState :=
  let f := flush_lost c t tl env
  let t0 := f.1
  let tl0 := f.2.1
  let notify_consumer := f.2.2
  let tl0b :=
    if tl0.stack_bounds.empty then { tl0 with stack_bounds := env.retrieve_stack_bounds }
    else tl0
  if tl0b.stack_bounds.empty then (.error .DD_WHAT_PERFRB, t0, tl0b)
  else
    let stack_size := sample_stack_size c t0 tl0b.stack_bounds env
    match env.main.reserve with
    | .full => (.ok, { t0 with lost_count := (t0.lost_count + 1) % 2 ^ 64 }, tl0b)
    | .timeout =>
      (.error .DD_WHAT_PERFRB, { t0 with lost_count := (t0.lost_count + 1) % 2 ^ 64 }, tl0b)
    | .ok =>
      let now := env.main.now
      let t1 := t0.cache_pid env
      let tl1 := cache_tid tl0b env
      let t2 := { t1 with
        ring := t1.ring ++
          [sample_record c now t1.pid tl1.tid addr allocated_size stack_size env.dyn_size] }
      if (env.main.commit || notify_consumer) && !env.main.write_ok then
        (.error .DD_WHAT_PERFRB, t2, tl1)
      else (.ok, t2.check_timer now, tl1)

/-- The `AllocationTracker::next_sample_interval` member.  `value` is the
integer part of the `double` that `dist(gen)` yields when the exponential
distribution is consulted: both comparisons are against integer-valued
doubles, and the conversion of the result to `uint64_t` truncates, so the
fraction has no effect.  `max_value` enters the comparison and the assignment
converted to `double`.  A clamp of `2^64` is out of the range of the
conversion back to `uint64_t`; the model reduces it modulo `2^64`. -/
def next_sample_interval (t : AllocationTracker) (value : Nat) : Nat :=
  if t.sampling_interval == 1 then 1
  else if t.deterministic_sampling then t.sampling_interval
  else
    let max_value := (t.sampling_interval * 20) % 2 ^ 64
    let min_value := 8
    let v := if value > to_double max_value then to_double max_value else value
    let v := if v < min_value then min_value else v
    v % 2 ^ 64

/-- The do-while loop of `track_allocation`: subtract a draw and count a
sample, as long as `remaining_bytes` stays non-negative.  `k` indexes the next
draw; the result is the final `remaining_bytes` and `nsamples`. -/
def sample_loop (t : AllocationTracker) (draws : Nat → Nat) :
    Nat → Nat → Int → Nat → Except Stuck (Int × Nat)
  | 0, _, _, _ => .error .out_of_fuel
  | fuel + 1, k, remaining_bytes, nsamples =>
    let remaining_bytes1 := wrap_i64 (remaining_bytes - t.next_sample_interval (draws k))
    let nsamples1 := (nsamples + 1) % 2 ^ 64
    if remaining_bytes1 ≥ 0 then sample_loop t draws fuel (k + 1) remaining_bytes1 nsamples1
    else .ok (remaining_bytes1, nsamples1)

/-- The sampling decision of `track_allocation` (from the read of
`tl_state.remaining_bytes` to the computation of `total_size`).  The result is
the updated thread state and, unless the function returns early on the
thread's first call, the pair `(nsamples, total_size)`. -/
def sampling_decision (fuel : Nat) (t : AllocationTracker) (tl : TrackerThreadLocalState)
    (draws : Nat → Nat) :
    Except Stuck (TrackerThreadLocalState × Option (Nat × Nat)) :=
  let first := !tl.remaining_bytes_initialized
  let remaining_bytes :=
    if first then wrap_i64 (tl.remaining_bytes - t.next_sample_interval (draws 0))
    else tl.remaining_bytes
  let tl1 := if first then { tl with remaining_bytes_initialized := true } else tl
  if first && remaining_bytes < 0 then
    .ok ({ tl1 with remaining_bytes := remaining_bytes }, none)
  else
    let sampling_interval := t.sampling_interval
    if sampling_interval == 0 then .error .division_by_zero
    else
      let nsamples := to_u64 remaining_bytes / sampling_interval
      let remaining_bytes1 := wrap_i64 ((to_u64 remaining_bytes % sampling_interval : Nat) : Int)
      match sample_loop t draws fuel (if first then 1 else 0) remaining_bytes1 nsamples with
      | .error e => .error e
      | .ok (remaining_bytes2, nsamples2) =>
        .ok ({ tl1 with remaining_bytes := remaining_bytes2 },
          some (nsamples2, (nsamples2 * sampling_interval) % 2 ^ 64))

/-- The live-address bookkeeping of `track_allocation` that precedes the
sample push: the result is the tracker, the thread state and the address to
put in the sample (0 when `add` reports that the address was already in the
set, that is when the bit it is keyed to was set). -/
def track_live_address (c : Consts) (t : AllocationTracker) (tl : TrackerThreadLocalState)
    (env : Env) (addr : Nat) : AllocationTracker × TrackerThreadLocalState × Nat :=
  if t.track_deallocations then
    if c.address_slot addr ∉ t.allocated_address_set then
      let t1 := { t with
        allocated_address_set := insert (c.address_slot addr) t.allocated_address_set }
      if t1.allocated_address_set.card > c.kMaxTracked then
        let r := push_clear_live_allocation c t1 tl env
        if IsDDResOK r.1 then
          ({ r.2.1 with allocated_address_set := {c.address_slot addr} }, r.2.2, addr)
        else (r.2.1.free, r.2.2, addr)
      else (t1, tl, addr)
    else (t, tl, 0)
  else (t, tl, addr)

/-- The part of `track_allocation` that follows the sampling decision: live
address bookkeeping, sample push, failure accounting and the undo of the
insertion when the push failed. -/
def record_allocation (c : Consts) (t : AllocationTracker) (tl : TrackerThreadLocalState)
    (env : Env) (addr : Nat) (total_size : Nat) :
    AllocationTracker × TrackerThreadLocalState :=
  let a := track_live_address c t tl env addr
  let r := push_alloc_sample c a.1 a.2.1 env a.2.2 total_size
  let success := IsDDResOK r.1
  let t1 := free_on_consecutive_failures c r.2.1 success
  if !success && t1.track_deallocations && a.2.2 != 0 then
    ({ t1 with allocated_address_set := t1.allocated_address_set.erase (c.address_slot a.2.2) },
      r.2.2)
  else (t1, r.2.2)

/-- The `AllocationTracker::track_allocation` member (three-argument form). -/
def track_allocation (c : Consts) (fuel : Nat) (t : AllocationTracker)
    (tl : TrackerThreadLocalState) (env : Env) (addr : Nat) :
    Except Stuck (AllocationTracker × TrackerThreadLocalState) :=
  if !t.track_allocations then .ok (t, tl)
  else
    match sampling_decision fuel t tl env.draws with
    | .error e => .error e
    | .ok (tl1, none) => .ok (t, tl1)
    | .ok (tl1, some (_, total_size)) => .ok (record_allocation c t tl1 env addr total_size)

/-- The `AllocationTracker::track_deallocation` member (three-argument form). -/
def track_deallocation (c : Consts) (t : AllocationTracker) (tl : TrackerThreadLocalState)
    (env : Env) (addr : Nat) : AllocationTracker × TrackerThreadLocalState :=
  if !t.track_deallocations || c.address_slot addr ∉ t.allocated_address_set then (t, tl)
  else
    let t1 := { t with
      allocated_address_set := t.allocated_address_set.erase (c.address_slot addr) }
    let r := push_dealloc_sample c t1 tl env addr
    (free_on_consecutive_failures c r.2.1 (IsDDResOK r.1), r.2.2)

/-- The `AllocationTracker::notify_fork` function; `tl` is what `get_tl_state()`
returns for the calling thread. -/
def notify_fork (t : AllocationTracker) (tl : Option TrackerThreadLocalState) :
    AllocationTracker × Option TrackerThreadLocalState :=
  let t0 := { t with thread_entries := ∅ }
  let t1 := if t0.has_instance then { t0 with pid := 0 } else t0
  match tl with
  | none => (t1, none)
  | some s => (t1, some { s with tid := 0 })

/-- The `RingBufferInfo` argument of the initialisation, reduced to the
field the tracker inspects itself. -/
structure RingBufferInfo where
  ring_buffer_type : Int

/-- What the surroundings answer during `allocation_tracking_init`. -/
structure InitEnv where
  /-- Result of `init_tl_state()` when the thread has no state yet (`none`
  when the reentry guard is taken or the state cannot be stored). -/
  init_tl_state : Option TrackerThreadLocalState
  /-- Result of `ring_buffer_attach`. -/
  ring_buffer_attach : DDRes
  /-- Value of `PerfClock::now()`. -/
  now : Int

/-- The `AllocationTracker::init` member. -/
def init (c : Consts) (t : AllocationTracker) (mem_profile_interval : Nat)
    (deterministic_sampling track_deallocations : Bool) (stack_sample_size : Nat)
    (ring_buffer : RingBufferInfo) (timer_check : IntervalTimerCheck) (ienv : InitEnv) :
    DDRes × AllocationTracker :=
  let t1 := { t with
    sampling_interval := mem_profile_interval
    deterministic_sampling := deterministic_sampling
    stack_sample_size := stack_sample_size }
  if ring_buffer.ring_buffer_type != c.kMPSCRingBuffer then (.error .DD_WHAT_PERFRB, t1)
  else
    let t2 := if track_deallocations then { t1 with allocated_address_set := ∅ } else t1
    match ienv.ring_buffer_attach with
    | .error e => (.error e, t2)
    | .ok =>
      let t3 := { t2 with mapped := true, interval_timer_check := timer_check }
      if timer_check.is_set then
        (.ok, { t3 with
          next_check_time :=
            if timer_check.initial_delay != 0 then
              wrap_i64 (ienv.now + timer_check.initial_delay)
            else wrap_i64 (ienv.now + timer_check.interval) })
      else (.ok, { t3 with next_check_time := time_point_max })

/-- Modelled from the spec: `TrackerState::init` (declared in
allocation_tracker.hpp, which is not among the sources) sets the two feature
flags of the state. -/
def state_init (t : AllocationTracker) (track_alloc track_dealloc : Bool) :
    AllocationTracker :=
  { t with track_allocations := track_alloc, track_deallocations := track_dealloc }

/-- The `AllocationTracker::allocation_tracking_init` function; `tl` is what
`get_tl_state()` returns for the calling thread. -/
def allocation_tracking_init (c : Consts) (t : AllocationTracker)
    (tl : Option TrackerThreadLocalState) (allocation_profiling_rate : Nat) (flags : Nat)
    (stack_sample_size : Nat) (ring_buffer : RingBufferInfo)
    (timer_check : IntervalTimerCheck) (ienv : InitEnv) :
    DDRes × AllocationTracker × Option TrackerThreadLocalState :=
  let tl1 := match tl with
    | some s => some s
    | none => ienv.init_tl_state
  match tl1 with
  | none => (.error .DD_WHAT_DWFL_LIB_ERROR, t, none)
  | some s =>
    if t.track_allocations then (.error .DD_WHAT_UKNW, t, some s)
    else
      let r := init c t allocation_profiling_rate (flags &&& c.kDeterministicSampling != 0)
        (flags &&& c.kTrackDeallocations != 0) stack_sample_size ring_buffer timer_check ienv
      match r.1 with
      | .error e => (.error e, r.2, some s)
      | .ok =>
        let t1 := { r.2 with has_instance := true }
        (.ok, state_init t1 true (flags &&& c.kTrackDeallocations != 0), some s)

/-! ## Sequences of calls -/

/-- One call of a tracker entry point, by some thread whose state is `tl`
when the member function is entered, with the answers of the surroundings. -/
inductive Call where
  | alloc (tl : TrackerThreadLocalState) (env : Env) (addr : Nat)
  | dealloc (tl : TrackerThreadLocalState) (env : Env) (addr : Nat)

/-- Tracker after one call. -/
def step (c : Consts) (fuel : Nat) (t : AllocationTracker) :
    Call → Except Stuck AllocationTracker
  | .alloc tl env addr =>
    match track_allocation c fuel t tl env addr with
    | .error e => .error e
    | .ok r => .ok r.1
  | .dealloc tl env addr => .ok (track_deallocation c t tl env addr).1

/-- Tracker after a sequence of calls, made in list order. -/
def run (c : Consts) (fuel : Nat) : AllocationTracker → List Call → Except Stuck AllocationTracker
  | t, [] => .ok t
  | t, call :: rest =>
    match step c fuel t call with
    | .error e => .error e
    | .ok t1 => run c fuel t1 rest

/-- The accumulation the static entry point performs before it calls the
member function: `tl_state.remaining_bytes += size`. -/
def accumulate (tl : TrackerThreadLocalState) (size : Nat) : TrackerThreadLocalState :=
  { tl with remaining_bytes := wrap_i64 (tl.remaining_bytes + size) }

/-- A thread allocating repeatedly: each element is the size, the address and
the answers of the surroundings for one `track_allocation` call, the size
being accumulated into `remaining_bytes` first. -/
def run_allocations (c : Consts) (fuel : Nat) :
    AllocationTracker → TrackerThreadLocalState → List (Nat × Nat × Env) →
    Except Stuck (AllocationTracker × TrackerThreadLocalState)
  | t, tl, [] => .ok (t, tl)
  | t, tl, (size, addr, env) :: rest =>
    match track_allocation c fuel t (accumulate tl size) env addr with
    | .error e => .error e
    | .ok r => run_allocations c fuel r.1 r.2 rest

/-- Sum of `period` over the SAMPLE records of a ring. -/
def sum_period (ring : List Committed) : Nat := (ring.map Committed.period).sum

/-- Sum of `lost` over the LOST records of a ring. -/
def sum_lost (ring : List Committed) : Nat := (ring.map Committed.lostField).sum

/-- Number of SAMPLE records in a ring. -/
def count_samples (ring : List Committed) : Nat := (ring.filter Committed.isSample).length

/-! ## Vocabulary of the statements -/

/-- Whether the thread's stack bounds are known when a sample is pushed:
already cached, or delivered by `retrieve_stack_bounds()`. -/
def stack_bounds_available (tl : TrackerThreadLocalState) (env : Env) : Bool :=
  !tl.stack_bounds.empty || !env.retrieve_stack_bounds.empty

/-- The stack bounds `push_alloc_sample` works with. -/
def current_stack_bounds (tl : TrackerThreadLocalState) (env : Env) : Span :=
  if tl.stack_bounds.empty then env.retrieve_stack_bounds else tl.stack_bounds

/-- The records `flush_lost` commits: one LOST record when a backlog exists
and its reservation succeeds, nothing otherwise. -/
def flushed (c : Consts) (t : AllocationTracker) (tl : TrackerThreadLocalState) (env : Env) :
    List Committed :=
  if t.lost_count ≠ 0 ∧ env.lost.reserve = .ok then
    [lost_record c env.lost.now (t.cache_pid env).pid (cache_tid tl env).tid t.lost_count]
  else []

/-- The records `push_clear_live_allocation` commits: the CLEAR record when
its reservation succeeds, nothing otherwise. -/
def cleared (c : Consts) (t : AllocationTracker) (tl : TrackerThreadLocalState) (env : Env) :
    List Committed :=
  if env.clear.reserve = .ok then
    [clear_record c env.clear.now (t.cache_pid env).pid (cache_tid tl env).tid]
  else []

/-- The record `push_alloc_sample` commits after the flush of the lost count:
the SAMPLE when the stack bounds are known and the reservation succeeds,
nothing otherwise. -/
def pushed_sample (c : Consts) (t : AllocationTracker) (tl : TrackerThreadLocalState)
    (env : Env) (addr allocated_size : Nat) : List Committed :=
  if stack_bounds_available tl env = true ∧ env.main.reserve = .ok then
    [sample_record c env.main.now ((flush_lost c t tl env).1.cache_pid env).pid
      (cache_tid (flush_lost c t tl env).2.1 env).tid addr allocated_size
      (sample_stack_size c t (current_stack_bounds tl env) env) env.dyn_size]
  else []

/-- The value of `remaining_bytes` when the sampling decision starts: the
stored value, or on a thread's first call the stored value minus the initial
draw. -/
def decision_start (t : AllocationTracker) (tl : TrackerThreadLocalState)
    (draws : Nat → Nat) : Int :=
  if tl.remaining_bytes_initialized then tl.remaining_bytes
  else wrap_i64 (tl.remaining_bytes - t.next_sample_interval (draws 0))

/-- The record `push_dealloc_sample` commits after the flush of the lost
count: the DEALLOCATION when the reservation succeeds, nothing otherwise. -/
def pushed_dealloc (c : Consts) (t : AllocationTracker) (tl : TrackerThreadLocalState)
    (env : Env) (addr : Nat) : List Committed :=
  if env.main.reserve = .ok then
    [dealloc_record c env.main.now ((flush_lost c t tl env).1.cache_pid env).pid
      (cache_tid (flush_lost c t tl env).2.1 env).tid addr]
  else []

/-- The bound the live-address set obeys: at most `kMaxTracked` addresses
while deallocation tracking is on, and never more than `kMaxTracked + 1`. -/
def live_set_bounded (c : Consts) (t : AllocationTracker) : Prop :=
  (t.track_deallocations = true → t.allocated_address_set.card ≤ c.kMaxTracked) ∧
  t.allocated_address_set.card ≤ c.kMaxTracked + 1

/-- A sequence of `track_allocation` calls, each given by the thread state at
entry, the answers of the surroundings and the address. -/
def alloc_calls (l : List (TrackerThreadLocalState × Env × Nat)) : List Call :=
  l.map (fun x => Call.alloc x.1 x.2.1 x.2.2)

/-- The allocation weight the tracker accounts for: the periods of the
committed SAMPLE records, the counts of the committed LOST records and the
count of drops not yet flushed. -/
def accounted (t : AllocationTracker) : Nat :=
  sum_period t.ring + sum_lost t.ring + t.lost_count

/-- The `header.size` of a committed record is the byte count that was
reserved for it; for a SAMPLE that count is `sizeof_allocation_event` of the
`size_stack` the record stores. -/
def header_size_exact (c : Consts) (r : Committed) : Prop :=
  r.event.hdr.size = r.reserved ∧
  match r.event with
  | .sample _ _ _ _ size_stack _ => r.reserved = sizeof_allocation_event c size_stack
  | _ => True

/-- What a committed record holds about sizes: `header.size` is the reserved
byte count reduced to the 16 bits of the field, hence the reserved byte count
itself whenever that is below `2^16`; the reserved byte count is the size of
the record's type, for a SAMPLE `sizeof_allocation_event` of the `size_stack`
it stores, which is at most the configured stack sample size rounded up
to 8. -/
def header_size_stored (c : Consts) (t : AllocationTracker) (r : Committed) : Prop :=
  r.event.hdr.size = to_header_size r.reserved ∧
  (r.reserved < 2 ^ 16 → header_size_exact c r) ∧
  match r.event with
  | .sample _ _ _ _ size_stack _ =>
    r.reserved = sizeof_allocation_event c size_stack ∧
    size_stack ≤ (t.stack_sample_size + 7) / 8 * 8 ∧
    r.reserved ≤ sizeof_allocation_event c ((t.stack_sample_size + 7) / 8 * 8)
  | .dealloc _ _ _ => r.reserved = c.sizeof_DeallocationEvent
  | .clear _ _ => r.reserved = c.sizeof_ClearLiveAllocationEvent
  | .lost _ _ _ _ => r.reserved = c.sizeof_perf_event_lost

/-- One call of a tracker entry point by one given thread: an allocation of
`size` bytes at `addr` (the size is accumulated first), or a deallocation. -/
inductive ThreadCall where
  | alloc (size addr : Nat) (env : Env)
  | dealloc (addr : Nat) (env : Env)

/-- The answers of the surroundings during a call. -/
def ThreadCall.env : ThreadCall → Env
  | .alloc _ _ env => env
  | .dealloc _ env => env

/-- Tracker and thread state after one call of the thread. -/
def thread_step (c : Consts) (fuel : Nat) (t : AllocationTracker)
    (tl : TrackerThreadLocalState) :
    ThreadCall → Except Stuck (AllocationTracker × TrackerThreadLocalState)
  | .alloc size addr env => track_allocation c fuel t (accumulate tl size) env addr
  | .dealloc addr env => .ok (track_deallocation c t tl env addr)

/-- Tracker and thread state after a sequence of calls of the thread. -/
def run_thread (c : Consts) (fuel : Nat) :
    AllocationTracker → TrackerThreadLocalState → List ThreadCall →
    Except Stuck (AllocationTracker × TrackerThreadLocalState)
  | t, tl, [] => .ok (t, tl)
  | t, tl, op :: rest =>
    match thread_step c fuel t tl op with
    | .error e => .error e
    | .ok r => run_thread c fuel r.1 r.2 rest

/-- The cached ids are unset or hold what `getpid()` and `gettid()` answer. -/
def ids_fresh (env : Env) (t : AllocationTracker) (tl : TrackerThreadLocalState) : Prop :=
  (t.pid = 0 ∨ t.pid = env.getpid) ∧ (tl.tid = 0 ∨ tl.tid = env.gettid)

/-- Relation between the states before and after a piece of code: it appended
records that all carry the current pid and tid, it left the cached ids alone
if it appended nothing, and the cached ids are still unset or current. -/
def stamps (env : Env) (t : AllocationTracker) (tl : TrackerThreadLocalState)
    (t1 : AllocationTracker) (tl1 : TrackerThreadLocalState) : Prop :=
  ∃ new, t1.ring = t.ring ++ new ∧
    (∀ r ∈ new, r.event.sid.pid = env.getpid ∧ r.event.sid.tid = env.gettid) ∧
    (new = [] → t1.pid = t.pid ∧ tl1.tid = tl.tid) ∧
    ids_fresh env t1 tl1

/-- The tracker after a sequence of push outcomes (true for success) has been
fed to `free_on_consecutive_failures`, in list order. -/
def feed_outcomes (c : Consts) (t : AllocationTracker) (outcomes : List Bool) :
    AllocationTracker :=
  outcomes.foldl (free_on_consecutive_failures c) t

/-- The address `track_allocation` puts in the SAMPLE: 0 when deallocation
tracking is on and the address is already in the live-address set, the
address itself otherwise. -/
def sample_addr (c : Consts) (t : AllocationTracker) (addr : Nat) : Nat :=
  if t.track_deallocations = true ∧ c.address_slot addr ∈ t.allocated_address_set then 0
  else addr

/-- The tracker after a sequence of `update_timer(now)` calls, in list
order. -/
def update_timers (t : AllocationTracker) (nows : List Int) : AllocationTracker :=
  nows.foldl update_timer t

/-- Whether the timer cannot fire: it is unset or its interval is zero. -/
def timer_idle (t : AllocationTracker) : Prop :=
  t.interval_timer_check.is_set = false ∨ t.interval_timer_check.interval = 0

/-- Callback times in which each invocation comes more than `interval` after
the one before it. -/
def spaced (interval : Int) (times : List Int) : Prop :=
  times.Chain' (fun t1 t2 => t2 > t1 + interval)

/-- Whether `now + interval` fits the 64-bit signed tick count at every call
of a sequence. -/
def ticks_in_range (t : AllocationTracker) (nows : List Int) : Prop :=
  ∀ now ∈ nows, -2 ^ 63 ≤ now + t.interval_timer_check.interval ∧
    now + t.interval_timer_check.interval < 2 ^ 63

/-- The sampling decisions of a thread over a sequence of calls, each given by
the size accumulated before it and the draws available to it: the thread state
at the end and the sum of the periods the decisions yield. -/
def decision_run (fuel : Nat) (t : AllocationTracker) :
    TrackerThreadLocalState → List (Nat × (Nat → Nat)) →
    Except Stuck (TrackerThreadLocalState × Nat)
  | tl, [] => .ok (tl, 0)
  | tl, (size, draws) :: rest =>
    match sampling_decision fuel t (accumulate tl size) draws with
    | .error e => .error e
    | .ok (tl1, none) => decision_run fuel t tl1 rest
    | .ok (tl1, some (_, total_size)) =>
      match decision_run fuel t tl1 rest with
      | .error e => .error e
      | .ok (tl2, total) => .ok (tl2, total_size + total)

/-- Whether every call of a sequence starts its sampling decision with a
non-negative `remaining_bytes`, the accumulation before it not overflowing. -/
def nonneg_at_each_call (fuel : Nat) (t : AllocationTracker) :
    TrackerThreadLocalState → List (Nat × (Nat → Nat)) → Bool
  | _, [] => true
  | tl, (size, draws) :: rest =>
    decide (tl.remaining_bytes + size < 2 ^ 63) &&
    decide (0 ≤ decision_start t (accumulate tl size) draws) &&
    match sampling_decision fuel t (accumulate tl size) draws with
    | .error _ => true
    | .ok (tl1, _) => nonneg_at_each_call fuel t tl1 rest

/-- Whether the tracker is active at the entry of every call of a thread's
sequence of allocations. -/
def active_at_each_call (c : Consts) (fuel : Nat) :
    AllocationTracker → TrackerThreadLocalState → List (Nat × Nat × Env) → Bool
  | _, _, [] => true
  | t, tl, (size, addr, env) :: rest =>
    t.track_allocations &&
      match track_allocation c fuel t (accumulate tl size) env addr with
      | .error _ => true
      | .ok r => active_at_each_call c fuel r.1 r.2 rest

/-! ## Concrete inputs used by the witnesses and counterexamples -/

/-- Constants of a small build: three consecutive failures allowed, four live
addresses tracked, release stack margin. -/
def c0 : Consts :=
  { k_max_consecutive_failures := 3, kMaxTracked := 4, kStackMargin := 192,
    sizeof_perf_event_lost := 40, sizeof_ClearLiveAllocationEvent := 24,
    sizeof_DeallocationEvent := 32, sizeof_AllocationEvent_fixed := 80,
    kTrackDeallocations := 1, kDeterministicSampling := 2, kMPSCRingBuffer := 1,
    address_slot := fun addr => addr }

/-- The same constants with a live-address bitset of 64 bits keyed by the low
bits of the address. -/
def c_hashed : Consts := { c0 with address_slot := fun addr => addr % 64 }

/-- A writer that accepts the reservation, asks for a notification and whose
eventfd write succeeds, at time 100. -/
def wenv_ok : WriterEnv := { reserve := .ok, commit := true, write_ok := true, now := 100 }

/-- A writer whose ring is full. -/
def wenv_full : WriterEnv := { reserve := .full, commit := false, write_ok := true, now := 100 }

/-- A writer whose reservation times out. -/
def wenv_timeout : WriterEnv :=
  { reserve := .timeout, commit := false, write_ok := true, now := 100 }

/-- Surroundings in which everything succeeds: pid 77, tid 78, a stack of
9000 bytes at address 1000. -/
def env_ok : Env :=
  { lost := wenv_ok, clear := wenv_ok, main := wenv_ok, getpid := 77, gettid := 78,
    retrieve_stack_bounds := { ptr := 1000, size := 9000 }, stack_base_ptr := 9500,
    dyn_size := 500, draws := fun _ => 0 }

/-- Like `env_ok`, but `retrieve_stack_bounds()` returns an empty range. -/
def env_no_stack : Env := { env_ok with retrieve_stack_bounds := { ptr := 0, size := 0 } }

/-- Like `env_ok`, but the ring is full: every reservation comes back empty,
without timeout. -/
def env_ring_full : Env :=
  { env_ok with lost := wenv_full, clear := wenv_full, main := wenv_full }

/-- Like `env_ok`, but every reservation times out. -/
def env_timeout : Env :=
  { env_ok with lost := wenv_timeout, clear := wenv_timeout, main := wenv_timeout }

/-- A thread state entering `track_allocation` with its stack bounds cached
and `remaining_bytes` back at zero after the accumulation of one byte. -/
def tl_ready : TrackerThreadLocalState :=
  { tid := 78, remaining_bytes := 0, remaining_bytes_initialized := true,
    stack_bounds := { ptr := 1000, size := 9000 }, reentry_guard := true }

/-- An active tracker as the unit test sets it up: interval 1, deterministic
sampling, no deallocation tracking, no timer. -/
def t_active : AllocationTracker :=
  { track_allocations := true, track_deallocations := false, pid := 0, lost_count := 0,
    failure_count := 0, next_check_time := time_point_max, sampling_interval := 1,
    deterministic_sampling := true, stack_sample_size := 4096,
    allocated_address_set := ∅,
    interval_timer_check := { is_set := false, initial_delay := 0, interval := 0 },
    ring := [], mapped := true, has_instance := true, callback_times := [],
    thread_entries := ∅ }

/-- The tracker right after an initialisation with interval 1, deterministic
sampling and deallocation tracking. -/
def t_live : AllocationTracker := { t_active with track_deallocations := true }

/-- Answers during an initialisation in which everything succeeds. -/
def ienv_ok : InitEnv :=
  { init_tl_state := some { tid := 78, remaining_bytes := 0, remaining_bytes_initialized := false,
                            stack_bounds := { ptr := 0, size := 0 }, reentry_guard := false }
    ring_buffer_attach := .ok
    now := 50 }

/-- A timer configuration without callback. -/
def timer_unset : IntervalTimerCheck := { is_set := false, initial_delay := 0, interval := 0 }

/-- The unit test's tracker configured with a stack sample size of 65536. -/
def t_big_stack : AllocationTracker := { t_active with stack_sample_size := 65536 }

/-- A thread whose stack extends 200000 bytes from address 1000. -/
def tl_deep : TrackerThreadLocalState :=
  { tl_ready with stack_bounds := { ptr := 1000, size := 200000 } }

/-- Like `env_ok`, with the sampling point 101000 bytes below the end of the
stack of `tl_deep`. -/
def env_deep : Env := { env_ok with stack_base_ptr := 100000 }

/-- The tracker `t_live` with four addresses in the live-address set, which is
full for `kMaxTracked = 4`. -/
def t_four : AllocationTracker :=
  { t_live with allocated_address_set := {0x1000, 0x2000, 0x3000, 0x4000} }

/-- Like `tl_ready`, but without cached stack bounds. -/
def tl_no_bounds : TrackerThreadLocalState :=
  { tl_ready with stack_bounds := { ptr := 0, size := 0 } }

/-- Like `env_ok`, but the eventfd write that follows the commit of the CLEAR
record fails. -/
def env_clear_write_fails : Env :=
  { env_ok with clear := { reserve := .ok, commit := true, write_ok := false, now := 100 } }

/-- The unit test's tracker with the parent's pid 55 in its cache. -/
def t_parent : AllocationTracker := { t_active with pid := 55 }

/-- The state of the forking thread, with the parent's tid 56 in its cache and
the remainder a previous allocation left. -/
def tl_parent : TrackerThreadLocalState :=
  { tl_ready with tid := 56, remaining_bytes := -1 }

/-- The unit test's tracker with two dropped events waiting to be reported. -/
def t_two_lost : AllocationTracker := { t_active with lost_count := 2 }

/-- A thread state as it is right after its creation. -/
def tl_fresh : TrackerThreadLocalState :=
  { tid := 0, remaining_bytes := 0, remaining_bytes_initialized := false,
    stack_bounds := { ptr := 0, size := 0 }, reentry_guard := true }

/-- A tracker with deallocation tracking on whose live-address set already
holds the address 4096. -/
def t_known : AllocationTracker := { t_live with allocated_address_set := {4096} }

/-- A tracker whose timer is set with interval 10 and is next due after time
100. -/
def t_timer : AllocationTracker :=
  { t_active with
    interval_timer_check := { is_set := true, initial_delay := 0, interval := 10 }
    next_check_time := 100 }

/-- A tracker whose timer is set with the interval `2^63 - 1` and is next due
after time 100. -/
def t_long_interval : AllocationTracker :=
  { t_active with
    interval_timer_check := { is_set := true, initial_delay := 0, interval := 2 ^ 63 - 1 }
    next_check_time := 100 }

/-- A tracker in random sampling mode with interval 16. -/
def t_random : AllocationTracker :=
  { t_active with sampling_interval := 16, deterministic_sampling := false }

/-- A thread with 40 bytes accumulated. -/
def tl_forty : TrackerThreadLocalState := { tl_ready with remaining_bytes := 40 }

/-- A tracker in random sampling mode with interval `2^62`, for which
`_sampling_interval * 20` is 0 in 64 bits. -/
def t_wide : AllocationTracker :=
  { t_active with sampling_interval := 2 ^ 62, deterministic_sampling := false }

/-- A thread with `2^62 + 16` bytes accumulated. -/
def tl_wide : TrackerThreadLocalState := { tl_ready with remaining_bytes := 2 ^ 62 + 16 }

/-- A tracker in random sampling mode with interval `2^59`, for which
`_sampling_interval * 20` is `2^63 + 2^61`. -/
def t_cycle : AllocationTracker :=
  { t_active with sampling_interval := 2 ^ 59, deterministic_sampling := false }

/-- Draws that repeat `2^63 + 2^61`, `2^62`, `2^61`. -/
def cycle_draws (k : Nat) : Nat :=
  if k % 3 = 0 then 2 ^ 63 + 2 ^ 61 else if k % 3 = 1 then 2 ^ 62 else 2 ^ 61

/-- A tracker in deterministic mode with interval 16. -/
def t_sixteen : AllocationTracker := { t_active with sampling_interval := 16 }

/-- A thread that carries a remainder of -16. -/
def tl_carry : TrackerThreadLocalState := { tl_ready with remaining_bytes := -16 }

end AllocationTracker

/-! ## ELF offsets (ddprof_module_lib.cc) -/

/-- ELF file types of `elf.h`. -/
def ET_EXEC : Nat := 2

/-- Shared object file type of `elf.h`. -/
def ET_DYN : Nat := 3

/-- Core file type of `elf.h`. -/
def ET_CORE : Nat := 4

/-- Loadable segment type of `elf.h`. -/
def PT_LOAD : Nat := 1

/-- Execute permission flag of a segment (`elf.h`). -/
def PF_X : Nat := 1

/-- Read permission flag of a segment (`elf.h`). -/
def PF_R : Nat := 4

/-- Modelled from the spec: `Offset_t` (declared in ddprof_defs.hpp, which is
not among the sources) is an unsigned 64-bit integer; this is the conversion
of an arithmetic result to it. -/
def to_offset (x : Int) : Nat := to_u64 x

/-- The field of `GElf_Ehdr` the code reads. -/
structure Ehdr where
  e_type : Nat
  deriving DecidableEq

/-- The fields of `GElf_Phdr` the code reads. -/
structure Phdr where
  p_type : Nat
  p_flags : Nat
  p_vaddr : Nat
  p_offset : Nat
  deriving DecidableEq

/-- What libelf answers for one file descriptor. -/
structure ElfFile where
  /-- Whether `elf_begin` returns a descriptor. -/
  elf_begin : Bool
  /-- Result of `gelf_getehdr` (`none` for a null pointer). -/
  gelf_getehdr : Option Ehdr
  /-- Result of `elf_getphdrnum` (`none` when it fails). -/
  elf_getphdrnum : Option Nat
  /-- Result of `gelf_getphdr(elf, i, _)` (`none` for a null pointer). -/
  gelf_getphdr : Nat → Option Phdr

/-- The variables of the loop of `get_elf_offsets`, with the number of calls to
`report_failed_assumption`. -/
structure ElfOffsets where
  found_exec : Bool
  bias_offset : Nat
  failed_assumptions : Nat
  deriving DecidableEq

/-- The body of the loop of `get_elf_offsets` for one program header. -/
def visit_phdr (s : ElfOffsets) (ph : Phdr) : ElfOffsets :=
  let rx := PF_X ||| PF_R
  if ph.p_type == PT_LOAD then
    if (ph.p_flags &&& rx) == rx then
      if !s.found_exec then
        { s with bias_offset := to_offset ((ph.p_vaddr : Int) - ph.p_offset), found_exec := true }
      else { s with failed_assumptions := s.failed_assumptions + 1 }
    else s
  else s

/-- The loop of `get_elf_offsets` over the answers of `gelf_getphdr` for
`i = 0 .. phnum - 1`; `.error` is the early `return false` on a null pointer. -/
def scan_phdrs : List (Option Phdr) → ElfOffsets → Except ElfOffsets ElfOffsets
  | [], s => .ok s
  | none :: _, s => .error s
  | some ph :: rest, s => scan_phdrs rest (visit_phdr s ph)

/-- The `get_elf_offsets` function: the returned boolean, with the value of the
out-parameter `bias_offset` and the number of failed assumptions reported. -/
def get_elf_offsets (elf : ElfFile) (bias_offset : Nat) : Bool × ElfOffsets :=
  let start : ElfOffsets :=
    { found_exec := false, bias_offset := bias_offset, failed_assumptions := 0 }
  if !elf.elf_begin then (false, start)
  else
    match elf.gelf_getehdr with
    | none => (false, start)
    | some ehdr =>
      if ehdr.e_type == ET_EXEC || ehdr.e_type == ET_CORE || ehdr.e_type == ET_DYN then
        match elf.elf_getphdrnum with
        | none => (false, start)
        | some phnum =>
          match scan_phdrs ((List.range phnum).map elf.gelf_getphdr) start with
          | .error s => (false, s)
          | .ok s => (s.found_exec, s)
      else (false, start)

/-- The fields of `Dso` that `report_module` and the symbol lookup read. -/
structure Dso where
  _start : Nat
  _pgoff : Nat
  _type : Nat
  _filename : String

/-- What the surroundings answer during `report_module`. -/
structure ModuleEnv where
  /-- Whether `dwfl_addrmodule` finds a module at `pc`. -/
  dwfl_addrmodule : Bool
  /-- The ELF file behind `fileInfoValue._fd`. -/
  elf : ElfFile
  /-- Whether `dup` succeeds. -/
  dup_ok : Bool
  /-- Whether `dwfl_report_elf` returns a module. -/
  dwfl_report_elf : Bool

/-- Result of `report_module`. -/
inductive ModuleRes where
  | ddres_init
  | ddres_warn_module
  deriving DecidableEq

/-- What `report_module` leaves behind: its result, `fileInfoValue._errored`,
whether `ddprof_mod._status` was set to `kInconsistent`, the bias passed to
`dwfl_report_elf` if that call was made, and `ddprof_mod._sym_bias`. -/
structure ModuleReport where
  result : ModuleRes
  _errored : Bool
  inconsistent : Bool
  reported_bias : Option Nat
  _sym_bias : Nat
  deriving DecidableEq

/-- The `report_module` function; `errored` and `sym_bias` are the values of
`fileInfoValue._errored` and `ddprof_mod._sym_bias` at the call. -/
def report_module (env : ModuleEnv) (dso : Dso) (errored : Bool) (sym_bias : Nat) :
    ModuleReport :=
  if errored then
    { result := .ddres_warn_module, _errored := errored, inconsistent := false,
      reported_bias := none, _sym_bias := sym_bias }
  else if env.dwfl_addrmodule then
    { result := .ddres_warn_module, _errored := errored, inconsistent := true,
      reported_bias := none, _sym_bias := sym_bias }
  else
    let r := get_elf_offsets env.elf 0
    if !r.1 then
      { result := .ddres_warn_module, _errored := true, inconsistent := false,
        reported_bias := none, _sym_bias := sym_bias }
    else
      let bias := to_offset ((dso._start : Int) - dso._pgoff - r.2.bias_offset)
      if !env.dup_ok then
        { result := .ddres_warn_module, _errored := errored, inconsistent := false,
          reported_bias := none, _sym_bias := sym_bias }
      else if !env.dwfl_report_elf then
        { result := .ddres_warn_module, _errored := true, inconsistent := false,
          reported_bias := some bias, _sym_bias := sym_bias }
      else
        { result := .ddres_init, _errored := errored, inconsistent := false,
          reported_bias := some bias, _sym_bias := bias }

/-- An ELF file on which every libelf call succeeds, with the given type and
program headers. -/
def elf_of (e_type : Nat) (phdrs : List Phdr) : ElfFile :=
  { elf_begin := true
    gelf_getehdr := some { e_type := e_type }
    elf_getphdrnum := some phdrs.length
    gelf_getphdr := fun i => phdrs[i]? }

/-- Whether a program header is a PT_LOAD segment with both the read and the
execute flag. -/
def is_exec_load (ph : Phdr) : Bool :=
  ph.p_type == PT_LOAD && ph.p_flags.testBit 0 && ph.p_flags.testBit 2

/-- Surroundings of `report_module` in which no module is loaded at `pc` and
`dup` and `dwfl_report_elf` succeed. -/
def module_env_of (elf : ElfFile) : ModuleEnv :=
  { dwfl_addrmodule := false, elf := elf, dup_ok := true, dwfl_report_elf := true }

/-- Program headers of a shared object with two executable LOAD segments
between other segments. -/
def phdrs_two_exec : List Phdr :=
  [{ p_type := 6, p_flags := 4, p_vaddr := 64, p_offset := 64 },
   { p_type := 1, p_flags := 4, p_vaddr := 0, p_offset := 0 },
   { p_type := 1, p_flags := 5, p_vaddr := 0x2000, p_offset := 0x1000 },
   { p_type := 1, p_flags := 6, p_vaddr := 0x4000, p_offset := 0x2000 },
   { p_type := 1, p_flags := 7, p_vaddr := 0x9000, p_offset := 0x3000 }]

/-! ## Symbol lookup for DSOs (dso_symbol_lookup.cc) -/

/-- Modelled from the spec: `SymbolIdx_t` (declared in ddprof_defs.hpp, which
is not among the sources) is taken wide enough to hold the size of the symbol
table; this is the conversion of `symbol_table.size()` to it. -/
def to_symbol_idx (n : Nat) : Nat := n

/-- An entry of the symbol table: the four members the constructors fill in
(symbol name, demangled name, line number, source path). -/
structure Symbol where
  symname : String
  demangle_name : String
  lineno : Nat
  srcpath : String
  deriving DecidableEq

/-- What the declarations of dso_type.hpp, dso.hpp and absl answer: they are
not among the sources. -/
structure DsoEnv where
  /-- The `has_relevant_path` predicate on DSO types. -/
  has_relevant_path : Nat → Bool
  /-- The enumerator `DsoType::kVdso`. -/
  kVdso : Nat
  /-- The enumerator `DsoType::kVsysCall`. -/
  kVsysCall : Nat
  /-- The `dso_type_str` function. -/
  dso_type_str : Nat → String
  /-- The `Dso::format_filename` member. -/
  format_filename : Dso → String
  /-- The value of `absl::StrFormat("[%#x:%s]", normalized_addr, addr_type)`. -/
  str_format : Nat → String → String

/-- The `symbol_from_unhandled_dso` function. -/
def symbol_from_unhandled_dso (env : DsoEnv) (dso : Dso) : Symbol :=
  { symname := "", demangle_name := "", lineno := 0, srcpath := env.dso_type_str dso._type }

/-- The `symbol_from_dso` function. -/
def symbol_from_dso (env : DsoEnv) (normalized_addr : Nat) (dso : Dso) (addr_type : String) :
    Symbol :=
  let dso_dbg_str := if normalized_addr != 0 then env.str_format normalized_addr addr_type else ""
  { symname := dso_dbg_str, demangle_name := dso_dbg_str, lineno := 0,
    srcpath := env.format_filename dso }

/-- The two maps of a `DsoSymbolLookup`: DSO type to symbol index, and file
name to the map from normalized address to symbol index.  An absent key is
`none`; a file name can be present with an empty address map. -/
structure DsoSymbolLookup where
  _map_unhandled_dso : Nat → Option Nat
  _map_dso_path : String → Option (Nat → Option Nat)

/-- The `DsoSymbolLookup::get_or_insert_unhandled_type` member: the returned
index, the lookup and the symbol table after the call. -/
def get_or_insert_unhandled_type (env : DsoEnv) (l : DsoSymbolLookup) (dso : Dso)
    (symbol_table : List Symbol) : Nat × DsoSymbolLookup × List Symbol :=
  match l._map_unhandled_dso dso._type with
  | some idx => (idx, l, symbol_table)
  | none =>
    let symbol_idx := to_symbol_idx symbol_table.length
    (symbol_idx,
      { l with
        _map_unhandled_dso := Function.update l._map_unhandled_dso dso._type (some symbol_idx) },
      symbol_table ++ [symbol_from_unhandled_dso env dso])

/-- The `DsoSymbolLookup::get_or_insert` member (four-argument form): the
returned index, the lookup and the symbol table after the call.
`_map_dso_path[dso._filename]` creates an empty address map when the file name
is not yet a key. -/
def get_or_insert (env : DsoEnv) (l : DsoSymbolLookup) (normalized_addr : Nat) (dso : Dso)
    (symbol_table : List Symbol) (addr_type : String) :
    Nat × DsoSymbolLookup × List Symbol :=
  if !env.has_relevant_path dso._type && dso._type != env.kVdso &&
      dso._type != env.kVsysCall then
    get_or_insert_unhandled_type env l dso symbol_table
  else
    let addr_lookup : Nat → Option Nat := (l._map_dso_path dso._filename).getD (fun _ => none)
    match addr_lookup normalized_addr with
    | some idx =>
      (idx,
        { l with
          _map_dso_path := Function.update l._map_dso_path dso._filename (some addr_lookup) },
        symbol_table)
    | none =>
      let symbol_idx := to_symbol_idx symbol_table.length
      (symbol_idx,
        { l with
          _map_dso_path := Function.update l._map_dso_path dso._filename
            (some (Function.update addr_lookup normalized_addr (some symbol_idx))) },
        symbol_table ++ [symbol_from_dso env normalized_addr dso addr_type])

/-- Whether addresses are recorded for the DSO: its type has a relevant path
or is vdso or vsyscall. -/
def addresses_recorded (env : DsoEnv) (dso : Dso) : Bool :=
  env.has_relevant_path dso._type || dso._type == env.kVdso || dso._type == env.kVsysCall

/-- The index the lookup holds for a DSO and a normalized address: under the
file name and the address when addresses are recorded for the DSO, under the
DSO type otherwise. -/
def recorded_index (env : DsoEnv) (l : DsoSymbolLookup) (normalized_addr : Nat) (dso : Dso) :
    Option Nat :=
  if addresses_recorded env dso then
    (l._map_dso_path dso._filename).bind (fun m => m normalized_addr)
  else l._map_unhandled_dso dso._type

/-- Whether two calls use the same key: the same file name and address when
addresses are recorded for both DSOs, the same DSO type when they are recorded
for neither. -/
def same_key (env : DsoEnv) (dso : Dso) (normalized_addr : Nat) (dso2 : Dso)
    (normalized_addr2 : Nat) : Prop :=
  (addresses_recorded env dso = true ∧ addresses_recorded env dso2 = true ∧
    dso2._filename = dso._filename ∧ normalized_addr2 = normalized_addr) ∨
  (addresses_recorded env dso = false ∧ dso2._type = dso._type)

/-- DSO types for the examples: types 0, 1 and 2 have addresses recorded
(standard path, vdso, vsyscall), the others do not. -/
def dso_env0 : DsoEnv :=
  { has_relevant_path := fun ty => ty == 0, kVdso := 1, kVsysCall := 2,
    dso_type_str := fun ty => if ty == 3 then "[stack]" else "[anon]",
    format_filename := fun dso => dso._filename,
    str_format := fun _ addr_type => addr_type }

/-- An empty lookup. -/
def lookup_empty : DsoSymbolLookup :=
  { _map_unhandled_dso := fun _ => none, _map_dso_path := fun _ => none }

/-- A DSO backed by a file. -/
def dso_libc : Dso :=
  { _start := 0x7f0000001000, _pgoff := 0x1000, _type := 0, _filename := "/usr/lib/libc.so" }

/-- A stack mapping. -/
def dso_stack : Dso := { _start := 0x7ffd00000000, _pgoff := 0, _type := 3, _filename := "[stack]" }

/-! ## Basic facts about the building blocks -/

open AllocationTracker

theorem wrap_i64_of_range (x : Int) (h1 : -2 ^ 63 ≤ x) (h2 : x < 2 ^ 63) : wrap_i64 x = x := by
  unfold wrap_i64
  rw [Int.emod_eq_of_lt (by omega) (by omega)]
  omega

theorem to_u64_of_nonneg (x : Int) (h1 : 0 ≤ x) (h2 : x < 2 ^ 64) : to_u64 x = x.toNat := by
  unfold to_u64
  rw [Int.emod_eq_of_lt h1 h2]

@[simp] theorem check_timer_fields (t : AllocationTracker) (now : Int) :
    (t.check_timer now).ring = t.ring ∧
    (t.check_timer now).track_allocations = t.track_allocations ∧
    (t.check_timer now).track_deallocations = t.track_deallocations ∧
    (t.check_timer now).pid = t.pid ∧
    (t.check_timer now).lost_count = t.lost_count ∧
    (t.check_timer now).failure_count = t.failure_count ∧
    (t.check_timer now).sampling_interval = t.sampling_interval ∧
    (t.check_timer now).deterministic_sampling = t.deterministic_sampling ∧
    (t.check_timer now).stack_sample_size = t.stack_sample_size ∧
    (t.check_timer now).allocated_address_set = t.allocated_address_set ∧
    (t.check_timer now).interval_timer_check = t.interval_timer_check ∧
    (t.check_timer now).mapped = t.mapped ∧
    (t.check_timer now).has_instance = t.has_instance ∧
    (t.check_timer now).thread_entries = t.thread_entries := by
  unfold check_timer update_timer
  split_ifs <;> simp

@[simp] theorem cache_pid_fields (t : AllocationTracker) (env : Env) :
    (t.cache_pid env).ring = t.ring ∧
    (t.cache_pid env).track_allocations = t.track_allocations ∧
    (t.cache_pid env).track_deallocations = t.track_deallocations ∧
    (t.cache_pid env).lost_count = t.lost_count ∧
    (t.cache_pid env).failure_count = t.failure_count ∧
    (t.cache_pid env).next_check_time = t.next_check_time ∧
    (t.cache_pid env).sampling_interval = t.sampling_interval ∧
    (t.cache_pid env).deterministic_sampling = t.deterministic_sampling ∧
    (t.cache_pid env).stack_sample_size = t.stack_sample_size ∧
    (t.cache_pid env).allocated_address_set = t.allocated_address_set ∧
    (t.cache_pid env).interval_timer_check = t.interval_timer_check ∧
    (t.cache_pid env).mapped = t.mapped ∧
    (t.cache_pid env).has_instance = t.has_instance ∧
    (t.cache_pid env).callback_times = t.callback_times ∧
    (t.cache_pid env).thread_entries = t.thread_entries := by
  unfold cache_pid
  split_ifs <;> simp

@[simp] theorem cache_pid_pid (t : AllocationTracker) (env : Env) :
    (t.cache_pid env).pid = if t.pid = 0 then env.getpid else t.pid := by
  unfold cache_pid
  split_ifs <;> simp_all

@[simp] theorem cache_tid_tid (tl : TrackerThreadLocalState) (env : Env) :
    (cache_tid tl env).tid = if tl.tid = 0 then env.gettid else tl.tid := by
  unfold cache_tid
  split_ifs <;> simp_all

@[simp] theorem cache_tid_fields (tl : TrackerThreadLocalState) (env : Env) :
    (cache_tid tl env).remaining_bytes = tl.remaining_bytes ∧
    (cache_tid tl env).remaining_bytes_initialized = tl.remaining_bytes_initialized ∧
    (cache_tid tl env).stack_bounds = tl.stack_bounds ∧
    (cache_tid tl env).reentry_guard = tl.reentry_guard := by
  unfold cache_tid
  split_ifs <;> simp

@[simp] theorem free_fields (t : AllocationTracker) :
    t.free.track_allocations = false ∧
    t.free.track_deallocations = false ∧
    t.free.ring = t.ring ∧
    t.free.pid = t.pid ∧
    t.free.lost_count = t.lost_count ∧
    t.free.failure_count = t.failure_count ∧
    t.free.next_check_time = t.next_check_time ∧
    t.free.sampling_interval = t.sampling_interval ∧
    t.free.deterministic_sampling = t.deterministic_sampling ∧
    t.free.stack_sample_size = t.stack_sample_size ∧
    t.free.allocated_address_set = t.allocated_address_set ∧
    t.free.interval_timer_check = t.interval_timer_check ∧
    t.free.callback_times = t.callback_times ∧
    t.free.thread_entries = t.thread_entries := by
  simp [free]

@[simp] theorem free_on_consecutive_failures_fields (c : Consts) (t : AllocationTracker)
    (success : Bool) :
    (free_on_consecutive_failures c t success).ring = t.ring ∧
    (free_on_consecutive_failures c t success).pid = t.pid ∧
    (free_on_consecutive_failures c t success).lost_count = t.lost_count ∧
    (free_on_consecutive_failures c t success).next_check_time = t.next_check_time ∧
    (free_on_consecutive_failures c t success).sampling_interval = t.sampling_interval ∧
    (free_on_consecutive_failures c t success).deterministic_sampling =
      t.deterministic_sampling ∧
    (free_on_consecutive_failures c t success).stack_sample_size = t.stack_sample_size ∧
    (free_on_consecutive_failures c t success).allocated_address_set =
      t.allocated_address_set ∧
    (free_on_consecutive_failures c t success).interval_timer_check =
      t.interval_timer_check ∧
    (free_on_consecutive_failures c t success).callback_times = t.callback_times ∧
    (free_on_consecutive_failures c t success).thread_entries = t.thread_entries := by
  unfold free_on_consecutive_failures
  dsimp only
  split_ifs <;> simp

/-- The flags never turn on in the failure accounting. -/
theorem free_on_consecutive_failures_flags (c : Consts) (t : AllocationTracker)
    (success : Bool) :
    ((free_on_consecutive_failures c t success).track_allocations = true →
      t.track_allocations = true) ∧
    ((free_on_consecutive_failures c t success).track_deallocations = true →
      t.track_deallocations = true) := by
  unfold free_on_consecutive_failures
  dsimp only
  split_ifs <;> simp

/-- A successful push leaves both flags as they are. -/
theorem free_on_consecutive_failures_success (c : Consts) (t : AllocationTracker) :
    (free_on_consecutive_failures c t true).track_allocations = t.track_allocations ∧
    (free_on_consecutive_failures c t true).track_deallocations = t.track_deallocations ∧
    (free_on_consecutive_failures c t true).failure_count = 0 := by
  unfold free_on_consecutive_failures
  by_cases h : t.failure_count > 0
  · simp [h]
  · have h0 : t.failure_count = 0 := by omega
    simp [h0]

/-! ## What the push functions commit -/

theorem count_samples_append (l1 l2 : List Committed) :
    count_samples (l1 ++ l2) = count_samples l1 + count_samples l2 := by
  simp [count_samples]

theorem flush_lost_ring (c : Consts) (t : AllocationTracker) (tl : TrackerThreadLocalState)
    (env : Env) : (flush_lost c t tl env).1.ring = t.ring ++ flushed c t tl env := by
  by_cases hl : t.lost_count = 0 <;> cases hr : env.lost.reserve <;>
    simp [flush_lost, flushed, push_lost_sample, hl, hr]

@[simp] theorem flush_lost_fields (c : Consts) (t : AllocationTracker)
    (tl : TrackerThreadLocalState) (env : Env) :
    (flush_lost c t tl env).1.track_allocations = t.track_allocations ∧
    (flush_lost c t tl env).1.track_deallocations = t.track_deallocations ∧
    (flush_lost c t tl env).1.failure_count = t.failure_count ∧
    (flush_lost c t tl env).1.sampling_interval = t.sampling_interval ∧
    (flush_lost c t tl env).1.deterministic_sampling = t.deterministic_sampling ∧
    (flush_lost c t tl env).1.stack_sample_size = t.stack_sample_size ∧
    (flush_lost c t tl env).1.allocated_address_set = t.allocated_address_set ∧
    (flush_lost c t tl env).1.interval_timer_check = t.interval_timer_check ∧
    (flush_lost c t tl env).1.mapped = t.mapped ∧
    (flush_lost c t tl env).1.has_instance = t.has_instance ∧
    (flush_lost c t tl env).1.thread_entries = t.thread_entries ∧
    (flush_lost c t tl env).2.1.remaining_bytes = tl.remaining_bytes ∧
    (flush_lost c t tl env).2.1.remaining_bytes_initialized = tl.remaining_bytes_initialized ∧
    (flush_lost c t tl env).2.1.stack_bounds = tl.stack_bounds ∧
    (flush_lost c t tl env).2.1.reentry_guard = tl.reentry_guard := by
  by_cases hl : t.lost_count = 0 <;> cases hr : env.lost.reserve <;>
    simp [flush_lost, push_lost_sample, hl, hr]

theorem count_samples_flushed (c : Consts) (t : AllocationTracker)
    (tl : TrackerThreadLocalState) (env : Env) : count_samples (flushed c t tl env) = 0 := by
  unfold flushed
  split_ifs <;> simp [count_samples, lost_record, Committed.isSample, Event.hdr]

/-- The ring after `push_alloc_sample` when the stack bounds are known and the
reservation succeeds: the flushed LOST record, if any, then the SAMPLE. -/
theorem push_alloc_sample_ring_ok (c : Consts) (t : AllocationTracker)
    (tl : TrackerThreadLocalState) (env : Env) (addr allocated_size : Nat)
    (hres : env.main.reserve = .ok) (hstack : stack_bounds_available tl env = true) :
    (push_alloc_sample c t tl env addr allocated_size).2.1.ring =
      t.ring ++ flushed c t tl env ++
        [sample_record c env.main.now ((flush_lost c t tl env).1.cache_pid env).pid
          (cache_tid (flush_lost c t tl env).2.1 env).tid addr allocated_size
          (sample_stack_size c t (current_stack_bounds tl env) env) env.dyn_size] := by
  have hb : (current_stack_bounds tl env).empty = false := by
    unfold stack_bounds_available at hstack
    unfold current_stack_bounds
    split_ifs with h <;> simp_all
  unfold current_stack_bounds at hb
  by_cases he : tl.stack_bounds.empty = true
  · simp only [he, if_true] at hb
    simp [push_alloc_sample, hres, he, hb, flush_lost_ring, current_stack_bounds,
      sample_stack_size]
    split_ifs <;> simp [flush_lost_ring]
  · simp only [he] at hb
    simp [push_alloc_sample, hres, he, flush_lost_ring, current_stack_bounds,
      sample_stack_size]
    split_ifs <;> simp [flush_lost_ring]

@[simp] theorem push_alloc_sample_fields (c : Consts) (t : AllocationTracker)
    (tl : TrackerThreadLocalState) (env : Env) (addr allocated_size : Nat) :
    (push_alloc_sample c t tl env addr allocated_size).2.1.track_allocations =
      t.track_allocations ∧
    (push_alloc_sample c t tl env addr allocated_size).2.1.track_deallocations =
      t.track_deallocations ∧
    (push_alloc_sample c t tl env addr allocated_size).2.1.failure_count = t.failure_count ∧
    (push_alloc_sample c t tl env addr allocated_size).2.1.sampling_interval =
      t.sampling_interval ∧
    (push_alloc_sample c t tl env addr allocated_size).2.1.deterministic_sampling =
      t.deterministic_sampling ∧
    (push_alloc_sample c t tl env addr allocated_size).2.1.stack_sample_size =
      t.stack_sample_size ∧
    (push_alloc_sample c t tl env addr allocated_size).2.1.allocated_address_set =
      t.allocated_address_set ∧
    (push_alloc_sample c t tl env addr allocated_size).2.1.interval_timer_check =
      t.interval_timer_check ∧
    (push_alloc_sample c t tl env addr allocated_size).2.1.mapped = t.mapped ∧
    (push_alloc_sample c t tl env addr allocated_size).2.1.has_instance = t.has_instance ∧
    (push_alloc_sample c t tl env addr allocated_size).2.1.thread_entries =
      t.thread_entries ∧
    (push_alloc_sample c t tl env addr allocated_size).2.2.remaining_bytes =
      tl.remaining_bytes ∧
    (push_alloc_sample c t tl env addr allocated_size).2.2.remaining_bytes_initialized =
      tl.remaining_bytes_initialized ∧
    (push_alloc_sample c t tl env addr allocated_size).2.2.stack_bounds =
      current_stack_bounds tl env ∧
    (push_alloc_sample c t tl env addr allocated_size).2.2.reentry_guard =
      tl.reentry_guard := by
  unfold push_alloc_sample current_stack_bounds
  dsimp only
  by_cases he : tl.stack_bounds.empty = true <;>
    by_cases hb : env.retrieve_stack_bounds.empty = true <;>
    cases hr : env.main.reserve <;> simp [he, hb] <;> split_ifs <;> simp

/-- The ring after `push_alloc_sample`, in all cases. -/
theorem push_alloc_sample_ring (c : Consts) (t : AllocationTracker)
    (tl : TrackerThreadLocalState) (env : Env) (addr allocated_size : Nat) :
    (push_alloc_sample c t tl env addr allocated_size).2.1.ring =
      t.ring ++ flushed c t tl env ++ pushed_sample c t tl env addr allocated_size := by
  by_cases hstack : stack_bounds_available tl env = true
  · cases hres : env.main.reserve
    · rw [push_alloc_sample_ring_ok c t tl env addr allocated_size hres hstack]
      simp [pushed_sample, hstack, hres]
    all_goals
      have hb : (current_stack_bounds tl env).empty = false := by
        unfold stack_bounds_available at hstack
        unfold current_stack_bounds
        split_ifs with h <;> simp_all
      unfold current_stack_bounds at hb
      by_cases he : tl.stack_bounds.empty = true
      · simp only [he, if_true] at hb
        simp [push_alloc_sample, hres, he, hb, flush_lost_ring, pushed_sample]
      · simp only [he] at hb
        simp [push_alloc_sample, hres, he, flush_lost_ring, pushed_sample]
  · have h1 : tl.stack_bounds.empty = true ∧ env.retrieve_stack_bounds.empty = true := by
      unfold stack_bounds_available at hstack
      simpa using hstack
    simp [push_alloc_sample, h1.1, h1.2, flush_lost_ring, pushed_sample, hstack]

theorem push_clear_live_allocation_ring (c : Consts) (t : AllocationTracker)
    (tl : TrackerThreadLocalState) (env : Env) :
    (push_clear_live_allocation c t tl env).2.1.ring = t.ring ++ cleared c t tl env := by
  cases hr : env.clear.reserve <;> simp [push_clear_live_allocation, cleared, hr]
  split_ifs <;> simp

@[simp] theorem push_clear_live_allocation_fields (c : Consts) (t : AllocationTracker)
    (tl : TrackerThreadLocalState) (env : Env) :
    (push_clear_live_allocation c t tl env).2.1.track_allocations = t.track_allocations ∧
    (push_clear_live_allocation c t tl env).2.1.track_deallocations =
      t.track_deallocations ∧
    (push_clear_live_allocation c t tl env).2.1.lost_count = t.lost_count ∧
    (push_clear_live_allocation c t tl env).2.1.failure_count = t.failure_count ∧
    (push_clear_live_allocation c t tl env).2.1.sampling_interval = t.sampling_interval ∧
    (push_clear_live_allocation c t tl env).2.1.deterministic_sampling =
      t.deterministic_sampling ∧
    (push_clear_live_allocation c t tl env).2.1.stack_sample_size = t.stack_sample_size ∧
    (push_clear_live_allocation c t tl env).2.1.allocated_address_set =
      t.allocated_address_set ∧
    (push_clear_live_allocation c t tl env).2.1.interval_timer_check =
      t.interval_timer_check ∧
    (push_clear_live_allocation c t tl env).2.1.mapped = t.mapped ∧
    (push_clear_live_allocation c t tl env).2.1.has_instance = t.has_instance ∧
    (push_clear_live_allocation c t tl env).2.1.thread_entries = t.thread_entries ∧
    (push_clear_live_allocation c t tl env).2.2.remaining_bytes = tl.remaining_bytes ∧
    (push_clear_live_allocation c t tl env).2.2.remaining_bytes_initialized =
      tl.remaining_bytes_initialized ∧
    (push_clear_live_allocation c t tl env).2.2.stack_bounds = tl.stack_bounds ∧
    (push_clear_live_allocation c t tl env).2.2.reentry_guard = tl.reentry_guard := by
  cases hr : env.clear.reserve <;> simp [push_clear_live_allocation, hr]
  split_ifs <;> simp

/-- The thread state fields the live-address bookkeeping leaves alone, and the
tracker configuration it keeps. -/
theorem track_live_address_fields (c : Consts) (t : AllocationTracker)
    (tl : TrackerThreadLocalState) (env : Env) (addr : Nat) :
    (track_live_address c t tl env addr).2.1.remaining_bytes = tl.remaining_bytes ∧
    (track_live_address c t tl env addr).2.1.remaining_bytes_initialized =
      tl.remaining_bytes_initialized ∧
    (track_live_address c t tl env addr).2.1.stack_bounds = tl.stack_bounds ∧
    (track_live_address c t tl env addr).2.1.reentry_guard = tl.reentry_guard ∧
    (track_live_address c t tl env addr).1.sampling_interval = t.sampling_interval ∧
    (track_live_address c t tl env addr).1.deterministic_sampling =
      t.deterministic_sampling ∧
    (track_live_address c t tl env addr).1.stack_sample_size = t.stack_sample_size ∧
    (track_live_address c t tl env addr).1.lost_count = t.lost_count ∧
    (track_live_address c t tl env addr).1.failure_count = t.failure_count := by
  unfold track_live_address
  dsimp only
  split_ifs <;> simp

theorem cleared_isClear (c : Consts) (t : AllocationTracker) (tl : TrackerThreadLocalState)
    (env : Env) : ∀ r ∈ cleared c t tl env, r.isClear = true := by
  intro r hr
  unfold cleared at hr
  split_ifs at hr
  · simp only [List.mem_singleton] at hr
    subst hr
    rfl
  · simp at hr

theorem track_live_address_ring_cases (c : Consts) (t : AllocationTracker)
    (tl : TrackerThreadLocalState) (env : Env) (addr : Nat) :
    (track_live_address c t tl env addr).1.ring = t.ring ∨
    (track_live_address c t tl env addr).1.ring = t.ring ++
      cleared c { t with
        allocated_address_set := insert (c.address_slot addr) t.allocated_address_set }
        tl env := by
  unfold track_live_address
  dsimp only
  split_ifs <;> simp [push_clear_live_allocation_ring]

/-- The records the live-address bookkeeping commits: at most the CLEAR. -/
theorem track_live_address_ring (c : Consts) (t : AllocationTracker)
    (tl : TrackerThreadLocalState) (env : Env) (addr : Nat) :
    ∃ l, (track_live_address c t tl env addr).1.ring = t.ring ++ l ∧
      ∀ r ∈ l, r.isClear = true := by
  rcases track_live_address_ring_cases c t tl env addr with h | h
  · exact ⟨[], by simp [h], by simp⟩
  · exact ⟨_, h, cleared_isClear _ _ _ _⟩

/-! ## The sampling decision -/

theorem wrap_i64_neg_one : wrap_i64 (wrap_i64 0 - 1) = -1 := by decide

theorem next_sample_interval_one (t : AllocationTracker) (v : Nat)
    (hI : t.sampling_interval = 1) : t.next_sample_interval v = 1 := by
  simp [next_sample_interval, hI]

theorem sample_loop_interval_one (fuel : Nat) (t : AllocationTracker) (draws : Nat → Nat)
    (k n : Nat) (hI : t.sampling_interval = 1) :
    sample_loop t draws (fuel + 1) k 0 n = .ok (-1, (n + 1) % 2 ^ 64) := by
  have h : wrap_i64 ((0 : Int) - ((1 : Nat) : Int)) = -1 := by decide
  have h2 : ¬ ((-1 : Int) ≥ 0) := by decide
  rw [sample_loop]
  simp only [next_sample_interval_one t _ hI, h, h2, if_false]

/-- With a sampling interval of 1 the decision takes exactly one turn of the
loop and leaves `remaining_bytes = -1`. -/
theorem sampling_decision_interval_one (fuel : Nat) (t : AllocationTracker)
    (tl : TrackerThreadLocalState) (draws : Nat → Nat) (hI : t.sampling_interval = 1)
    (hr : tl.remaining_bytes_initialized = true ∨ 0 ≤ wrap_i64 (tl.remaining_bytes - 1)) :
    ∃ n, sampling_decision (fuel + 1) t tl draws =
      .ok ({ tl with remaining_bytes_initialized := true, remaining_bytes := -1 },
        some (n, n)) := by
  have hw0 : wrap_i64 ((0 : Nat) : Int) = 0 := by decide
  by_cases hi : tl.remaining_bytes_initialized = true
  · refine ⟨(to_u64 tl.remaining_bytes / 1 + 1) % 2 ^ 64, ?_⟩
    unfold sampling_decision
    dsimp only
    simp only [hi, hI, Bool.not_true, Bool.false_and, Bool.false_eq_true, if_false,
      Nat.mod_one, hw0, sample_loop_interval_one _ t draws _ _ hI, Nat.mul_one, Nat.mod_mod,
      beq_iff_eq, one_ne_zero]
  · have h0 : 0 ≤ wrap_i64 (tl.remaining_bytes - 1) := by
      rcases hr with h | h
      · exact absurd h hi
      · exact h
    have hi' : tl.remaining_bytes_initialized = false := by simpa using hi
    have h1 : ¬ wrap_i64 (tl.remaining_bytes - ((1 : Nat) : Int)) < 0 := by
      simpa using h0
    refine ⟨(to_u64 (wrap_i64 (tl.remaining_bytes - 1)) / 1 + 1) % 2 ^ 64, ?_⟩
    unfold sampling_decision
    dsimp only
    simp only [hi', hI, Bool.not_false, Bool.true_and, if_true, decide_eq_true_eq, h1,
      if_false, next_sample_interval_one t _ hI,
      Nat.mod_one, hw0, sample_loop_interval_one _ t draws _ _ hI, Nat.mul_one, Nat.mod_mod,
      beq_iff_eq, one_ne_zero, Nat.cast_one]
    have h2 : ¬ wrap_i64 (tl.remaining_bytes - 1) < 0 := by omega
    rw [if_neg h2]

/-- The sampling decision, expressed with the value `remaining_bytes` has when
the decision starts. -/
theorem sampling_decision_eq (fuel : Nat) (t : AllocationTracker)
    (tl : TrackerThreadLocalState) (draws : Nat → Nat) :
    sampling_decision fuel t tl draws =
      if tl.remaining_bytes_initialized = false ∧ decision_start t tl draws < 0 then
        .ok ({ tl with remaining_bytes_initialized := true,
                       remaining_bytes := decision_start t tl draws }, none)
      else if t.sampling_interval = 0 then .error .division_by_zero
      else
        match sample_loop t draws fuel (if tl.remaining_bytes_initialized then 0 else 1)
            (wrap_i64 ((to_u64 (decision_start t tl draws) % t.sampling_interval : Nat) : Int))
            (to_u64 (decision_start t tl draws) / t.sampling_interval) with
        | .error e => .error e
        | .ok (remaining_bytes2, nsamples2) =>
          .ok ({ tl with remaining_bytes_initialized := true,
                         remaining_bytes := remaining_bytes2 },
            some (nsamples2, (nsamples2 * t.sampling_interval) % 2 ^ 64)) := by
  unfold sampling_decision decision_start
  dsimp only
  cases hi : tl.remaining_bytes_initialized
  · simp only [Bool.not_false, Bool.true_and, if_true, decide_eq_true_eq, true_and,
      Bool.false_eq_true, if_false, beq_iff_eq]
  · simp only [Bool.not_true, Bool.false_and, Bool.false_eq_true, if_false, false_and,
      if_true, beq_iff_eq]
    cases tl
    simp_all

theorem next_sample_interval_deterministic (t : AllocationTracker) (v : Nat)
    (hdet : t.deterministic_sampling = true) :
    t.next_sample_interval v = t.sampling_interval := by
  unfold next_sample_interval
  by_cases h : t.sampling_interval = 1
  · simp [h]
  · simp [h, hdet]

/-- The loop stops after one turn when the first subtraction already makes
`remaining_bytes` negative. -/
theorem sample_loop_one_turn (fuel : Nat) (t : AllocationTracker) (draws : Nat → Nat)
    (k n : Nat) (rem : Int)
    (h : wrap_i64 (rem - t.next_sample_interval (draws k)) < 0) :
    sample_loop t draws (fuel + 1) k rem n =
      .ok (wrap_i64 (rem - t.next_sample_interval (draws k)), (n + 1) % 2 ^ 64) := by
  have h2 : ¬ (wrap_i64 (rem - t.next_sample_interval (draws k)) ≥ 0) := by omega
  rw [sample_loop]
  simp only [h2, if_false]

/-- The sampling decision in deterministic mode, for a non-negative start
value `r`: one turn of the loop, `r / I + 1` samples, and `r mod I - I` left. -/
theorem sampling_decision_deterministic (fuel : Nat) (t : AllocationTracker)
    (tl : TrackerThreadLocalState) (draws : Nat → Nat)
    (hdet : t.deterministic_sampling = true)
    (hI1 : 1 ≤ t.sampling_interval) (hI2 : t.sampling_interval < 2 ^ 63)
    (hr0 : 0 ≤ decision_start t tl draws) (hr1 : decision_start t tl draws < 2 ^ 63) :
    sampling_decision (fuel + 1) t tl draws =
      .ok ({ tl with
              remaining_bytes_initialized := true
              remaining_bytes :=
                decision_start t tl draws -
                  (((decision_start t tl draws).toNat / t.sampling_interval + 1) *
                    t.sampling_interval : Nat) },
        some ((decision_start t tl draws).toNat / t.sampling_interval + 1,
          ((decision_start t tl draws).toNat / t.sampling_interval + 1) *
            t.sampling_interval)) := by
  rw [sampling_decision_eq]
  generalize hr : decision_start t tl draws = r at hr0 hr1 ⊢
  generalize hI : t.sampling_interval = I at hI1 hI2 ⊢
  obtain ⟨m, rfl⟩ : ∃ m : Nat, r = (m : Int) := ⟨r.toNat, (Int.toNat_of_nonneg hr0).symm⟩
  have hm : m < 2 ^ 63 := by exact_mod_cast hr1
  have hu : to_u64 (m : Int) = m := by
    rw [to_u64_of_nonneg _ hr0 (by omega)]
    exact Int.toNat_ofNat m
  have hmod : m % I < I := Nat.mod_lt _ (by omega)
  have hdiv : m / I * I + m % I = m := Nat.div_add_mod' m I
  have hw1 : wrap_i64 ((m % I : Nat) : Int) = ((m % I : Nat) : Int) :=
    wrap_i64_of_range _ (by omega) (by omega)
  have hw2 : wrap_i64 (((m % I : Nat) : Int) - (I : Int)) = ((m % I : Nat) : Int) - (I : Int) :=
    wrap_i64_of_range _ (by omega) (by omega)
  have hn : (m / I + 1) % 2 ^ 64 = m / I + 1 := by
    apply Nat.mod_eq_of_lt
    have : m / I ≤ m := Nat.div_le_self m I
    omega
  have hmul : (m / I + 1) * I = m / I * I + I := by ring
  have ht : ((m / I + 1) * I) % 2 ^ 64 = (m / I + 1) * I := by
    apply Nat.mod_eq_of_lt
    omega
  have hneg : ¬ ((m : Int) < 0) := by omega
  have hI0 : ¬ (I = 0) := by omega
  have hloop := sample_loop_one_turn fuel t draws (if tl.remaining_bytes_initialized then 0 else 1)
    (m / I) ((m % I : Nat) : Int)
  rw [next_sample_interval_deterministic t _ hdet, hI, hw2] at hloop
  have hloop2 := hloop (by omega)
  have hfin : ((m % I : Nat) : Int) - (I : Int) = (m : Int) - (((m / I + 1) * I : Nat) : Int) := by
    have : ((m / I * I + m % I : Nat) : Int) = (m : Int) := by rw [hdiv]
    push_cast at this ⊢
    linarith
  rw [hu, hw1, hloop2]
  simp only [hneg, and_false, if_false, hI0]
  rw [hn, ht, hfin, Int.toNat_ofNat]

/-! ## C1: one SAMPLE per call at interval 1 -/

theorem record_allocation_ring (c : Consts) (t : AllocationTracker)
    (tl : TrackerThreadLocalState) (env : Env) (addr total_size : Nat) :
    (record_allocation c t tl env addr total_size).1.ring =
      (push_alloc_sample c (track_live_address c t tl env addr).1
        (track_live_address c t tl env addr).2.1 env
        (track_live_address c t tl env addr).2.2 total_size).2.1.ring := by
  unfold record_allocation
  dsimp only
  split_ifs <;> simp

theorem track_live_address_off (c : Consts) (t : AllocationTracker)
    (tl : TrackerThreadLocalState) (env : Env) (addr : Nat)
    (hd : t.track_deallocations = false) :
    track_live_address c t tl env addr = (t, tl, addr) := by
  simp [track_live_address, hd]

theorem record_allocation_off (c : Consts) (t : AllocationTracker)
    (tl : TrackerThreadLocalState) (env : Env) (addr total_size : Nat)
    (hd : t.track_deallocations = false) :
    (record_allocation c t tl env addr total_size).1.sampling_interval = t.sampling_interval ∧
    (record_allocation c t tl env addr total_size).1.track_deallocations = false ∧
    (record_allocation c t tl env addr total_size).2.remaining_bytes = tl.remaining_bytes ∧
    (record_allocation c t tl env addr total_size).2.remaining_bytes_initialized =
      tl.remaining_bytes_initialized ∧
    (record_allocation c t tl env addr total_size).2.stack_bounds =
      current_stack_bounds tl env := by
  have hf := (free_on_consecutive_failures_flags c
    (push_alloc_sample c t tl env addr total_size).2.1
    (IsDDResOK (push_alloc_sample c t tl env addr total_size).1)).2
  have hoff : (free_on_consecutive_failures c
      (push_alloc_sample c t tl env addr total_size).2.1
      (IsDDResOK (push_alloc_sample c t tl env addr total_size).1)).track_deallocations
      = false := by
    cases h : (free_on_consecutive_failures c
      (push_alloc_sample c t tl env addr total_size).2.1
      (IsDDResOK (push_alloc_sample c t tl env addr total_size).1)).track_deallocations
    · rfl
    · have := hf h
      simp [hd] at this
  unfold record_allocation
  rw [track_live_address_off c t tl env addr hd]
  simp [hoff]

/-- One call at interval 1: the call returns, commits exactly one more SAMPLE
and keeps what the next call relies on. -/
theorem track_allocation_interval_one (c : Consts) (fuel : Nat) (t : AllocationTracker)
    (tl : TrackerThreadLocalState) (env : Env) (addr : Nat)
    (hI : t.sampling_interval = 1) (hact : t.track_allocations = true)
    (hd : t.track_deallocations = false) (hres : env.main.reserve = .ok)
    (hstack : stack_bounds_available tl env = true)
    (hr : tl.remaining_bytes_initialized = true ∨ 0 ≤ wrap_i64 (tl.remaining_bytes - 1)) :
    ∃ r, track_allocation c (fuel + 1) t tl env addr = .ok r ∧
      count_samples r.1.ring = count_samples t.ring + 1 ∧
      r.1.sampling_interval = 1 ∧ r.1.track_deallocations = false ∧
      r.2.remaining_bytes_initialized = true ∧ r.2.stack_bounds.empty = false := by
  obtain ⟨n, hn⟩ := sampling_decision_interval_one fuel t tl env.draws hI hr
  have hstack1 : stack_bounds_available
      { tl with remaining_bytes_initialized := true, remaining_bytes := -1 } env = true := by
    simpa [stack_bounds_available] using hstack
  have hoff := record_allocation_off c t
    { tl with remaining_bytes_initialized := true, remaining_bytes := -1 } env addr n hd
  refine ⟨record_allocation c t
    { tl with remaining_bytes_initialized := true, remaining_bytes := -1 } env addr n, ?_, ?_,
    ?_, hoff.2.1, ?_, ?_⟩
  · simp [track_allocation, hact, hn]
  · rw [record_allocation_ring, track_live_address_off c t _ env addr hd]
    dsimp only
    rw [push_alloc_sample_ring_ok c t _ env addr n hres hstack1]
    simp [count_samples_append, count_samples_flushed]
    simp [count_samples, sample_record, Committed.isSample, Event.hdr]
  · rw [hoff.1, hI]
  · rw [hoff.2.2.2.1]
  · rw [hoff.2.2.2.2]
    unfold stack_bounds_available at hstack
    unfold current_stack_bounds
    dsimp only
    split_ifs with h <;> simp_all

theorem run_allocations_interval_one (c : Consts) (fuel : Nat)
    (calls : List (Nat × Nat × Env)) :
    ∀ (t : AllocationTracker) (tl : TrackerThreadLocalState),
      t.sampling_interval = 1 → t.track_deallocations = false →
      (tl.remaining_bytes_initialized = false → tl.remaining_bytes = 0) →
      (∀ x ∈ calls, 1 ≤ x.1 ∧ x.1 < 2 ^ 63 ∧ x.2.2.main.reserve = .ok ∧
        stack_bounds_available tl x.2.2 = true) →
      active_at_each_call c (fuel + 1) t tl calls = true →
      ∃ r, run_allocations c (fuel + 1) t tl calls = .ok r ∧
        count_samples r.1.ring = count_samples t.ring + calls.length := by
  induction calls with
  | nil =>
    intro t tl _ _ _ _ _
    exact ⟨(t, tl), rfl, by simp⟩
  | cons x rest ih =>
    intro t tl hI hd hfresh hcalls hact
    obtain ⟨size, addr, env⟩ := x
    have hx := hcalls (size, addr, env) (List.mem_cons_self _ _)
    simp only at hx
    obtain ⟨hs1, hs2, hres, hstack⟩ := hx
    simp only [active_at_each_call, Bool.and_eq_true] at hact
    have hr : (accumulate tl size).remaining_bytes_initialized = true ∨
        0 ≤ wrap_i64 ((accumulate tl size).remaining_bytes - 1) := by
      cases hi : tl.remaining_bytes_initialized
      · right
        have h0 := hfresh hi
        have hsz : ((size : Nat) : Int) < 2 ^ 63 := by exact_mod_cast hs2
        have hsz1 : (1 : Int) ≤ (size : Int) := by exact_mod_cast hs1
        simp only [accumulate, h0, zero_add]
        rw [wrap_i64_of_range _ (by omega) hsz, wrap_i64_of_range _ (by omega) (by omega)]
        omega
      · left
        simp [accumulate, hi]
    have hstack1 : stack_bounds_available (accumulate tl size) env = true := by
      simpa [stack_bounds_available, accumulate] using hstack
    obtain ⟨r, hrun, hcount, hI1, hd1, hinit1, hsb1⟩ :=
      track_allocation_interval_one c fuel t (accumulate tl size) env addr hI hact.1 hd hres
        hstack1 hr
    have hact1 : active_at_each_call c (fuel + 1) r.1 r.2 rest = true := by
      have := hact.2
      rw [hrun] at this
      exact this
    have hcalls1 : ∀ y ∈ rest, 1 ≤ y.1 ∧ y.1 < 2 ^ 63 ∧ y.2.2.main.reserve = .ok ∧
        stack_bounds_available r.2 y.2.2 = true := by
      intro y hy
      obtain ⟨a, b, d, _⟩ := hcalls y (List.mem_cons_of_mem _ hy)
      refine ⟨a, b, d, ?_⟩
      simp [stack_bounds_available, hsb1]
    obtain ⟨r2, hrun2, hcount2⟩ := ih r.1 r.2 hI1 hd1 (by simp [hinit1]) hcalls1 hact1
    refine ⟨r2, ?_, ?_⟩
    · simp only [run_allocations, hrun]
      exact hrun2
    · rw [hcount2, hcount, List.length_cons]
      omega

/-- C1 (amended): with sampling interval 1, deallocation tracking off, a ring
that accepts the sample reservation and stack bounds that are cached or can be
retrieved, every `track_allocation` call entered with `track_allocations` true
(its size, at least 1, accumulated into `remaining_bytes` beforehand) returns
and commits exactly one SAMPLE record; so after any such sequence of calls the
number of SAMPLE records has grown by the number of calls. -/
theorem c1_one_sample_per_call (c : Consts) (fuel : Nat) (t : AllocationTracker)
    (tl : TrackerThreadLocalState) (calls : List (Nat × Nat × Env))
    (hfuel : 0 < fuel) (hI : t.sampling_interval = 1)
    (hd : t.track_deallocations = false)
    (hfresh : tl.remaining_bytes_initialized = false → tl.remaining_bytes = 0)
    (hcalls : ∀ x ∈ calls, 1 ≤ x.1 ∧ x.1 < 2 ^ 63 ∧ x.2.2.main.reserve = .ok ∧
      stack_bounds_available tl x.2.2 = true)
    (hact : active_at_each_call c fuel t tl calls = true) :
    ∃ r, run_allocations c fuel t tl calls = .ok r ∧
      count_samples r.1.ring = count_samples t.ring + calls.length := by
  obtain ⟨f, rfl⟩ : ∃ f, fuel = f + 1 := ⟨fuel - 1, by omega⟩
  exact run_allocations_interval_one c f calls t tl hI hd hfresh hcalls hact

/-- C1 witness: the unit test's tracker, a fresh thread and two allocations of
one byte at 0xdeadbeef give two SAMPLE records. -/
theorem c1_one_sample_per_call_witness :
    t_active.sampling_interval = 1 ∧ t_active.track_deallocations = false ∧
    active_at_each_call c0 1 t_active tl_fresh
      [(1, 0xdeadbeef, env_ok), (1, 0xdeadbeef, env_ok)] = true ∧
    ∃ r, run_allocations c0 1 t_active tl_fresh
        [(1, 0xdeadbeef, env_ok), (1, 0xdeadbeef, env_ok)] = .ok r ∧
      count_samples r.1.ring = count_samples t_active.ring + 2 :=
  ⟨rfl, rfl, by decide,
    c1_one_sample_per_call c0 1 t_active tl_fresh
      [(1, 0xdeadbeef, env_ok), (1, 0xdeadbeef, env_ok)] (by decide) rfl rfl
      (fun _ => rfl)
      (by
        intro x hx
        simp only [List.mem_cons, List.mem_singleton, List.not_mem_nil, or_false,
          or_self] at hx
        subst hx
        decide)
      (by decide)⟩

/-- C1 counterexample: interval 1, deterministic sampling, tracking active,
deallocation tracking off and every reservation accepted, yet the call commits
no SAMPLE record, because the thread's stack bounds are unknown and
`retrieve_stack_bounds()` returns an empty range. -/
theorem c1_counterexample :
    t_active.sampling_interval = 1 ∧ t_active.deterministic_sampling = true ∧
    t_active.track_allocations = true ∧ t_active.track_deallocations = false ∧
    env_no_stack.lost.reserve = .ok ∧ env_no_stack.clear.reserve = .ok ∧
    env_no_stack.main.reserve = .ok ∧
    ∃ r, track_allocation c0 1 t_active (accumulate tl_fresh 1) env_no_stack 0xdeadbeef
        = .ok r ∧ r.1.ring = [] := by
  refine ⟨rfl, rfl, rfl, rfl, rfl, rfl, rfl, ?_⟩
  exact ⟨_, rfl, by decide⟩

/-! ## C2: the deterministic sampling decision -/

theorem flushed_isLost (c : Consts) (t : AllocationTracker) (tl : TrackerThreadLocalState)
    (env : Env) : ∀ r ∈ flushed c t tl env, r.isLost = true := by
  intro r hr
  unfold flushed at hr
  split_ifs at hr
  · simp only [List.mem_singleton] at hr
    subst hr
    rfl
  · simp at hr

theorem pushed_sample_spec (c : Consts) (t : AllocationTracker)
    (tl : TrackerThreadLocalState) (env : Env) (addr allocated_size : Nat) :
    ∀ r ∈ pushed_sample c t tl env addr allocated_size,
      r.isSample = true ∧ r.period = allocated_size := by
  intro r hr
  unfold pushed_sample at hr
  split_ifs at hr
  · simp only [List.mem_singleton] at hr
    subst hr
    exact ⟨rfl, rfl⟩
  · simp at hr

theorem not_isSample_of_isLost (r : Committed) (h : r.isLost = true) : r.isSample = false := by
  unfold Committed.isLost at h
  unfold Committed.isSample
  cases hty : r.event.hdr.type <;> simp_all

theorem not_isSample_of_isClear (r : Committed) (h : r.isClear = true) :
    r.isSample = false := by
  unfold Committed.isClear at h
  unfold Committed.isSample
  cases hty : r.event.hdr.type <;> simp_all

/-- What `record_allocation` adds to the ring: CLEAR and LOST records, then
the SAMPLE with the given period when the push goes through. -/
theorem record_allocation_new_records (c : Consts) (t : AllocationTracker)
    (tl : TrackerThreadLocalState) (env : Env) (addr total_size : Nat) :
    ∃ new, (record_allocation c t tl env addr total_size).1.ring = t.ring ++ new ∧
      (∀ r ∈ new, r.isSample = true → r.period = total_size) ∧
      (stack_bounds_available tl env = true → env.main.reserve = .ok →
        ∃ r ∈ new, r.isSample = true ∧ r.period = total_size) := by
  obtain ⟨l, hl, hclear⟩ := track_live_address_ring c t tl env addr
  have hsb : stack_bounds_available (track_live_address c t tl env addr).2.1 env =
      stack_bounds_available tl env := by
    simp [stack_bounds_available, (track_live_address_fields c t tl env addr).2.2.1]
  refine ⟨l ++ flushed c (track_live_address c t tl env addr).1
      (track_live_address c t tl env addr).2.1 env ++
    pushed_sample c (track_live_address c t tl env addr).1
      (track_live_address c t tl env addr).2.1 env
      (track_live_address c t tl env addr).2.2 total_size, ?_, ?_, ?_⟩
  · rw [record_allocation_ring, push_alloc_sample_ring, hl]
    simp [List.append_assoc]
  · intro r hr hs
    simp only [List.mem_append] at hr
    rcases hr with (hr | hr) | hr
    · rw [not_isSample_of_isClear r (hclear r hr)] at hs
      exact absurd hs (by simp)
    · rw [not_isSample_of_isLost r (flushed_isLost _ _ _ _ r hr)] at hs
      exact absurd hs (by simp)
    · exact (pushed_sample_spec _ _ _ _ _ _ r hr).2
  · intro hstack hres
    have hmem : sample_record c env.main.now
        ((flush_lost c (track_live_address c t tl env addr).1
          (track_live_address c t tl env addr).2.1 env).1.cache_pid env).pid
        (cache_tid (flush_lost c (track_live_address c t tl env addr).1
          (track_live_address c t tl env addr).2.1 env).2.1 env).tid
        (track_live_address c t tl env addr).2.2 total_size
        (sample_stack_size c (track_live_address c t tl env addr).1
          (current_stack_bounds (track_live_address c t tl env addr).2.1 env) env)
        env.dyn_size ∈
        pushed_sample c (track_live_address c t tl env addr).1
          (track_live_address c t tl env addr).2.1 env
          (track_live_address c t tl env addr).2.2 total_size := by
      unfold pushed_sample
      rw [hsb, if_pos ⟨hstack, hres⟩]
      exact List.mem_singleton_self _
    exact ⟨_, List.mem_append_right _ hmem, rfl, rfl⟩

theorem record_allocation_remaining_bytes (c : Consts) (t : AllocationTracker)
    (tl : TrackerThreadLocalState) (env : Env) (addr total_size : Nat) :
    (record_allocation c t tl env addr total_size).2.remaining_bytes = tl.remaining_bytes := by
  unfold record_allocation
  dsimp only
  split_ifs <;> simp [(track_live_address_fields c t tl env addr).1]

theorem wrap_i64_lt (x : Int) : wrap_i64 x < 2 ^ 63 := by
  unfold wrap_i64
  have := Int.emod_lt_of_pos (x + 2 ^ 63) (show (0 : Int) < 2 ^ 64 by norm_num)
  omega

theorem decision_start_lt (t : AllocationTracker) (tl : TrackerThreadLocalState)
    (draws : Nat → Nat) (h : tl.remaining_bytes < 2 ^ 63) :
    decision_start t tl draws < 2 ^ 63 := by
  unfold decision_start
  split_ifs
  · exact h
  · exact wrap_i64_lt _

/-- C2: in deterministic mode with `1 ≤ I < 2^63`, when `remaining_bytes` has a
non-negative value `r` as the sampling decision starts (on a thread's first
call: after the initial draw), `track_allocation` returns, the decision yields
`nsamples` and the period `nsamples * I`, every SAMPLE the call commits carries
that period (and one is committed when the stack bounds are known and the
reservation succeeds), and the stored `remaining_bytes` `r'` satisfies
`period + r' = r` and `-I ≤ r' ≤ -1`. -/
theorem c2_deterministic_period (c : Consts) (fuel : Nat) (t : AllocationTracker)
    (tl : TrackerThreadLocalState) (env : Env) (addr : Nat)
    (hfuel : 0 < fuel) (hdet : t.deterministic_sampling = true)
    (hI1 : 1 ≤ t.sampling_interval) (hI2 : t.sampling_interval < 2 ^ 63)
    (hact : t.track_allocations = true) (hrange : tl.remaining_bytes < 2 ^ 63)
    (hr : 0 ≤ decision_start t tl env.draws) :
    ∃ res new nsamples tl1,
      track_allocation c fuel t tl env addr = .ok res ∧
      sampling_decision fuel t tl env.draws =
        .ok (tl1, some (nsamples, nsamples * t.sampling_interval)) ∧
      res.1.ring = t.ring ++ new ∧
      (∀ r ∈ new, r.isSample = true → r.period = nsamples * t.sampling_interval) ∧
      (stack_bounds_available tl env = true → env.main.reserve = .ok →
        ∃ r ∈ new, r.isSample = true ∧ r.period = nsamples * t.sampling_interval) ∧
      ((nsamples * t.sampling_interval : Nat) : Int) + res.2.remaining_bytes =
        decision_start t tl env.draws ∧
      -(t.sampling_interval : Int) ≤ res.2.remaining_bytes ∧
      res.2.remaining_bytes ≤ -1 := by
  obtain ⟨f, rfl⟩ : ∃ f, fuel = f + 1 := ⟨fuel - 1, by omega⟩
  have hr1 := decision_start_lt t tl env.draws hrange
  have hdec := sampling_decision_deterministic f t tl env.draws hdet hI1 hI2 hr hr1
  generalize hR : decision_start t tl env.draws = r at hr hr1 hdec ⊢
  generalize hI : t.sampling_interval = I at hI1 hI2 hdec ⊢
  obtain ⟨m, rfl⟩ : ∃ m : Nat, r = (m : Int) := ⟨r.toNat, (Int.toNat_of_nonneg hr).symm⟩
  rw [Int.toNat_ofNat] at hdec
  have hsb : stack_bounds_available
      { tl with remaining_bytes_initialized := true,
                remaining_bytes := (m : Int) - (((m / I + 1) * I : Nat) : Int) } env =
      stack_bounds_available tl env := by
    simp [stack_bounds_available]
  obtain ⟨new, hring, hper, hex⟩ := record_allocation_new_records c t
    { tl with remaining_bytes_initialized := true,
              remaining_bytes := (m : Int) - (((m / I + 1) * I : Nat) : Int) }
    env addr ((m / I + 1) * I)
  rw [hsb] at hex
  have hmod : m % I < I := Nat.mod_lt _ (by omega)
  have hdiv : m / I * I + m % I = m := Nat.div_add_mod' m I
  have hmul : (m / I + 1) * I = m / I * I + I := by ring
  refine ⟨record_allocation c t
    { tl with remaining_bytes_initialized := true,
              remaining_bytes := (m : Int) - (((m / I + 1) * I : Nat) : Int) }
    env addr ((m / I + 1) * I), new, m / I + 1, _, ?_, hdec, hring, hper, hex, ?_, ?_, ?_⟩
  · simp only [track_allocation, hact, Bool.not_true, Bool.false_eq_true, if_false, hdec]
  · rw [record_allocation_remaining_bytes]
    dsimp only
    omega
  · rw [record_allocation_remaining_bytes]
    dsimp only
    omega
  · rw [record_allocation_remaining_bytes]
    dsimp only
    omega

/-- C2 witness: the unit test's case, interval 1 and one allocation of one
byte by a fresh thread; the single record committed has period 1. -/
theorem c2_deterministic_period_witness :
    0 ≤ decision_start t_active (accumulate tl_fresh 1) env_ok.draws ∧
    (∃ res new nsamples tl1,
      track_allocation c0 1 t_active (accumulate tl_fresh 1) env_ok 0xdeadbeef = .ok res ∧
      sampling_decision 1 t_active (accumulate tl_fresh 1) env_ok.draws =
        .ok (tl1, some (nsamples, nsamples * t_active.sampling_interval)) ∧
      res.1.ring = t_active.ring ++ new ∧
      (∀ r ∈ new, r.isSample = true → r.period = nsamples * t_active.sampling_interval) ∧
      (stack_bounds_available (accumulate tl_fresh 1) env_ok = true →
        env_ok.main.reserve = .ok →
        ∃ r ∈ new, r.isSample = true ∧ r.period = nsamples * t_active.sampling_interval) ∧
      ((nsamples * t_active.sampling_interval : Nat) : Int) + res.2.remaining_bytes =
        decision_start t_active (accumulate tl_fresh 1) env_ok.draws ∧
      -(t_active.sampling_interval : Int) ≤ res.2.remaining_bytes ∧
      res.2.remaining_bytes ≤ -1) ∧
    (∃ res, track_allocation c0 1 t_active (accumulate tl_fresh 1) env_ok 0xdeadbeef = .ok res ∧
      res.1.ring.map Committed.period = [1] ∧ res.2.remaining_bytes = -1) :=
  ⟨by decide,
    c2_deterministic_period c0 1 t_active (accumulate tl_fresh 1) env_ok 0xdeadbeef
      (by decide) rfl (by decide) (by decide) rfl (by decide) (by decide),
    ⟨_, rfl, by decide, by decide⟩⟩

/-! ## The deallocation push -/

theorem push_dealloc_sample_ring (c : Consts) (t : AllocationTracker)
    (tl : TrackerThreadLocalState) (env : Env) (addr : Nat) :
    (push_dealloc_sample c t tl env addr).2.1.ring =
      t.ring ++ flushed c t tl env ++ pushed_dealloc c t tl env addr := by
  cases hres : env.main.reserve <;>
    simp [push_dealloc_sample, hres, flush_lost_ring, pushed_dealloc]
  split_ifs <;> simp [flush_lost_ring]

@[simp] theorem push_dealloc_sample_fields (c : Consts) (t : AllocationTracker)
    (tl : TrackerThreadLocalState) (env : Env) (addr : Nat) :
    (push_dealloc_sample c t tl env addr).2.1.track_allocations = t.track_allocations ∧
    (push_dealloc_sample c t tl env addr).2.1.track_deallocations = t.track_deallocations ∧
    (push_dealloc_sample c t tl env addr).2.1.failure_count = t.failure_count ∧
    (push_dealloc_sample c t tl env addr).2.1.sampling_interval = t.sampling_interval ∧
    (push_dealloc_sample c t tl env addr).2.1.deterministic_sampling =
      t.deterministic_sampling ∧
    (push_dealloc_sample c t tl env addr).2.1.stack_sample_size = t.stack_sample_size ∧
    (push_dealloc_sample c t tl env addr).2.1.allocated_address_set =
      t.allocated_address_set ∧
    (push_dealloc_sample c t tl env addr).2.1.interval_timer_check =
      t.interval_timer_check ∧
    (push_dealloc_sample c t tl env addr).2.1.mapped = t.mapped ∧
    (push_dealloc_sample c t tl env addr).2.1.has_instance = t.has_instance ∧
    (push_dealloc_sample c t tl env addr).2.1.thread_entries = t.thread_entries ∧
    (push_dealloc_sample c t tl env addr).2.2.remaining_bytes = tl.remaining_bytes ∧
    (push_dealloc_sample c t tl env addr).2.2.remaining_bytes_initialized =
      tl.remaining_bytes_initialized ∧
    (push_dealloc_sample c t tl env addr).2.2.stack_bounds = tl.stack_bounds ∧
    (push_dealloc_sample c t tl env addr).2.2.reentry_guard = tl.reentry_guard := by
  cases hres : env.main.reserve <;> simp [push_dealloc_sample, hres]
  split_ifs <;> simp

/-! ## C3: the bound on the live-address set -/

theorem live_set_bounded_mono (c : Consts) (t t1 : AllocationTracker)
    (h : live_set_bounded c t)
    (hcard : t1.allocated_address_set.card ≤ t.allocated_address_set.card)
    (hflag : t1.track_deallocations = true → t.track_deallocations = true) :
    live_set_bounded c t1 := by
  unfold live_set_bounded at h ⊢
  refine ⟨fun h1 => ?_, ?_⟩
  · have := h.1 (hflag h1)
    omega
  · have := h.2
    omega

theorem track_live_address_bounded (c : Consts) (t : AllocationTracker)
    (tl : TrackerThreadLocalState) (env : Env) (addr : Nat) (hk : 1 ≤ c.kMaxTracked)
    (h : live_set_bounded c t) :
    live_set_bounded c (track_live_address c t tl env addr).1 := by
  by_cases hd : t.track_deallocations = true
  · have hcard := h.1 hd
    by_cases hm : c.address_slot addr ∈ t.allocated_address_set
    · simpa [track_live_address, hd, hm] using h
    · have hins : (insert (c.address_slot addr) t.allocated_address_set).card =
          t.allocated_address_set.card + 1 := Finset.card_insert_of_not_mem hm
      unfold track_live_address
      dsimp only
      rw [if_pos hd, if_pos hm]
      split_ifs with hc hok
      · unfold live_set_bounded
        simp
        omega
      · unfold live_set_bounded
        simp
        omega
      · unfold live_set_bounded
        dsimp only
        omega
  · have hd' : t.track_deallocations = false := by simpa using hd
    simpa [track_live_address, hd'] using h

theorem record_allocation_bounded (c : Consts) (t : AllocationTracker)
    (tl : TrackerThreadLocalState) (env : Env) (addr total_size : Nat)
    (hk : 1 ≤ c.kMaxTracked) (h : live_set_bounded c t) :
    live_set_bounded c (record_allocation c t tl env addr total_size).1 := by
  have ha := track_live_address_bounded c t tl env addr hk h
  have hflag := (free_on_consecutive_failures_flags c
    (push_alloc_sample c (track_live_address c t tl env addr).1
      (track_live_address c t tl env addr).2.1 env
      (track_live_address c t tl env addr).2.2 total_size).2.1
    (IsDDResOK (push_alloc_sample c (track_live_address c t tl env addr).1
      (track_live_address c t tl env addr).2.1 env
      (track_live_address c t tl env addr).2.2 total_size).1)).2
  unfold record_allocation
  dsimp only
  split_ifs
  · refine live_set_bounded_mono c _ _ ha ?_ ?_
    · simpa using Finset.card_erase_le
    · intro h1
      simpa using hflag h1
  · refine live_set_bounded_mono c _ _ ha ?_ ?_
    · simp
    · intro h1
      simpa using hflag h1

theorem track_deallocation_bounded (c : Consts) (t : AllocationTracker)
    (tl : TrackerThreadLocalState) (env : Env) (addr : Nat) (h : live_set_bounded c t) :
    live_set_bounded c (track_deallocation c t tl env addr).1 := by
  unfold track_deallocation
  dsimp only
  split_ifs
  · exact h
  · have hflag := (free_on_consecutive_failures_flags c
      (push_dealloc_sample c
        { t with
          allocated_address_set := t.allocated_address_set.erase (c.address_slot addr) } tl env addr).2.1
      (IsDDResOK (push_dealloc_sample c
        { t with allocated_address_set := t.allocated_address_set.erase (c.address_slot addr) }
        tl env addr).1)).2
    refine live_set_bounded_mono c _ _ h ?_ ?_
    · simpa using Finset.card_erase_le
    · intro h1
      simpa using hflag h1

theorem track_allocation_bounded (c : Consts) (fuel : Nat) (t : AllocationTracker)
    (tl : TrackerThreadLocalState) (env : Env) (addr : Nat)
    (r : AllocationTracker × TrackerThreadLocalState)
    (hk : 1 ≤ c.kMaxTracked) (h : live_set_bounded c t)
    (hta : track_allocation c fuel t tl env addr = .ok r) : live_set_bounded c r.1 := by
  unfold track_allocation at hta
  split_ifs at hta
  · simp only [Except.ok.injEq] at hta
    subst hta
    exact h
  · split at hta
    · simp at hta
    · simp only [Except.ok.injEq] at hta
      subst hta
      exact h
    · simp only [Except.ok.injEq] at hta
      subst hta
      exact record_allocation_bounded c t _ env addr _ hk h

theorem step_bounded (c : Consts) (fuel : Nat) (t t1 : AllocationTracker) (call : Call)
    (hk : 1 ≤ c.kMaxTracked) (h : live_set_bounded c t)
    (hstep : step c fuel t call = .ok t1) : live_set_bounded c t1 := by
  cases call with
  | alloc tl env addr =>
    cases hta : track_allocation c fuel t tl env addr with
    | error e => simp [step, hta] at hstep
    | ok r =>
      simp only [step, hta, Except.ok.injEq] at hstep
      subst hstep
      exact track_allocation_bounded c fuel t tl env addr r hk h hta
  | dealloc tl env addr =>
    simp only [step, Except.ok.injEq] at hstep
    subst hstep
    exact track_deallocation_bounded c t tl env addr h

theorem run_bounded (c : Consts) (fuel : Nat) (calls : List Call) (hk : 1 ≤ c.kMaxTracked) :
    ∀ (t t1 : AllocationTracker), live_set_bounded c t → run c fuel t calls = .ok t1 →
      live_set_bounded c t1 := by
  induction calls with
  | nil =>
    intro t t1 h hrun
    simp only [run, Except.ok.injEq] at hrun
    subst hrun
    exact h
  | cons call rest ih =>
    intro t t1 h hrun
    cases hs : step c fuel t call with
    | error e => simp [run, hs] at hrun
    | ok t2 =>
      simp only [run, hs] at hrun
      exact ih t2 t1 (step_bounded c fuel t t2 call hk h hs) hrun

/-- C3 (amended): after an initialisation that leaves the live-address set
empty, after every sequence of `track_allocation` and `track_deallocation`
calls and whatever the ring buffer answers, the set holds at most `kMaxTracked`
addresses as long as deallocation tracking is still on, and at most
`kMaxTracked + 1` addresses in any case. -/
theorem c3_live_set_bound (c : Consts) (fuel : Nat) (t t1 : AllocationTracker)
    (calls : List Call) (hk : 1 ≤ c.kMaxTracked) (hempty : t.allocated_address_set = ∅)
    (hrun : run c fuel t calls = .ok t1) :
    (t1.track_deallocations = true → t1.allocated_address_set.card ≤ c.kMaxTracked) ∧
    t1.allocated_address_set.card ≤ c.kMaxTracked + 1 := by
  have h0 : live_set_bounded c t := by
    unfold live_set_bounded
    rw [hempty]
    simp
  exact run_bounded c fuel calls hk t t1 h0 hrun

/-- C3 witness: with `kMaxTracked = 4`, five allocations at distinct addresses
on a ring that accepts everything end with one address in the set. -/
theorem c3_live_set_bound_witness :
    t_live.allocated_address_set = ∅ ∧
    (∃ t1, run c0 1 t_live
      [.alloc tl_ready env_ok 0x1000, .alloc tl_ready env_ok 0x2000,
        .alloc tl_ready env_ok 0x3000, .alloc tl_ready env_ok 0x4000,
        .alloc tl_ready env_ok 0x5000] = .ok t1 ∧
      t1.allocated_address_set = {0x5000} ∧
      (t1.track_deallocations = true → t1.allocated_address_set.card ≤ c0.kMaxTracked) ∧
      t1.allocated_address_set.card ≤ c0.kMaxTracked + 1) :=
  ⟨rfl, _, rfl, by decide,
    c3_live_set_bound c0 1 t_live _
      [.alloc tl_ready env_ok 0x1000, .alloc tl_ready env_ok 0x2000,
        .alloc tl_ready env_ok 0x3000, .alloc tl_ready env_ok 0x4000,
        .alloc tl_ready env_ok 0x5000] (by decide) rfl rfl⟩

/-- C3 counterexample: deallocation tracking on, `kMaxTracked = 4`, set empty
at the start; the fifth distinct address arrives while the ring is full, the CLEAR
record cannot be reserved, the tracker disables itself and the set is left with five
addresses. -/
theorem c3_counterexample :
    t_live.track_deallocations = true ∧ t_live.allocated_address_set = ∅ ∧
    c0.kMaxTracked = 4 ∧
    ∃ t1, run c0 1 t_live
      [.alloc tl_ready env_ok 0x1000, .alloc tl_ready env_ok 0x2000,
        .alloc tl_ready env_ok 0x3000, .alloc tl_ready env_ok 0x4000,
        .alloc tl_ready env_ring_full 0x5000] = .ok t1 ∧
      t1.allocated_address_set.card = 5 ∧ t1.track_deallocations = false :=
  ⟨rfl, rfl, rfl, _, rfl, by decide, by decide⟩

/-! ## C4: DEALLOCATION records name live addresses -/

theorem track_live_address_set (c : Consts) (t : AllocationTracker)
    (tl : TrackerThreadLocalState) (env : Env) (addr : Nat) :
    (track_live_address c t tl env addr).1.allocated_address_set ⊆
      insert (c.address_slot addr) t.allocated_address_set := by
  unfold track_live_address
  dsimp only
  split_ifs <;> simp [Finset.subset_insert]

theorem record_allocation_set (c : Consts) (t : AllocationTracker)
    (tl : TrackerThreadLocalState) (env : Env) (addr total_size : Nat) :
    (record_allocation c t tl env addr total_size).1.allocated_address_set ⊆
      insert (c.address_slot addr) t.allocated_address_set := by
  have ha := track_live_address_set c t tl env addr
  unfold record_allocation
  dsimp only
  split_ifs
  · simp only [free_on_consecutive_failures_fields, push_alloc_sample_fields]
    exact (Finset.erase_subset _ _).trans ha
  · simpa using ha

theorem track_allocation_set (c : Consts) (fuel : Nat) (t : AllocationTracker)
    (tl : TrackerThreadLocalState) (env : Env) (addr : Nat)
    (r : AllocationTracker × TrackerThreadLocalState)
    (hta : track_allocation c fuel t tl env addr = .ok r) :
    r.1.allocated_address_set ⊆ insert (c.address_slot addr) t.allocated_address_set := by
  unfold track_allocation at hta
  split_ifs at hta
  · simp only [Except.ok.injEq] at hta
    subst hta
    exact Finset.subset_insert _ _
  · split at hta
    · simp at hta
    · simp only [Except.ok.injEq] at hta
      subst hta
      exact Finset.subset_insert _ _
    · simp only [Except.ok.injEq] at hta
      subst hta
      exact record_allocation_set c t _ env addr _

theorem track_deallocation_set (c : Consts) (t : AllocationTracker)
    (tl : TrackerThreadLocalState) (env : Env) (addr : Nat) :
    (track_deallocation c t tl env addr).1.allocated_address_set ⊆
      t.allocated_address_set := by
  unfold track_deallocation
  dsimp only
  split_ifs
  · exact Finset.Subset.refl _
  · simpa using Finset.erase_subset _ _

/-- Only a `track_allocation` call of an address keyed to that bit can set a
bit of the live-address set. -/
theorem step_inserts (c : Consts) (fuel : Nat) (t t1 : AllocationTracker) (call : Call)
    (p : Nat) (hstep : step c fuel t call = .ok t1)
    (h0 : p ∉ t.allocated_address_set) (h1 : p ∈ t1.allocated_address_set) :
    ∃ tl env addr, call = Call.alloc tl env addr ∧ c.address_slot addr = p := by
  cases call with
  | alloc tl env addr =>
    cases hta : track_allocation c fuel t tl env addr with
    | error e => simp [step, hta] at hstep
    | ok r =>
      simp only [step, hta, Except.ok.injEq] at hstep
      subst hstep
      have hsub := track_allocation_set c fuel t tl env addr r hta h1
      rw [Finset.mem_insert] at hsub
      rcases hsub with h | h
      · exact ⟨tl, env, addr, rfl, h.symm⟩
      · exact absurd h h0
  | dealloc tl env addr =>
    simp only [step, Except.ok.injEq] at hstep
    subst hstep
    exact absurd (track_deallocation_set c t tl env addr h1) h0

theorem run_append (c : Consts) (fuel : Nat) (l1 l2 : List Call) :
    ∀ t : AllocationTracker, run c fuel t (l1 ++ l2) =
      match run c fuel t l1 with
      | .error e => .error e
      | .ok t1 => run c fuel t1 l2 := by
  induction l1 with
  | nil => intro t; rfl
  | cons a l ih =>
    intro t
    simp only [List.cons_append, run]
    cases hs : step c fuel t a with
    | error e => rfl
    | ok t1 => exact ih t1

/-- A bit that is set in the live-address set after a sequence of calls which
started without it was set by a `track_allocation` call of the sequence, for
an address keyed to that bit, and has been set after every call since. -/
theorem live_address_history (c : Consts) (fuel : Nat) (t0 : AllocationTracker) (p : Nat)
    (h0 : p ∉ t0.allocated_address_set) (calls : List Call) :
    ∀ t1, run c fuel t0 calls = .ok t1 → p ∈ t1.allocated_address_set →
      ∃ pre tl env addr post, c.address_slot addr = p ∧
        calls = pre ++ [Call.alloc tl env addr] ++ post ∧
        ∀ q, q <+: post → ∀ t2,
          run c fuel t0 (pre ++ [Call.alloc tl env addr] ++ q) = .ok t2 →
            p ∈ t2.allocated_address_set := by
  induction calls using List.reverseRecOn with
  | nil =>
    intro t1 hrun h1
    simp only [run, Except.ok.injEq] at hrun
    subst hrun
    exact absurd h1 h0
  | append_singleton l a ih =>
    intro t1 hrun h1
    have hrun0 := hrun
    rw [run_append] at hrun
    cases hl : run c fuel t0 l with
    | error e => simp [hl] at hrun
    | ok tm =>
      simp only [hl, run] at hrun
      cases hs : step c fuel tm a with
      | error e => simp [hs] at hrun
      | ok t1' =>
        simp only [hs, Except.ok.injEq] at hrun
        subst hrun
        by_cases hp : p ∈ tm.allocated_address_set
        · obtain ⟨pre, tl, env, addr, post, hslot, hcalls, hpost⟩ := ih tm hl hp
          refine ⟨pre, tl, env, addr, post ++ [a], hslot, by rw [hcalls]; simp, ?_⟩
          intro q hq t2 hrun2
          rw [List.prefix_concat_iff] at hq
          rcases hq with hq | hq
          · subst hq
            have : pre ++ [Call.alloc tl env addr] ++ (post ++ [a]) = l ++ [a] := by
              rw [hcalls]; simp
            rw [this, hrun0] at hrun2
            simp only [Except.ok.injEq] at hrun2
            subst hrun2
            exact h1
          · exact hpost q hq t2 hrun2
        · obtain ⟨tl, env, addr, ha, hslot⟩ := step_inserts c fuel tm t1' a p hs hp h1
          subst ha
          refine ⟨l, tl, env, addr, [], hslot, by simp, ?_⟩
          intro q hq t2 hrun2
          rw [List.prefix_nil] at hq
          subst hq
          rw [List.append_nil, hrun0] at hrun2
          simp only [Except.ok.injEq] at hrun2
          subst hrun2
          exact h1

theorem not_isDealloc_of_isLost (r : Committed) (h : r.isLost = true) :
    r.isDealloc = false := by
  unfold Committed.isLost at h
  unfold Committed.isDealloc
  cases hty : r.event.hdr.type <;> simp_all

theorem pushed_dealloc_spec (c : Consts) (t : AllocationTracker)
    (tl : TrackerThreadLocalState) (env : Env) (addr : Nat) :
    ∀ r ∈ pushed_dealloc c t tl env addr, ∃ hdr sid, r.event = Event.dealloc hdr sid addr := by
  intro r hr
  unfold pushed_dealloc at hr
  split_ifs at hr
  · simp only [List.mem_singleton] at hr
    subst hr
    exact ⟨_, _, rfl⟩
  · simp at hr

theorem pushed_dealloc_ok (c : Consts) (t : AllocationTracker)
    (tl : TrackerThreadLocalState) (env : Env) (addr : Nat) (hres : env.main.reserve = .ok) :
    ∃ r ∈ pushed_dealloc c t tl env addr, r.isDealloc = true := by
  unfold pushed_dealloc
  rw [if_pos hres]
  exact ⟨_, List.mem_singleton_self _, rfl⟩

/-- A `track_deallocation` call that finds deallocation tracking off or the
address absent from the set returns without any effect. -/
theorem track_deallocation_absent (c : Consts) (t : AllocationTracker)
    (tl : TrackerThreadLocalState) (env : Env) (addr : Nat)
    (h : t.track_deallocations = false ∨ c.address_slot addr ∉ t.allocated_address_set) :
    track_deallocation c t tl env addr = (t, tl) := by
  unfold track_deallocation
  rcases h with h | h
  · simp [h]
  · simp [h]

/-- A `track_deallocation` call that finds the address in the set removes it
and pushes the DEALLOCATION record. -/
theorem track_deallocation_present (c : Consts) (t : AllocationTracker)
    (tl : TrackerThreadLocalState) (env : Env) (addr : Nat)
    (hd : t.track_deallocations = true) (hm : c.address_slot addr ∈ t.allocated_address_set) :
    (track_deallocation c t tl env addr).1.ring =
      t.ring ++
        flushed c { t with
          allocated_address_set := t.allocated_address_set.erase (c.address_slot addr) }
          tl env ++
        pushed_dealloc c { t with
          allocated_address_set := t.allocated_address_set.erase (c.address_slot addr) }
          tl env addr ∧
    (track_deallocation c t tl env addr).1.allocated_address_set =
      t.allocated_address_set.erase (c.address_slot addr) := by
  unfold track_deallocation
  simp only [hd, hm, Bool.not_true, Bool.false_or, not_true_eq_false, decide_False,
    Bool.false_eq_true, if_false, free_on_consecutive_failures_fields,
    push_dealloc_sample_fields, push_dealloc_sample_ring, and_self]

/-- C4 (amended): after any sequence of calls that started with an empty
live-address set, a `track_deallocation` call of an address whose bit is not
set changes nothing and commits nothing; and every DEALLOCATION record the
call commits has the call's address as `ptr`, the bit of that address was set
(and is cleared by the call), it was set by an earlier `track_allocation` call
of an address keyed to the same bit, and it has stayed set after every call
since; when no two addresses share a bit (the set is exact) that earlier call
was for the `ptr` itself.  The record is committed when the reservation
succeeds. -/
theorem c4_dealloc_names_live_address (c : Consts) (fuel : Nat) (t0 t1 : AllocationTracker)
    (calls : List Call) (tl : TrackerThreadLocalState) (env : Env) (addr : Nat)
    (hempty : t0.allocated_address_set = ∅) (hrun : run c fuel t0 calls = .ok t1) :
    (c.address_slot addr ∉ t1.allocated_address_set →
      track_deallocation c t1 tl env addr = (t1, tl)) ∧
    ∃ new, (track_deallocation c t1 tl env addr).1.ring = t1.ring ++ new ∧
      (t1.track_deallocations = true → c.address_slot addr ∈ t1.allocated_address_set →
        env.main.reserve = .ok → ∃ r ∈ new, r.isDealloc = true) ∧
      ∀ r ∈ new, r.isDealloc = true →
        (∃ hdr sid, r.event = Event.dealloc hdr sid addr) ∧
        c.address_slot addr ∈ t1.allocated_address_set ∧
        c.address_slot addr ∉ (track_deallocation c t1 tl env addr).1.allocated_address_set ∧
        ∃ pre tl0 env0 addr0 post,
          c.address_slot addr0 = c.address_slot addr ∧
          (Function.Injective c.address_slot → addr0 = addr) ∧
          calls = pre ++ [Call.alloc tl0 env0 addr0] ++ post ∧
          ∀ q, q <+: post → ∀ t2,
            run c fuel t0 (pre ++ [Call.alloc tl0 env0 addr0] ++ q) = .ok t2 →
              c.address_slot addr ∈ t2.allocated_address_set := by
  refine ⟨fun h => track_deallocation_absent c t1 tl env addr (Or.inr h), ?_⟩
  by_cases hlive : t1.track_deallocations = true ∧
      c.address_slot addr ∈ t1.allocated_address_set
  · obtain ⟨hd, hm⟩ := hlive
    obtain ⟨hring, hset⟩ := track_deallocation_present c t1 tl env addr hd hm
    refine ⟨_, by rw [hring, List.append_assoc], ?_, ?_⟩
    · intro _ _ hres
      obtain ⟨r, hr, hdr⟩ := pushed_dealloc_ok c
        { t1 with
          allocated_address_set := t1.allocated_address_set.erase (c.address_slot addr) }
        tl env addr hres
      exact ⟨r, List.mem_append_right _ hr, hdr⟩
    · intro r hr hdr
      rw [List.mem_append] at hr
      rcases hr with hr | hr
      · rw [not_isDealloc_of_isLost r (flushed_isLost _ _ _ _ r hr)] at hdr
        exact absurd hdr (by simp)
      · refine ⟨pushed_dealloc_spec _ _ _ _ _ r hr, hm, ?_, ?_⟩
        · rw [hset]
          exact Finset.not_mem_erase _ _
        · obtain ⟨pre, tl0, env0, addr0, post, hslot, hcalls, hpost⟩ :=
            live_address_history c fuel t0 (c.address_slot addr) (by simp [hempty]) calls t1
              hrun hm
          exact ⟨pre, tl0, env0, addr0, post, hslot, fun hinj => hinj hslot, hcalls, hpost⟩
  · have hno : t1.track_deallocations = false ∨
        c.address_slot addr ∉ t1.allocated_address_set := by
      by_cases hd : t1.track_deallocations = true
      · exact Or.inr (fun hm => hlive ⟨hd, hm⟩)
      · exact Or.inl (by simpa using hd)
    refine ⟨[], by rw [track_deallocation_absent c t1 tl env addr hno]; simp, ?_, ?_⟩
    · intro hd hm _
      exact absurd ⟨hd, hm⟩ hlive
    · intro r hr
      simp at hr

/-- C4 witness: scenario S3 with an exact set, one allocation at 0x1000
followed by its deallocation; the ring ends with a SAMPLE and a DEALLOCATION
for 0x1000. -/
theorem c4_dealloc_names_live_address_witness :
    t_live.allocated_address_set = ∅ ∧ Function.Injective c0.address_slot ∧
    ∃ t1, run c0 1 t_live [Call.alloc tl_ready env_ok 0x1000] = .ok t1 ∧
      (track_deallocation c0 t1 tl_ready env_ok 0x1000).1.ring.map Committed.isDealloc =
        [false, true] ∧
      ((c0.address_slot 0x1000 ∉ t1.allocated_address_set →
          track_deallocation c0 t1 tl_ready env_ok 0x1000 = (t1, tl_ready)) ∧
        ∃ new, (track_deallocation c0 t1 tl_ready env_ok 0x1000).1.ring = t1.ring ++ new ∧
          (t1.track_deallocations = true → c0.address_slot 0x1000 ∈ t1.allocated_address_set →
            env_ok.main.reserve = .ok → ∃ r ∈ new, r.isDealloc = true) ∧
          ∀ r ∈ new, r.isDealloc = true →
            (∃ hdr sid, r.event = Event.dealloc hdr sid 0x1000) ∧
            c0.address_slot 0x1000 ∈ t1.allocated_address_set ∧
            c0.address_slot 0x1000 ∉
              (track_deallocation c0 t1 tl_ready env_ok 0x1000).1.allocated_address_set ∧
            ∃ pre tl0 env0 addr0 post,
              c0.address_slot addr0 = c0.address_slot 0x1000 ∧
              (Function.Injective c0.address_slot → addr0 = 0x1000) ∧
              [Call.alloc tl_ready env_ok 0x1000] = pre ++ [Call.alloc tl0 env0 addr0] ++ post ∧
              ∀ q, q <+: post → ∀ t2,
                run c0 1 t_live (pre ++ [Call.alloc tl0 env0 addr0] ++ q) = .ok t2 →
                  c0.address_slot 0x1000 ∈ t2.allocated_address_set) :=
  ⟨rfl, fun _ _ h => h, _, rfl, by decide,
    c4_dealloc_names_live_address c0 1 t_live _ [Call.alloc tl_ready env_ok 0x1000]
      tl_ready env_ok 0x1000 rfl rfl⟩

/-- C4 counterexample: a live-address bitset of 64 bits keyed by the low bits
of the address.  After the single allocation at 0x1000, which sets bit 0, the
call `track_deallocation(0x2000)` finds bit 0 set (0x2000 is keyed to it too),
clears it and commits a DEALLOCATION with `ptr = 0x2000`, an address no
`track_allocation` call ever inserted. -/
theorem c4_counterexample :
    t_live.allocated_address_set = ∅ ∧
    c_hashed.address_slot 0x1000 = c_hashed.address_slot 0x2000 ∧
    (∀ tl env, Call.alloc tl env 0x2000 ∉ [Call.alloc tl_ready env_ok 0x1000]) ∧
    ∃ t1, run c_hashed 1 t_live [Call.alloc tl_ready env_ok 0x1000] = .ok t1 ∧
      t1.ring.map (fun r => (r.isSample, r.addr)) = [(true, 0x1000)] ∧
      (track_deallocation c_hashed t1 tl_ready env_ok 0x2000).1.ring.map
        (fun r => (r.isDealloc, r.ptr)) = [(false, 0), (true, 0x2000)] :=
  ⟨rfl, by decide, by intro tl env h; simp at h, _, rfl, by decide, by decide⟩

/-! ## C5: consecutive failures disable the tracker -/

theorem next_sample_interval_congr (t t1 : AllocationTracker) (v : Nat)
    (hI : t1.sampling_interval = t.sampling_interval)
    (hdet : t1.deterministic_sampling = t.deterministic_sampling) :
    t1.next_sample_interval v = t.next_sample_interval v := by
  unfold next_sample_interval
  rw [hI, hdet]

theorem sample_loop_congr (t t1 : AllocationTracker) (draws : Nat → Nat)
    (hI : t1.sampling_interval = t.sampling_interval)
    (hdet : t1.deterministic_sampling = t.deterministic_sampling) (fuel : Nat) :
    ∀ k rem n, sample_loop t1 draws fuel k rem n = sample_loop t draws fuel k rem n := by
  induction fuel with
  | zero => intro k rem n; rfl
  | succ f ih =>
    intro k rem n
    rw [sample_loop, sample_loop, next_sample_interval_congr t t1 _ hI hdet]
    split_ifs
    · exact ih _ _ _
    · rfl

/-- The sampling decision reads the tracker's interval and mode only. -/
theorem sampling_decision_congr (fuel : Nat) (t t1 : AllocationTracker)
    (tl : TrackerThreadLocalState) (draws : Nat → Nat)
    (hI : t1.sampling_interval = t.sampling_interval)
    (hdet : t1.deterministic_sampling = t.deterministic_sampling) :
    sampling_decision fuel t1 tl draws = sampling_decision fuel t tl draws := by
  have hd : decision_start t1 tl draws = decision_start t tl draws := by
    unfold decision_start
    rw [next_sample_interval_congr t t1 _ hI hdet]
  rw [sampling_decision_eq, sampling_decision_eq, hd, hI, sample_loop_congr t t1 draws hI hdet]

theorem record_allocation_config (c : Consts) (t : AllocationTracker)
    (tl : TrackerThreadLocalState) (env : Env) (addr total_size : Nat) :
    (record_allocation c t tl env addr total_size).1.sampling_interval = t.sampling_interval ∧
    (record_allocation c t tl env addr total_size).1.deterministic_sampling =
      t.deterministic_sampling ∧
    (record_allocation c t tl env addr total_size).1.stack_sample_size =
      t.stack_sample_size := by
  have ha := track_live_address_fields c t tl env addr
  unfold record_allocation
  dsimp only
  split_ifs <;> simp [ha]

theorem push_alloc_sample_timeout (c : Consts) (t : AllocationTracker)
    (tl : TrackerThreadLocalState) (env : Env) (addr allocated_size : Nat)
    (hres : env.main.reserve = .timeout) :
    IsDDResOK (push_alloc_sample c t tl env addr allocated_size).1 = false := by
  unfold push_alloc_sample
  dsimp only
  split_ifs <;> simp [hres, IsDDResOK]

/-- A counted failure either disables the tracker or raises the count by one,
below the maximum. -/
theorem free_on_consecutive_failures_failure (c : Consts) (t : AllocationTracker)
    (hf : t.failure_count + 1 < 2 ^ 32) :
    (free_on_consecutive_failures c t false).track_allocations = true →
      (free_on_consecutive_failures c t false).failure_count = t.failure_count + 1 ∧
      t.failure_count + 1 < c.k_max_consecutive_failures := by
  have hmod : (t.failure_count + 1) % 2 ^ 32 = t.failure_count + 1 := Nat.mod_eq_of_lt hf
  unfold free_on_consecutive_failures
  dsimp only
  rw [hmod]
  simp only [Bool.not_false, if_true]
  split_ifs with h
  · intro h1
    simp at h1
  · intro _
    exact ⟨rfl, by omega⟩

theorem record_allocation_timeout (c : Consts) (t : AllocationTracker)
    (tl : TrackerThreadLocalState) (env : Env) (addr total_size : Nat)
    (hres : env.main.reserve = .timeout) (hf : t.failure_count + 1 < 2 ^ 32) :
    (record_allocation c t tl env addr total_size).1.track_allocations = true →
      (record_allocation c t tl env addr total_size).1.failure_count = t.failure_count + 1 ∧
      t.failure_count + 1 < c.k_max_consecutive_failures := by
  have ha := (track_live_address_fields c t tl env addr).2.2.2.2.2.2.2.2
  have hto := push_alloc_sample_timeout c (track_live_address c t tl env addr).1
    (track_live_address c t tl env addr).2.1 env (track_live_address c t tl env addr).2.2
    total_size hres
  have hfc : (push_alloc_sample c (track_live_address c t tl env addr).1
      (track_live_address c t tl env addr).2.1 env (track_live_address c t tl env addr).2.2
      total_size).2.1.failure_count = t.failure_count := by
    simp [ha]
  have hfail := free_on_consecutive_failures_failure c
    (push_alloc_sample c (track_live_address c t tl env addr).1
      (track_live_address c t tl env addr).2.1 env (track_live_address c t tl env addr).2.2
      total_size).2.1 (by rw [hfc]; exact hf)
  rw [hfc] at hfail
  unfold record_allocation
  dsimp only
  rw [hto]
  split_ifs
  · exact hfail
  · exact hfail

/-- A disabled tracker ignores `track_allocation`. -/
theorem track_allocation_inactive (c : Consts) (fuel : Nat) (t : AllocationTracker)
    (tl : TrackerThreadLocalState) (env : Env) (addr : Nat)
    (h : t.track_allocations = false) :
    track_allocation c fuel t tl env addr = .ok (t, tl) := by
  simp [track_allocation, h]

theorem run_timeouts (c : Consts) (fuel : Nat) (t0 : AllocationTracker)
    (hk : c.k_max_consecutive_failures < 2 ^ 32)
    (calls : List (TrackerThreadLocalState × Env × Nat)) :
    ∀ t : AllocationTracker,
      t.sampling_interval = t0.sampling_interval →
      t.deterministic_sampling = t0.deterministic_sampling →
      (t.track_allocations = false ∨
        (t.failure_count + 1 < 2 ^ 32 ∧ 1 ≤ calls.length ∧
          c.k_max_consecutive_failures ≤ t.failure_count + calls.length)) →
      (∀ x ∈ calls, x.2.1.main.reserve = .timeout ∧
        ∃ tl1 np, sampling_decision fuel t0 x.1 x.2.1.draws = .ok (tl1, some np)) →
      ∃ t1, run c fuel t (alloc_calls calls) = .ok t1 ∧ t1.track_allocations = false := by
  induction calls with
  | nil =>
    intro t _ _ h _
    rcases h with h | h
    · exact ⟨t, rfl, h⟩
    · simp at h
  | cons x rest ih =>
    intro t hI hdet h hcalls
    obtain ⟨tl, env, addr⟩ := x
    have hrest : ∀ y ∈ rest, y.2.1.main.reserve = .timeout ∧
        ∃ tl1 np, sampling_decision fuel t0 y.1 y.2.1.draws = .ok (tl1, some np) :=
      fun y hy => hcalls y (List.mem_cons_of_mem _ hy)
    by_cases hact : t.track_allocations = true
    · have hlen : t.failure_count + 1 < 2 ^ 32 ∧ 1 ≤ ((tl, env, addr) :: rest).length ∧
          c.k_max_consecutive_failures ≤ t.failure_count + ((tl, env, addr) :: rest).length := by
        rcases h with h | h
        · rw [hact] at h
          exact absurd h (by simp)
        · exact h
      have hf := hlen.1
      obtain ⟨hres, tl1, np, hdec⟩ := hcalls (tl, env, addr) (List.mem_cons_self _ _)
      dsimp only at hres hdec
      rw [← sampling_decision_congr fuel t0 t tl env.draws hI hdet] at hdec
      have hta : track_allocation c fuel t tl env addr =
          .ok (record_allocation c t tl1 env addr np.2) := by
        obtain ⟨n, p⟩ := np
        simp only [track_allocation, hact, Bool.not_true, Bool.false_eq_true, if_false, hdec]
      have hcfg := record_allocation_config c t tl1 env addr np.2
      have hfail := record_allocation_timeout c t tl1 env addr np.2 hres hf
      have hnext : (record_allocation c t tl1 env addr np.2).1.track_allocations = false ∨
          ((record_allocation c t tl1 env addr np.2).1.failure_count + 1 < 2 ^ 32 ∧
            1 ≤ rest.length ∧ c.k_max_consecutive_failures ≤
              (record_allocation c t tl1 env addr np.2).1.failure_count + rest.length) := by
        cases hra : (record_allocation c t tl1 env addr np.2).1.track_allocations
        · exact Or.inl rfl
        · obtain ⟨h1, h2⟩ := hfail hra
          simp only [List.length_cons] at hlen
          exact Or.inr ⟨by omega, by omega, by omega⟩
      obtain ⟨t1, hrun, hoff⟩ := ih (record_allocation c t tl1 env addr np.2).1
        (hcfg.1.trans hI) (hcfg.2.1.trans hdet) hnext hrest
      refine ⟨t1, ?_, hoff⟩
      simp only [alloc_calls, List.map_cons, run, step, hta]
      exact hrun
    · have hoff : t.track_allocations = false := by simpa using hact
      obtain ⟨t1, hrun, hoff1⟩ := ih t hI hdet (Or.inl hoff) hrest
      refine ⟨t1, ?_, hoff1⟩
      simp only [alloc_calls, List.map_cons, run, step,
        track_allocation_inactive c fuel t tl env addr hoff]
      exact hrun

/-- C5 (amended): after N consecutive `track_allocation` calls that reach the
sample push and whose reservation fails with a timeout, with N at least
`k_max_consecutive_failures` and at least 1, the run has returned with
`track_allocations` false, and every later `track_allocation` call returns
without any effect. -/
theorem c5_timeouts_disable (c : Consts) (fuel : Nat) (t : AllocationTracker)
    (calls : List (TrackerThreadLocalState × Env × Nat))
    (hk : c.k_max_consecutive_failures < 2 ^ 32) (hf : t.failure_count + 1 < 2 ^ 32)
    (hcalls : ∀ x ∈ calls, x.2.1.main.reserve = .timeout ∧
      ∃ tl1 np, sampling_decision fuel t x.1 x.2.1.draws = .ok (tl1, some np))
    (hN1 : 1 ≤ calls.length) (hN : c.k_max_consecutive_failures ≤ calls.length) :
    ∃ t1, run c fuel t (alloc_calls calls) = .ok t1 ∧ t1.track_allocations = false ∧
      ∀ tl env addr, track_allocation c fuel t1 tl env addr = .ok (t1, tl) := by
  obtain ⟨t1, hrun, hoff⟩ := run_timeouts c fuel t hk calls t rfl rfl
    (Or.inr ⟨hf, hN1, by omega⟩) hcalls
  exact ⟨t1, hrun, hoff, fun tl env addr => track_allocation_inactive c fuel t1 tl env addr hoff⟩

/-- C5 witness: with three failures allowed, three calls whose reservation
times out disable the unit test's tracker. -/
theorem c5_timeouts_disable_witness :
    c0.k_max_consecutive_failures = 3 ∧ t_active.track_allocations = true ∧
    ∃ t1, run c0 1 t_active (alloc_calls
        [(tl_ready, env_timeout, 0x1000), (tl_ready, env_timeout, 0x2000),
          (tl_ready, env_timeout, 0x3000)]) = .ok t1 ∧
      t1.track_allocations = false ∧
      ∀ tl env addr, track_allocation c0 1 t1 tl env addr = .ok (t1, tl) :=
  ⟨rfl, rfl,
    c5_timeouts_disable c0 1 t_active
      [(tl_ready, env_timeout, 0x1000), (tl_ready, env_timeout, 0x2000),
        (tl_ready, env_timeout, 0x3000)] (by decide) (by decide)
      (by
        intro x hx
        simp only [List.mem_cons, List.mem_singleton, List.not_mem_nil, or_false] at hx
        rcases hx with rfl | rfl | rfl <;> exact ⟨rfl, _, _, rfl⟩)
      (by decide) (by decide)⟩

/-- C5 counterexample: the ring is full (no timeout) at each of three
consecutive calls, three being `k_max_consecutive_failures`; every reservation
fails, yet the tracker is still active, its failure count is 0 and the three
drops sit in `lost_count`. -/
theorem c5_counterexample :
    c0.k_max_consecutive_failures = 3 ∧ t_active.track_allocations = true ∧
    env_ring_full.main.reserve = .full ∧
    ∃ t1, run c0 1 t_active (alloc_calls
        [(tl_ready, env_ring_full, 0x1000), (tl_ready, env_ring_full, 0x2000),
          (tl_ready, env_ring_full, 0x3000)]) = .ok t1 ∧
      t1.track_allocations = true ∧ t1.failure_count = 0 ∧ t1.lost_count = 3 ∧
      t1.ring = [] :=
  ⟨rfl, rfl, rfl, _, rfl, by decide, by decide, by decide, by decide⟩

/-! ## Lost-count bookkeeping -/

theorem sum_period_append (l1 l2 : List Committed) :
    sum_period (l1 ++ l2) = sum_period l1 + sum_period l2 := by
  simp [sum_period]

theorem sum_lost_append (l1 l2 : List Committed) :
    sum_lost (l1 ++ l2) = sum_lost l1 + sum_lost l2 := by
  simp [sum_lost]

/-- The pending count after `push_lost_sample`: zero once flushed, put back
otherwise. -/
theorem push_lost_sample_lost_count (c : Consts) (t : AllocationTracker)
    (tl : TrackerThreadLocalState) (env : Env) :
    (push_lost_sample c t tl env).2.1.lost_count =
      if t.lost_count ≠ 0 ∧ env.lost.reserve = .ok then 0 else t.lost_count % 2 ^ 64 := by
  by_cases hl : t.lost_count = 0 <;> cases hr : env.lost.reserve <;>
    simp [push_lost_sample, hl, hr]

theorem push_lost_sample_ring (c : Consts) (t : AllocationTracker)
    (tl : TrackerThreadLocalState) (env : Env) :
    (push_lost_sample c t tl env).2.1.ring = t.ring ++ flushed c t tl env := by
  by_cases hl : t.lost_count = 0 <;> cases hr : env.lost.reserve <;>
    simp [flushed, push_lost_sample, hl, hr]

theorem flush_lost_lost_count (c : Consts) (t : AllocationTracker)
    (tl : TrackerThreadLocalState) (env : Env) :
    (flush_lost c t tl env).1.lost_count =
      if t.lost_count ≠ 0 ∧ env.lost.reserve = .ok then 0 else t.lost_count % 2 ^ 64 := by
  unfold flush_lost
  by_cases hl : t.lost_count = 0
  · simp [hl]
  · simp only [bne_iff_ne, ne_eq, hl, not_false_eq_true, if_true]
    rw [push_lost_sample_lost_count]
    simp [hl]

theorem sum_flushed (c : Consts) (t : AllocationTracker) (tl : TrackerThreadLocalState)
    (env : Env) :
    sum_period (flushed c t tl env) = 0 ∧
    sum_lost (flushed c t tl env) =
      if t.lost_count ≠ 0 ∧ env.lost.reserve = .ok then t.lost_count else 0 := by
  unfold flushed
  split_ifs <;> simp [sum_period, sum_lost, lost_record, Committed.period, Committed.lostField]

/-- The flush of the lost count moves the count into a LOST record or keeps
it pending: nothing is dropped. -/
theorem flush_lost_accounted (c : Consts) (t : AllocationTracker)
    (tl : TrackerThreadLocalState) (env : Env) (hlc : t.lost_count < 2 ^ 64) :
    accounted (flush_lost c t tl env).1 = accounted t := by
  unfold accounted
  rw [flush_lost_ring, flush_lost_lost_count, sum_period_append, sum_lost_append,
    (sum_flushed c t tl env).1, (sum_flushed c t tl env).2, Nat.mod_eq_of_lt hlc]
  split_ifs <;> omega

theorem flush_lost_lost_count_le (c : Consts) (t : AllocationTracker)
    (tl : TrackerThreadLocalState) (env : Env) :
    (flush_lost c t tl env).1.lost_count ≤ t.lost_count := by
  rw [flush_lost_lost_count]
  split_ifs
  · omega
  · exact Nat.mod_le _ _

/-- The result and the pending count of `push_alloc_sample` when the stack
bounds are known. -/
theorem push_alloc_sample_result (c : Consts) (t : AllocationTracker)
    (tl : TrackerThreadLocalState) (env : Env) (addr allocated_size : Nat)
    (hstack : stack_bounds_available tl env = true) :
    (push_alloc_sample c t tl env addr allocated_size).2.1.lost_count =
      (if env.main.reserve = .ok then (flush_lost c t tl env).1.lost_count
       else ((flush_lost c t tl env).1.lost_count + 1) % 2 ^ 64) ∧
    (env.main.reserve ≠ .timeout → env.main.write_ok = true →
      IsDDResOK (push_alloc_sample c t tl env addr allocated_size).1 = true) := by
  have hb : (current_stack_bounds tl env).empty = false := by
    unfold stack_bounds_available at hstack
    unfold current_stack_bounds
    split_ifs with h <;> simp_all
  unfold current_stack_bounds at hb
  by_cases he : tl.stack_bounds.empty = true
  · simp only [he, if_true] at hb
    cases hres : env.main.reserve <;>
      simp [push_alloc_sample, hres, he, hb, IsDDResOK]
    all_goals split_ifs <;> simp_all [IsDDResOK]
  · simp only [he] at hb
    cases hres : env.main.reserve <;>
      simp [push_alloc_sample, hres, he, IsDDResOK]
    all_goals split_ifs <;> simp_all [IsDDResOK]

/-! ## C6: samples and lost counts add up -/

/-- At interval 1, an allocation of one byte by a thread in the state a
previous call (or its creation) left yields one sample of period 1. -/
theorem sampling_decision_unit (fuel : Nat) (t : AllocationTracker)
    (tl : TrackerThreadLocalState) (draws : Nat → Nat) (hI : t.sampling_interval = 1)
    (h0 : tl.remaining_bytes_initialized = false → tl.remaining_bytes = 0)
    (h1 : tl.remaining_bytes_initialized = true → tl.remaining_bytes = -1) :
    sampling_decision (fuel + 1) t (accumulate tl 1) draws =
      .ok ({ accumulate tl 1 with remaining_bytes_initialized := true, remaining_bytes := -1 },
        some (1, 1)) := by
  have hw0 : wrap_i64 ((0 : Nat) : Int) = 0 := by decide
  have hu0 : to_u64 0 = 0 := by decide
  have hstart : decision_start t (accumulate tl 1) draws = 0 := by
    unfold decision_start accumulate
    have e1 : wrap_i64 (wrap_i64 (0 + ((1 : Nat) : Int)) - ((1 : Nat) : Int)) = 0 := by decide
    have e2 : wrap_i64 (-1 + ((1 : Nat) : Int)) = 0 := by decide
    cases hi : tl.remaining_bytes_initialized
    · rw [h0 hi, next_sample_interval_one t _ hI]
      simp only [Bool.false_eq_true, if_false]
      exact e1
    · rw [h1 hi]
      simp only [if_true]
      exact e2
  rw [sampling_decision_eq, hstart, hI, hu0, Nat.zero_mod, Nat.zero_div, hw0,
    sample_loop_interval_one fuel t draws _ 0 hI]
  simp

theorem accounted_free_on_consecutive_failures (c : Consts) (t : AllocationTracker)
    (b : Bool) : accounted (free_on_consecutive_failures c t b) = accounted t := by
  simp [accounted]

theorem sum_pushed_sample (c : Consts) (t : AllocationTracker) (tl : TrackerThreadLocalState)
    (env : Env) (addr allocated_size : Nat) (hstack : stack_bounds_available tl env = true) :
    sum_period (pushed_sample c t tl env addr allocated_size) =
      (if env.main.reserve = .ok then allocated_size else 0) ∧
    sum_lost (pushed_sample c t tl env addr allocated_size) = 0 := by
  unfold pushed_sample
  simp only [hstack, true_and]
  split_ifs <;>
    simp [sum_period, sum_lost, sample_record, Committed.period, Committed.lostField]

/-- A push of a sample of period 1 that does not time out adds exactly 1 to
the accounted weight: as a SAMPLE, or as one more lost event. -/
theorem push_alloc_sample_accounted (c : Consts) (t : AllocationTracker)
    (tl : TrackerThreadLocalState) (env : Env) (addr : Nat)
    (hstack : stack_bounds_available tl env = true) (hres : env.main.reserve ≠ .timeout)
    (hlc : t.lost_count + 1 < 2 ^ 64) :
    accounted (push_alloc_sample c t tl env addr 1).2.1 = accounted t + 1 := by
  have hfl := flush_lost_accounted c t tl env (by omega)
  have hle := flush_lost_lost_count_le c t tl env
  have hr := (push_alloc_sample_result c t tl env addr 1 hstack).1
  have hs := sum_pushed_sample c t tl env addr 1 hstack
  unfold accounted at hfl ⊢
  rw [flush_lost_ring] at hfl
  rw [push_alloc_sample_ring, hr, sum_period_append, sum_lost_append, hs.1, hs.2]
  cases hres1 : env.main.reserve
  · simp only [if_true]
    omega
  · simp only [reduceCtorEq, if_false]
    rw [Nat.mod_eq_of_lt (by omega)]
    omega
  · exact absurd hres1 hres

theorem record_allocation_off_eq (c : Consts) (t : AllocationTracker)
    (tl : TrackerThreadLocalState) (env : Env) (addr total_size : Nat)
    (hd : t.track_deallocations = false) :
    (record_allocation c t tl env addr total_size).1 =
      free_on_consecutive_failures c (push_alloc_sample c t tl env addr total_size).2.1
        (IsDDResOK (push_alloc_sample c t tl env addr total_size).1) := by
  have hoff := (record_allocation_off c t tl env addr total_size hd).2.1
  unfold record_allocation at hoff ⊢
  rw [track_live_address_off c t tl env addr hd] at hoff ⊢
  dsimp only at hoff ⊢
  split_ifs at hoff ⊢ with h
  · simp only [Bool.and_eq_true] at h
    have h2 := h.1.2
    have hf := (free_on_consecutive_failures_flags c
      (push_alloc_sample c t tl env addr total_size).2.1
      (IsDDResOK (push_alloc_sample c t tl env addr total_size).1)).2 h2
    simp [hd] at hf
  · rfl

/-- One call of the sequence of C6. -/
theorem track_allocation_unit (c : Consts) (fuel : Nat) (t : AllocationTracker)
    (tl : TrackerThreadLocalState) (env : Env) (addr : Nat)
    (hI : t.sampling_interval = 1) (hact : t.track_allocations = true)
    (hd : t.track_deallocations = false)
    (h0 : tl.remaining_bytes_initialized = false → tl.remaining_bytes = 0)
    (h1 : tl.remaining_bytes_initialized = true → tl.remaining_bytes = -1)
    (hstack : stack_bounds_available tl env = true) (hres : env.main.reserve ≠ .timeout)
    (hw : env.main.write_ok = true) (hlc : t.lost_count + 1 < 2 ^ 64) :
    ∃ r, track_allocation c (fuel + 1) t (accumulate tl 1) env addr = .ok r ∧
      accounted r.1 = accounted t + 1 ∧ r.1.lost_count ≤ t.lost_count + 1 ∧
      r.1.sampling_interval = 1 ∧ r.1.track_allocations = true ∧
      r.1.track_deallocations = false ∧
      r.2.remaining_bytes_initialized = true ∧ r.2.remaining_bytes = -1 ∧
      r.2.stack_bounds.empty = false := by
  have hdec := sampling_decision_unit fuel t tl env.draws hI h0 h1
  have hstack1 : stack_bounds_available
      { accumulate tl 1 with remaining_bytes_initialized := true, remaining_bytes := -1 }
      env = true := by
    simpa [stack_bounds_available, accumulate] using hstack
  have hoff := record_allocation_off c t
    { accumulate tl 1 with remaining_bytes_initialized := true, remaining_bytes := -1 }
    env addr 1 hd
  have heq := record_allocation_off_eq c t
    { accumulate tl 1 with remaining_bytes_initialized := true, remaining_bytes := -1 }
    env addr 1 hd
  have hok := (push_alloc_sample_result c t
    { accumulate tl 1 with remaining_bytes_initialized := true, remaining_bytes := -1 }
    env addr 1 hstack1).2 hres hw
  refine ⟨record_allocation c t
    { accumulate tl 1 with remaining_bytes_initialized := true, remaining_bytes := -1 }
    env addr 1, ?_, ?_, ?_, ?_, ?_, hoff.2.1, ?_, ?_, ?_⟩
  · simp only [track_allocation, hact, Bool.not_true, Bool.false_eq_true, if_false, hdec]
  · rw [heq, accounted_free_on_consecutive_failures,
      push_alloc_sample_accounted c t _ env addr hstack1 hres hlc]
  · rw [heq]
    simp only [free_on_consecutive_failures_fields]
    rw [(push_alloc_sample_result c t _ env addr 1 hstack1).1]
    have hle := flush_lost_lost_count_le c t
      { accumulate tl 1 with remaining_bytes_initialized := true, remaining_bytes := -1 } env
    split_ifs
    · omega
    · have := Nat.mod_le ((flush_lost c t
        { accumulate tl 1 with remaining_bytes_initialized := true, remaining_bytes := -1 }
        env).1.lost_count + 1) (2 ^ 64)
      omega
  · rw [hoff.1, hI]
  · rw [heq, hok, (free_on_consecutive_failures_success c _).1]
    simp [hact]
  · rw [hoff.2.2.2.1]
  · rw [hoff.2.2.1]
  · rw [hoff.2.2.2.2]
    unfold stack_bounds_available at hstack1
    unfold current_stack_bounds
    split_ifs with h <;> simp_all

theorem run_allocations_accounted (c : Consts) (fuel : Nat)
    (calls : List (Nat × Nat × Env)) :
    ∀ (t : AllocationTracker) (tl : TrackerThreadLocalState),
      t.sampling_interval = 1 → t.track_allocations = true →
      t.track_deallocations = false →
      (tl.remaining_bytes_initialized = false → tl.remaining_bytes = 0) →
      (tl.remaining_bytes_initialized = true → tl.remaining_bytes = -1) →
      (∀ x ∈ calls, x.1 = 1 ∧ x.2.2.main.reserve ≠ .timeout ∧ x.2.2.main.write_ok = true ∧
        stack_bounds_available tl x.2.2 = true) →
      t.lost_count + calls.length < 2 ^ 64 →
      ∃ r, run_allocations c (fuel + 1) t tl calls = .ok r ∧
        accounted r.1 = accounted t + calls.length := by
  induction calls with
  | nil =>
    intro t tl _ _ _ _ _ _ _
    exact ⟨(t, tl), rfl, by simp⟩
  | cons x rest ih =>
    intro t tl hI hact hd h0 h1 hcalls hN
    obtain ⟨size, addr, env⟩ := x
    obtain ⟨hs, hres, hw, hstack⟩ := hcalls (size, addr, env) (List.mem_cons_self _ _)
    dsimp only at hs hres hw hstack
    subst hs
    simp only [List.length_cons] at hN
    obtain ⟨r, hrun, hacc, hlc1, hI1, hact1, hd1, hinit1, hrem1, hsb1⟩ :=
      track_allocation_unit c fuel t tl env addr hI hact hd h0 h1 hstack hres hw (by omega)
    have hcalls1 : ∀ y ∈ rest, y.1 = 1 ∧ y.2.2.main.reserve ≠ .timeout ∧
        y.2.2.main.write_ok = true ∧ stack_bounds_available r.2 y.2.2 = true := by
      intro y hy
      obtain ⟨a, b, d, _⟩ := hcalls y (List.mem_cons_of_mem _ hy)
      refine ⟨a, b, d, ?_⟩
      simp [stack_bounds_available, hsb1]
    obtain ⟨r2, hrun2, hacc2⟩ := ih r.1 r.2 hI1 hact1 hd1 (by simp [hinit1])
      (fun _ => hrem1) hcalls1 (by omega)
    refine ⟨r2, ?_, ?_⟩
    · simp only [run_allocations, hrun]
      exact hrun2
    · rw [hacc2, hacc, List.length_cons]
      omega

/-- C6 (amended): with interval 1, deallocation tracking off, allocations of
one byte by a thread whose stack bounds are cached or can be retrieved, and
for every pattern of ring-full reservation failures (no timeout of the sample
reservation, no eventfd failure), N `track_allocation` calls return and raise
the sum of the SAMPLE periods, the LOST counts and the pending `lost_count` by
exactly N. -/
theorem c6_samples_plus_lost (c : Consts) (fuel : Nat) (t : AllocationTracker)
    (tl : TrackerThreadLocalState) (calls : List (Nat × Nat × Env))
    (hfuel : 0 < fuel) (hI : t.sampling_interval = 1) (hact : t.track_allocations = true)
    (hd : t.track_deallocations = false)
    (h0 : tl.remaining_bytes_initialized = false → tl.remaining_bytes = 0)
    (h1 : tl.remaining_bytes_initialized = true → tl.remaining_bytes = -1)
    (hcalls : ∀ x ∈ calls, x.1 = 1 ∧ x.2.2.main.reserve ≠ .timeout ∧
      x.2.2.main.write_ok = true ∧ stack_bounds_available tl x.2.2 = true)
    (hN : t.lost_count + calls.length < 2 ^ 64) :
    ∃ r, run_allocations c fuel t tl calls = .ok r ∧
      sum_period r.1.ring + sum_lost r.1.ring + r.1.lost_count =
        sum_period t.ring + sum_lost t.ring + t.lost_count + calls.length := by
  obtain ⟨f, rfl⟩ : ∃ f, fuel = f + 1 := ⟨fuel - 1, by omega⟩
  exact run_allocations_accounted c f calls t tl hI hact hd h0 h1 hcalls hN

/-- C6 witness: four one-byte allocations on the unit test's tracker, the
ring being full at the second and third; one SAMPLE, then a LOST record of
count 2 and one more SAMPLE: the total is 4. -/
theorem c6_samples_plus_lost_witness :
    (∃ r, run_allocations c0 1 t_active tl_fresh
        [(1, 0x1000, env_ok), (1, 0x2000, env_ring_full), (1, 0x3000, env_ring_full),
          (1, 0x4000, env_ok)] = .ok r ∧
      sum_period r.1.ring + sum_lost r.1.ring + r.1.lost_count =
        sum_period t_active.ring + sum_lost t_active.ring + t_active.lost_count + 4) ∧
    (∃ r, run_allocations c0 1 t_active tl_fresh
        [(1, 0x1000, env_ok), (1, 0x2000, env_ring_full), (1, 0x3000, env_ring_full),
          (1, 0x4000, env_ok)] = .ok r ∧
      r.1.ring.map Committed.period = [1, 0, 1] ∧
      r.1.ring.map Committed.lostField = [0, 2, 0] ∧ r.1.lost_count = 0) :=
  ⟨c6_samples_plus_lost c0 1 t_active tl_fresh
      [(1, 0x1000, env_ok), (1, 0x2000, env_ring_full), (1, 0x3000, env_ring_full),
        (1, 0x4000, env_ok)] (by decide) rfl rfl rfl (fun _ => rfl)
      (fun h => absurd h (by decide))
      (by
        intro x hx
        simp only [List.mem_cons, List.mem_singleton, List.not_mem_nil, or_false] at hx
        rcases hx with rfl | rfl | rfl | rfl <;> decide)
      (by decide),
    ⟨_, rfl, by decide, by decide, by decide⟩⟩

/-- C6 counterexample: interval 1, deterministic mode, one-byte allocations,
no timeout and no eventfd failure.  First input: the stack bounds cannot be
retrieved, one call, nothing is committed and nothing is counted as lost.
Second input: deallocation tracking is on with `kMaxTracked = 4`, the ring is
full when the fifth distinct address needs its CLEAR record, the tracker
disables itself and the sixth call is ignored: six calls, five accounted. -/
theorem c6_counterexample :
    (∃ r, run_allocations c0 1 t_active tl_fresh [(1, 0x1000, env_no_stack)] = .ok r ∧
      sum_period r.1.ring + sum_lost r.1.ring + r.1.lost_count = 0) ∧
    (∃ r, run_allocations c0 1 t_live tl_fresh
        [(1, 0x1000, env_ok), (1, 0x2000, env_ok), (1, 0x3000, env_ok), (1, 0x4000, env_ok),
          (1, 0x5000, env_ring_full), (1, 0x6000, env_ok)] = .ok r ∧
      sum_period r.1.ring + sum_lost r.1.ring + r.1.lost_count = 5) :=
  ⟨⟨_, rfl, by decide⟩, ⟨_, rfl, by decide⟩⟩

/-! ## C7: initialisation errors -/

/-- C7: `allocation_tracking_init` returns an error and leaves both feature
flags as they were whenever the tracker is already active or the ring buffer
info does not announce an MPSC ring buffer; when the tracker is already active
the tracker is not modified at all. -/
theorem c7_init_rejects (c : Consts) (t : AllocationTracker)
    (tl : Option TrackerThreadLocalState) (allocation_profiling_rate flags
    stack_sample_size : Nat) (ring_buffer : RingBufferInfo) (timer_check : IntervalTimerCheck)
    (ienv : InitEnv)
    (h : t.track_allocations = true ∨ ring_buffer.ring_buffer_type ≠ c.kMPSCRingBuffer) :
    IsDDResOK (allocation_tracking_init c t tl allocation_profiling_rate flags
      stack_sample_size ring_buffer timer_check ienv).1 = false ∧
    (allocation_tracking_init c t tl allocation_profiling_rate flags
      stack_sample_size ring_buffer timer_check ienv).2.1.track_allocations =
      t.track_allocations ∧
    (allocation_tracking_init c t tl allocation_profiling_rate flags
      stack_sample_size ring_buffer timer_check ienv).2.1.track_deallocations =
      t.track_deallocations ∧
    (t.track_allocations = true →
      (allocation_tracking_init c t tl allocation_profiling_rate flags
        stack_sample_size ring_buffer timer_check ienv).2.1 = t) := by
  unfold allocation_tracking_init
  dsimp only
  split
  · exact ⟨rfl, rfl, rfl, fun _ => rfl⟩
  · by_cases hact : t.track_allocations = true
    · rw [if_pos hact]
      exact ⟨rfl, rfl, rfl, fun _ => rfl⟩
    · have hring : ring_buffer.ring_buffer_type ≠ c.kMPSCRingBuffer := by
        rcases h with h | h
        · exact absurd h hact
        · exact h
      have hinit : init c t allocation_profiling_rate (flags &&& c.kDeterministicSampling != 0)
          (flags &&& c.kTrackDeallocations != 0) stack_sample_size ring_buffer timer_check
          ienv =
          (.error .DD_WHAT_PERFRB,
            { t with
              sampling_interval := allocation_profiling_rate
              deterministic_sampling := (flags &&& c.kDeterministicSampling != 0)
              stack_sample_size := stack_sample_size }) := by
        unfold init
        simp [hring]
      rw [if_neg hact, hinit]
      exact ⟨rfl, rfl, rfl, fun h1 => absurd h1 hact⟩

/-- C7 witness: a second initialisation of the active tracker of the unit
test is refused and changes nothing; an initialisation of a stopped tracker
with a ring buffer of another type is refused and leaves it stopped. -/
theorem c7_init_rejects_witness :
    (IsDDResOK (allocation_tracking_init c0 t_active (some tl_ready) 512 3 4096
        { ring_buffer_type := 1 } timer_unset ienv_ok).1 = false ∧
      (allocation_tracking_init c0 t_active (some tl_ready) 512 3 4096
        { ring_buffer_type := 1 } timer_unset ienv_ok).2.1.track_allocations =
        t_active.track_allocations ∧
      (allocation_tracking_init c0 t_active (some tl_ready) 512 3 4096
        { ring_buffer_type := 1 } timer_unset ienv_ok).2.1.track_deallocations =
        t_active.track_deallocations ∧
      (t_active.track_allocations = true →
        (allocation_tracking_init c0 t_active (some tl_ready) 512 3 4096
          { ring_buffer_type := 1 } timer_unset ienv_ok).2.1 = t_active)) ∧
    (IsDDResOK (allocation_tracking_init c0 t_active.free none 512 3 4096
        { ring_buffer_type := 0 } timer_unset ienv_ok).1 = false ∧
      (allocation_tracking_init c0 t_active.free none 512 3 4096
        { ring_buffer_type := 0 } timer_unset ienv_ok).2.1.track_allocations = false) ∧
    IsDDResOK (allocation_tracking_init c0 t_active.free none 512 3 4096
        { ring_buffer_type := 1 } timer_unset ienv_ok).1 = true :=
  ⟨c7_init_rejects c0 t_active (some tl_ready) 512 3 4096 { ring_buffer_type := 1 }
      timer_unset ienv_ok (Or.inl rfl),
    ⟨by decide, by decide⟩, by decide⟩

/-! ## C8: header.size and the reserved byte count -/

theorem sample_stack_size_le (c : Consts) (t : AllocationTracker) (bounds : Span) (env : Env) :
    sample_stack_size c t bounds env ≤ (t.stack_sample_size + 7) / 8 * 8 := by
  unfold sample_stack_size align_up
  dsimp only
  generalize ((bounds.endAddr : Int) - (env.stack_base_ptr : Int) + c.kStackMargin) = x
  generalize t.stack_sample_size = s
  have h1 : 0 ≤ min (max x 0) (s : Int) := by
    simp only [le_min_iff, le_max_iff, le_refl, or_true, true_and]
    omega
  have h2 : min (max x 0) (s : Int) ≤ s := min_le_right _ _
  generalize min (max x 0) (s : Int) = y at h1 h2
  have h3 : 0 ≤ (y + 8 - 1) / 8 * 8 := by omega
  omega

theorem to_header_size_of_lt (n : Nat) (h : n < 2 ^ 16) : to_header_size n = n := by
  unfold to_header_size header_size_bits
  exact Nat.mod_eq_of_lt h

theorem flushed_header_size (c : Consts) (t : AllocationTracker)
    (tl : TrackerThreadLocalState) (env : Env) (h : c.sizeof_perf_event_lost < 2 ^ 16) :
    ∀ r ∈ flushed c t tl env, header_size_exact c r := by
  intro r hr
  unfold flushed at hr
  split_ifs at hr
  · simp only [List.mem_singleton] at hr
    subst hr
    exact ⟨to_header_size_of_lt _ h, trivial⟩
  · simp at hr

theorem cleared_header_size (c : Consts) (t : AllocationTracker)
    (tl : TrackerThreadLocalState) (env : Env) (h : c.sizeof_ClearLiveAllocationEvent < 2 ^ 16) :
    ∀ r ∈ cleared c t tl env, header_size_exact c r := by
  intro r hr
  unfold cleared at hr
  split_ifs at hr
  · simp only [List.mem_singleton] at hr
    subst hr
    exact ⟨to_header_size_of_lt _ h, trivial⟩
  · simp at hr

theorem pushed_dealloc_header_size (c : Consts) (t : AllocationTracker)
    (tl : TrackerThreadLocalState) (env : Env) (addr : Nat)
    (h : c.sizeof_DeallocationEvent < 2 ^ 16) :
    ∀ r ∈ pushed_dealloc c t tl env addr, header_size_exact c r := by
  intro r hr
  unfold pushed_dealloc at hr
  split_ifs at hr
  · simp only [List.mem_singleton] at hr
    subst hr
    exact ⟨to_header_size_of_lt _ h, trivial⟩
  · simp at hr

theorem pushed_sample_header_size (c : Consts) (t : AllocationTracker)
    (tl : TrackerThreadLocalState) (env : Env) (addr allocated_size : Nat)
    (h : sizeof_allocation_event c ((t.stack_sample_size + 7) / 8 * 8) < 2 ^ 16) :
    ∀ r ∈ pushed_sample c t tl env addr allocated_size, header_size_exact c r := by
  intro r hr
  have hss := sample_stack_size_le c t (current_stack_bounds tl env) env
  have hlt : sizeof_allocation_event c
      (sample_stack_size c t (current_stack_bounds tl env) env) < 2 ^ 16 := by
    unfold sizeof_allocation_event at h ⊢
    omega
  unfold pushed_sample at hr
  split_ifs at hr
  · simp only [List.mem_singleton] at hr
    subst hr
    exact ⟨to_header_size_of_lt _ hlt, rfl⟩
  · simp at hr

theorem flushed_header_stored (c : Consts) (t : AllocationTracker)
    (tl : TrackerThreadLocalState) (env : Env) :
    ∀ r ∈ flushed c t tl env, header_size_stored c t r := by
  intro r hr
  unfold flushed at hr
  split_ifs at hr
  · simp only [List.mem_singleton] at hr
    subst hr
    exact ⟨rfl, fun h => ⟨to_header_size_of_lt _ h, trivial⟩, rfl⟩
  · simp at hr

theorem cleared_header_stored (c : Consts) (t : AllocationTracker)
    (tl : TrackerThreadLocalState) (env : Env) :
    ∀ r ∈ cleared c t tl env, header_size_stored c t r := by
  intro r hr
  unfold cleared at hr
  split_ifs at hr
  · simp only [List.mem_singleton] at hr
    subst hr
    exact ⟨rfl, fun h => ⟨to_header_size_of_lt _ h, trivial⟩, rfl⟩
  · simp at hr

theorem pushed_dealloc_header_stored (c : Consts) (t : AllocationTracker)
    (tl : TrackerThreadLocalState) (env : Env) (addr : Nat) :
    ∀ r ∈ pushed_dealloc c t tl env addr, header_size_stored c t r := by
  intro r hr
  unfold pushed_dealloc at hr
  split_ifs at hr
  · simp only [List.mem_singleton] at hr
    subst hr
    exact ⟨rfl, fun h => ⟨to_header_size_of_lt _ h, trivial⟩, rfl⟩
  · simp at hr

theorem pushed_sample_header_stored (c : Consts) (t : AllocationTracker)
    (tl : TrackerThreadLocalState) (env : Env) (addr allocated_size : Nat) :
    ∀ r ∈ pushed_sample c t tl env addr allocated_size, header_size_stored c t r := by
  intro r hr
  have hss := sample_stack_size_le c t (current_stack_bounds tl env) env
  have hle : sizeof_allocation_event c
      (sample_stack_size c t (current_stack_bounds tl env) env) ≤
      sizeof_allocation_event c ((t.stack_sample_size + 7) / 8 * 8) := by
    unfold sizeof_allocation_event
    omega
  unfold pushed_sample at hr
  split_ifs at hr
  · simp only [List.mem_singleton] at hr
    subst hr
    exact ⟨rfl, fun h => ⟨to_header_size_of_lt _ h, rfl⟩, rfl, hss, hle⟩
  · simp at hr

/-- C8 (amended): every record committed by `push_alloc_sample`,
`push_dealloc_sample`, `push_clear_live_allocation` and `push_lost_sample`,
for every configured stack sample size, stores in the 16-bit `header.size` the
byte count passed to `reserve` reduced modulo `2^16`, hence that byte count
itself whenever it is below `2^16`.  The byte count is the fixed size of the
record's type for LOST, CLEAR and DEALLOCATION records, so these are exact
when those sizes are below `2^16`; for a SAMPLE it is
`sizeof_allocation_event` of the value stored in `size_stack`, which is at
most the configured stack sample size rounded up to 8, so every SAMPLE is
exact when `sizeof_allocation_event` of that bound is below `2^16`. -/
theorem c8_header_size (c : Consts) (t : AllocationTracker) (tl : TrackerThreadLocalState)
    (env : Env) (addr allocated_size : Nat) :
    (∃ new, (push_alloc_sample c t tl env addr allocated_size).2.1.ring = t.ring ++ new ∧
      (∀ r ∈ new, header_size_stored c t r) ∧
      (c.sizeof_perf_event_lost < 2 ^ 16 → ∀ r ∈ new, r.isLost = true →
        header_size_exact c r) ∧
      (c.sizeof_perf_event_lost < 2 ^ 16 →
        sizeof_allocation_event c ((t.stack_sample_size + 7) / 8 * 8) < 2 ^ 16 →
        ∀ r ∈ new, header_size_exact c r)) ∧
    (∃ new, (push_dealloc_sample c t tl env addr).2.1.ring = t.ring ++ new ∧
      (∀ r ∈ new, header_size_stored c t r) ∧
      (c.sizeof_perf_event_lost < 2 ^ 16 → c.sizeof_DeallocationEvent < 2 ^ 16 →
        ∀ r ∈ new, header_size_exact c r)) ∧
    (∃ new, (push_clear_live_allocation c t tl env).2.1.ring = t.ring ++ new ∧
      (∀ r ∈ new, header_size_stored c t r) ∧
      (c.sizeof_ClearLiveAllocationEvent < 2 ^ 16 → ∀ r ∈ new, header_size_exact c r)) ∧
    (∃ new, (push_lost_sample c t tl env).2.1.ring = t.ring ++ new ∧
      (∀ r ∈ new, header_size_stored c t r) ∧
      (c.sizeof_perf_event_lost < 2 ^ 16 → ∀ r ∈ new, header_size_exact c r)) := by
  refine ⟨⟨_, by rw [push_alloc_sample_ring, List.append_assoc], ?_, ?_, ?_⟩,
    ⟨_, by rw [push_dealloc_sample_ring, List.append_assoc], ?_, ?_⟩,
    ⟨_, push_clear_live_allocation_ring c t tl env, cleared_header_stored c t tl env,
      fun h => cleared_header_size c t tl env h⟩,
    ⟨_, push_lost_sample_ring c t tl env, flushed_header_stored c t tl env,
      fun h => flushed_header_size c t tl env h⟩⟩
  · intro r hr
    rw [List.mem_append] at hr
    rcases hr with hr | hr
    · exact flushed_header_stored c t tl env r hr
    · exact pushed_sample_header_stored c t tl env addr allocated_size r hr
  · intro hlost r hr hl
    rw [List.mem_append] at hr
    rcases hr with hr | hr
    · exact flushed_header_size c t tl env hlost r hr
    · have hs := (pushed_sample_spec _ _ _ _ _ _ r hr).1
      rw [not_isSample_of_isLost r hl] at hs
      exact absurd hs (by simp)
  · intro hlost hsample r hr
    rw [List.mem_append] at hr
    rcases hr with hr | hr
    · exact flushed_header_size c t tl env hlost r hr
    · exact pushed_sample_header_size c t tl env addr allocated_size hsample r hr
  · intro r hr
    rw [List.mem_append] at hr
    rcases hr with hr | hr
    · exact flushed_header_stored c t tl env r hr
    · exact pushed_dealloc_header_stored c t tl env addr r hr
  · intro hlost hdealloc r hr
    rw [List.mem_append] at hr
    rcases hr with hr | hr
    · exact flushed_header_size c t tl env hlost r hr
    · exact pushed_dealloc_header_size c t tl env addr hdealloc r hr

/-- C8 witness: the unit test's configuration (stack sample size 4096), where
the SAMPLE of scenario S1 reserves 784 bytes and stores 784 in `header.size`;
and the stack sample size 65536 with the same shallow stack, where the SAMPLE
again reserves 784 bytes and stores 784. -/
theorem c8_header_size_witness :
    ((push_alloc_sample c0 t_active tl_ready env_ok 0xdeadbeef 1).2.1.ring.map
      (fun r => (r.reserved, r.event.hdr.size)) = [(784, 784)]) ∧
    ((push_alloc_sample c0 t_big_stack tl_ready env_ok 0xdeadbeef 1).2.1.ring.map
      (fun r => (r.reserved, r.event.hdr.size)) = [(784, 784)]) ∧
    ((∃ new, (push_alloc_sample c0 t_big_stack tl_ready env_ok 0xdeadbeef 1).2.1.ring =
        t_big_stack.ring ++ new ∧
      (∀ r ∈ new, header_size_stored c0 t_big_stack r) ∧
      (c0.sizeof_perf_event_lost < 2 ^ 16 → ∀ r ∈ new, r.isLost = true →
        header_size_exact c0 r) ∧
      (c0.sizeof_perf_event_lost < 2 ^ 16 →
        sizeof_allocation_event c0 ((t_big_stack.stack_sample_size + 7) / 8 * 8) < 2 ^ 16 →
        ∀ r ∈ new, header_size_exact c0 r)) ∧
    (∃ new, (push_dealloc_sample c0 t_big_stack tl_ready env_ok 0xdeadbeef).2.1.ring =
        t_big_stack.ring ++ new ∧
      (∀ r ∈ new, header_size_stored c0 t_big_stack r) ∧
      (c0.sizeof_perf_event_lost < 2 ^ 16 → c0.sizeof_DeallocationEvent < 2 ^ 16 →
        ∀ r ∈ new, header_size_exact c0 r)) ∧
    (∃ new, (push_clear_live_allocation c0 t_big_stack tl_ready env_ok).2.1.ring =
        t_big_stack.ring ++ new ∧
      (∀ r ∈ new, header_size_stored c0 t_big_stack r) ∧
      (c0.sizeof_ClearLiveAllocationEvent < 2 ^ 16 → ∀ r ∈ new, header_size_exact c0 r)) ∧
    (∃ new, (push_lost_sample c0 t_big_stack tl_ready env_ok).2.1.ring =
        t_big_stack.ring ++ new ∧
      (∀ r ∈ new, header_size_stored c0 t_big_stack r) ∧
      (c0.sizeof_perf_event_lost < 2 ^ 16 → ∀ r ∈ new, header_size_exact c0 r))) :=
  ⟨by decide, by decide,
    c8_header_size c0 t_big_stack tl_ready env_ok 0xdeadbeef 1⟩

/-- C8 counterexample: the stack sample size 65536 is a 32-bit value; with a
stack deep enough the SAMPLE is reserved with 65624 bytes, and the 16-bit
`header.size` holds 88. -/
theorem c8_counterexample :
    t_big_stack.stack_sample_size = 65536 ∧
    (push_alloc_sample c0 t_big_stack tl_deep env_deep 0xdeadbeef 1).2.1.ring.map
      (fun r => (r.reserved, r.event.hdr.size, r.isSample)) = [(65624, 88, true)] :=
  ⟨rfl, by decide⟩

/-! ## C9: the clear of the live-address set -/

theorem push_clear_live_allocation_ok (c : Consts) (t : AllocationTracker)
    (tl : TrackerThreadLocalState) (env : Env) (hres : env.clear.reserve = .ok)
    (hw : env.clear.commit = true → env.clear.write_ok = true) :
    IsDDResOK (push_clear_live_allocation c t tl env).1 = true := by
  unfold push_clear_live_allocation
  rw [hres]
  dsimp only
  split_ifs with h
  · simp only [Bool.and_eq_true, Bool.not_eq_true'] at h
    rw [hw h.1] at h
    exact absurd h.2 (by simp)
  · rfl

/-- The live-address bookkeeping when the new address exceeds the bound and
the CLEAR record goes through. -/
theorem track_live_address_clear (c : Consts) (t : AllocationTracker)
    (tl : TrackerThreadLocalState) (env : Env) (addr : Nat)
    (hd : t.track_deallocations = true) (hnew : c.address_slot addr ∉ t.allocated_address_set)
    (hexceed : (insert (c.address_slot addr) t.allocated_address_set).card > c.kMaxTracked)
    (hres : env.clear.reserve = .ok)
    (hw : env.clear.commit = true → env.clear.write_ok = true) :
    track_live_address c t tl env addr =
      ({ (push_clear_live_allocation c
            { t with allocated_address_set := insert (c.address_slot addr) t.allocated_address_set }
            tl env).2.1 with allocated_address_set := {c.address_slot addr} },
        (push_clear_live_allocation c
          { t with
            allocated_address_set := insert (c.address_slot addr) t.allocated_address_set } tl env).2.2,
        addr) := by
  have hok := push_clear_live_allocation_ok c
    { t with
      allocated_address_set := insert (c.address_slot addr) t.allocated_address_set } tl env hres hw
  unfold track_live_address
  dsimp only
  rw [if_pos hd, if_pos hnew, if_pos hexceed, if_pos hok]

theorem sample_record_shape (c : Consts) (now : Int) (pid tid addr allocated_size
    sample_stack_size dyn_size : Nat) :
    ∃ hdr sid, sample_record c now pid tid addr allocated_size sample_stack_size dyn_size =
      Committed.mk (sizeof_allocation_event c sample_stack_size)
        (Event.sample hdr sid addr allocated_size sample_stack_size dyn_size) ∧
      hdr.type = EventType.PERF_RECORD_SAMPLE ∧
      sid.pid = pid ∧ sid.tid = tid :=
  ⟨_, _, rfl, rfl, rfl, rfl⟩

/-- What `push_alloc_sample` commits when the stack bounds are known and the
reservation succeeds: the LOST record of a pending count, if any, and the
SAMPLE with the given address and period. -/
theorem push_alloc_sample_commits (c : Consts) (t : AllocationTracker)
    (tl : TrackerThreadLocalState) (env : Env) (addr allocated_size : Nat)
    (hres : env.main.reserve = .ok) (hstack : stack_bounds_available tl env = true) :
    ∃ lost hdr sid size_stack,
      (push_alloc_sample c t tl env addr allocated_size).2.1.ring =
        t.ring ++ lost ++
          [Committed.mk (sizeof_allocation_event c size_stack)
            (Event.sample hdr sid addr allocated_size size_stack env.dyn_size)] ∧
      (∀ x ∈ lost, x.isLost = true) ∧ hdr.type = EventType.PERF_RECORD_SAMPLE := by
  obtain ⟨hdr, sid, hshape, hty, _, _⟩ := sample_record_shape c env.main.now
    ((flush_lost c t tl env).1.cache_pid env).pid
    (cache_tid (flush_lost c t tl env).2.1 env).tid addr allocated_size
    (sample_stack_size c t (current_stack_bounds tl env) env) env.dyn_size
  refine ⟨flushed c t tl env, hdr, sid,
    sample_stack_size c t (current_stack_bounds tl env) env, ?_, flushed_isLost c t tl env, hty⟩
  rw [push_alloc_sample_ring_ok c t tl env addr allocated_size hres hstack, hshape]

theorem cleared_ok (c : Consts) (t : AllocationTracker) (tl : TrackerThreadLocalState)
    (env : Env) (hres : env.clear.reserve = .ok) :
    ∃ clear_rec, cleared c t tl env = [clear_rec] ∧ clear_rec.isClear = true := by
  unfold cleared
  rw [if_pos hres]
  exact ⟨_, rfl, rfl⟩

/-- C9 (amended): with deallocation tracking on and interval 1, when a
`track_allocation` call inserts a new address that makes the count of the
live-address set exceed `kMaxTracked`, the ring accepts the reservations of
the CLEAR and of the SAMPLE, the eventfd writes succeed and the thread's stack
bounds are available, the call commits a CLEAR_LIVE_ALLOCATION record, then
the LOST record of a pending lost count if there is one, then a SAMPLE whose
`addr` is that address, and afterwards the live-address set contains exactly
that address.  An address is in the set when the bit it is keyed to
(`address_slot`) is set; with an exact set that is the address itself. -/
theorem c9_clear_then_sample (c : Consts) (fuel : Nat) (t : AllocationTracker)
    (tl : TrackerThreadLocalState) (env : Env) (addr : Nat)
    (hfuel : 0 < fuel) (hI : t.sampling_interval = 1) (hact : t.track_allocations = true)
    (hd : t.track_deallocations = true) (hnew : c.address_slot addr ∉ t.allocated_address_set)
    (hexceed : (insert (c.address_slot addr) t.allocated_address_set).card > c.kMaxTracked)
    (hclear : env.clear.reserve = .ok) (hmain : env.main.reserve = .ok)
    (hcw : env.clear.commit = true → env.clear.write_ok = true)
    (hmw : env.main.write_ok = true)
    (hstack : stack_bounds_available tl env = true)
    (hr : tl.remaining_bytes_initialized = true ∨ 0 ≤ wrap_i64 (tl.remaining_bytes - 1)) :
    ∃ r clear_rec lost hdr sid period size_stack dyn_size,
      track_allocation c fuel t tl env addr = .ok r ∧
      r.1.ring = t.ring ++ [clear_rec] ++ lost ++
        [Committed.mk (sizeof_allocation_event c size_stack)
          (Event.sample hdr sid addr period size_stack dyn_size)] ∧
      clear_rec.isClear = true ∧ (∀ x ∈ lost, x.isLost = true) ∧
      hdr.type = EventType.PERF_RECORD_SAMPLE ∧
      r.1.allocated_address_set = {c.address_slot addr} := by
  obtain ⟨f, rfl⟩ : ∃ f, fuel = f + 1 := ⟨fuel - 1, by omega⟩
  obtain ⟨n, hn⟩ := sampling_decision_interval_one f t tl env.draws hI hr
  have hta : track_allocation c (f + 1) t tl env addr =
      .ok (record_allocation c t
        { tl with remaining_bytes_initialized := true, remaining_bytes := -1 } env addr n) := by
    simp only [track_allocation, hact, Bool.not_true, Bool.false_eq_true, if_false, hn]
  generalize htl1 : ({ tl with remaining_bytes_initialized := true, remaining_bytes := -1 } :
    TrackerThreadLocalState) = tl1 at hta
  have hstack1 : stack_bounds_available tl1 env = true := by
    rw [← htl1]
    simpa [stack_bounds_available] using hstack
  have hlive := track_live_address_clear c t tl1 env addr hd hnew hexceed hclear hcw
  generalize hpc : push_clear_live_allocation c
    { t with
      allocated_address_set := insert (c.address_slot addr) t.allocated_address_set } tl1 env = pc
    at hlive
  have hpcring : pc.2.1.ring = t.ring ++ cleared c
      { t with
        allocated_address_set := insert (c.address_slot addr) t.allocated_address_set } tl1 env := by
    rw [← hpc, push_clear_live_allocation_ring]
  have hpcsb : pc.2.2.stack_bounds = tl1.stack_bounds := by
    rw [← hpc]
    simp
  have hpcd : pc.2.1.track_deallocations = true := by
    rw [← hpc]
    simpa using hd
  have hstack2 : stack_bounds_available pc.2.2 env = true := by
    unfold stack_bounds_available at hstack1 ⊢
    rw [hpcsb]
    exact hstack1
  obtain ⟨clear_rec, hcl, hisclear⟩ := cleared_ok c
    { t with
      allocated_address_set := insert (c.address_slot addr) t.allocated_address_set } tl1 env hclear
  have hok := (push_alloc_sample_result c
    { pc.2.1 with allocated_address_set := {c.address_slot addr} } pc.2.2 env addr n hstack2).2
    (by rw [hmain]; simp) hmw
  obtain ⟨lost, hdr, sid, ss, hring, hlost, hty⟩ := push_alloc_sample_commits c
    { pc.2.1 with allocated_address_set := {c.address_slot addr} } pc.2.2 env addr n hmain hstack2
  refine ⟨record_allocation c t tl1 env addr n, clear_rec, lost, hdr, sid, n, ss,
    env.dyn_size, hta, ?_, hisclear, hlost, hty, ?_⟩
  · rw [record_allocation_ring, hlive]
    dsimp only
    rw [hring]
    dsimp only
    rw [hpcring, hcl]
  · unfold record_allocation
    rw [hlive]
    dsimp only
    rw [hok]
    simp

/-- C9 witness: scenario S4, `kMaxTracked = 4`, four addresses in the set and
a fifth, new one: the call commits a CLEAR and then the SAMPLE of 0x5000, and
the set is `{0x5000}`. -/
theorem c9_clear_then_sample_witness :
    (insert 0x5000 t_four.allocated_address_set).card > c0.kMaxTracked ∧
    (∃ r, track_allocation c0 1 t_four tl_ready env_ok 0x5000 = .ok r ∧
      r.1.ring.map (fun x => (x.isClear, x.isSample)) = [(true, false), (false, true)] ∧
      r.1.allocated_address_set = {0x5000}) ∧
    ∃ r clear_rec lost hdr sid period size_stack dyn_size,
      track_allocation c0 1 t_four tl_ready env_ok 0x5000 = .ok r ∧
      r.1.ring = t_four.ring ++ [clear_rec] ++ lost ++
        [Committed.mk (sizeof_allocation_event c0 size_stack)
          (Event.sample hdr sid 0x5000 period size_stack dyn_size)] ∧
      clear_rec.isClear = true ∧ (∀ x ∈ lost, x.isLost = true) ∧
      hdr.type = EventType.PERF_RECORD_SAMPLE ∧
      r.1.allocated_address_set = {0x5000} :=
  ⟨by decide, ⟨_, rfl, by decide, by decide⟩,
    c9_clear_then_sample c0 1 t_four tl_ready env_ok 0x5000 (by decide) rfl rfl rfl
      (by decide) (by decide) rfl rfl (fun _ => rfl) rfl (by decide) (Or.inl rfl)⟩

/-- C9 counterexample: deallocation tracking on, interval 1, `kMaxTracked = 4`,
four addresses in the set, a fifth new address and a ring that accepts every
reservation.  First input: the thread's stack bounds cannot be retrieved; the
CLEAR is committed, no SAMPLE follows and the set ends empty.  Second input:
the eventfd write after the CLEAR fails; CLEAR and SAMPLE are committed but
the set keeps all five addresses and the tracker is disabled. -/
theorem c9_counterexample :
    t_four.track_deallocations = true ∧ t_four.sampling_interval = 1 ∧
    (insert 0x5000 t_four.allocated_address_set).card > c0.kMaxTracked ∧
    env_no_stack.clear.reserve = .ok ∧ env_no_stack.main.reserve = .ok ∧
    env_clear_write_fails.clear.reserve = .ok ∧ env_clear_write_fails.main.reserve = .ok ∧
    (∃ r, track_allocation c0 1 t_four tl_no_bounds env_no_stack 0x5000 = .ok r ∧
      r.1.ring.map (fun x => (x.isClear, x.isSample)) = [(true, false)] ∧
      r.1.allocated_address_set = ∅) ∧
    (∃ r, track_allocation c0 1 t_four tl_ready env_clear_write_fails 0x5000 = .ok r ∧
      r.1.ring.map (fun x => (x.isClear, x.isSample)) = [(true, false), (false, true)] ∧
      r.1.allocated_address_set.card = 5 ∧ r.1.track_allocations = false) :=
  ⟨rfl, rfl, by decide, rfl, rfl, rfl, rfl, ⟨_, rfl, by decide, by decide⟩,
    ⟨_, rfl, by decide, by decide, by decide⟩⟩

/-! ## C10: ids after a fork -/

theorem stamps_same (env : Env) (t t1 : AllocationTracker) (tl tl1 : TrackerThreadLocalState)
    (h : ids_fresh env t tl) (hring : t1.ring = t.ring) (hpid : t1.pid = t.pid)
    (htid : tl1.tid = tl.tid) : stamps env t tl t1 tl1 := by
  refine ⟨[], by simp [hring], by simp, fun _ => ⟨hpid, htid⟩, ?_⟩
  unfold ids_fresh at h ⊢
  rw [hpid, htid]
  exact h

theorem stamps_trans (env : Env) (t t1 t2 : AllocationTracker)
    (tl tl1 tl2 : TrackerThreadLocalState)
    (h1 : stamps env t tl t1 tl1) (h2 : stamps env t1 tl1 t2 tl2) :
    stamps env t tl t2 tl2 := by
  obtain ⟨n1, hr1, hs1, he1, _⟩ := h1
  obtain ⟨n2, hr2, hs2, he2, hf2⟩ := h2
  refine ⟨n1 ++ n2, by rw [hr2, hr1, List.append_assoc], ?_, ?_, hf2⟩
  · intro r hr
    rw [List.mem_append] at hr
    rcases hr with hr | hr
    · exact hs1 r hr
    · exact hs2 r hr
  · intro h
    rw [List.append_eq_nil] at h
    obtain ⟨a1, a2⟩ := he1 h.1
    obtain ⟨b1, b2⟩ := he2 h.2
    exact ⟨b1.trans a1, b2.trans a2⟩

theorem cache_ids_fresh (env : Env) (t : AllocationTracker) (tl : TrackerThreadLocalState)
    (h : ids_fresh env t tl) :
    (t.cache_pid env).pid = env.getpid ∧ (cache_tid tl env).tid = env.gettid := by
  unfold ids_fresh at h
  rw [cache_pid_pid, cache_tid_tid]
  obtain ⟨h1, h2⟩ := h
  constructor
  · rcases h1 with h1 | h1
    · simp [h1]
    · split_ifs
      · rfl
      · exact h1
  · rcases h2 with h2 | h2
    · simp [h2]
    · split_ifs
      · rfl
      · exact h2

theorem push_lost_sample_stamps (c : Consts) (t : AllocationTracker)
    (tl : TrackerThreadLocalState) (env : Env) (h : ids_fresh env t tl) :
    stamps env t tl (push_lost_sample c t tl env).2.1 (push_lost_sample c t tl env).2.2.1 := by
  have hc := cache_ids_fresh env { t with lost_count := 0 } tl h
  by_cases hl : t.lost_count = 0
  · refine stamps_same env _ _ _ _ h ?_ ?_ ?_ <;> simp [push_lost_sample, hl]
  · cases hr : env.lost.reserve
    · refine ⟨[lost_record c env.lost.now env.getpid env.gettid t.lost_count], ?_, ?_, ?_, ?_⟩
      · rw [push_lost_sample_ring]
        unfold flushed
        rw [if_pos ⟨hl, hr⟩, (cache_ids_fresh env t tl h).1, (cache_ids_fresh env t tl h).2]
      · intro r hr1
        simp only [List.mem_singleton] at hr1
        subst hr1
        exact ⟨rfl, rfl⟩
      · intro h0
        simp at h0
      · unfold ids_fresh
        simp only [push_lost_sample, hl, hr, beq_iff_eq, if_false, check_timer_fields]
        exact ⟨Or.inr hc.1, Or.inr hc.2⟩
    · refine stamps_same env _ _ _ _ h ?_ ?_ ?_ <;> simp [push_lost_sample, hl, hr]
    · refine stamps_same env _ _ _ _ h ?_ ?_ ?_ <;> simp [push_lost_sample, hl, hr]

theorem flush_lost_stamps (c : Consts) (t : AllocationTracker)
    (tl : TrackerThreadLocalState) (env : Env) (h : ids_fresh env t tl) :
    stamps env t tl (flush_lost c t tl env).1 (flush_lost c t tl env).2.1 := by
  unfold flush_lost
  split_ifs
  · exact push_lost_sample_stamps c t tl env h
  · exact stamps_same env _ _ _ _ h rfl rfl rfl

/-- A commit of one record stamped from the refreshed caches. -/
theorem stamps_commit (env : Env) (t0 t1 : AllocationTracker)
    (tl0 tl1 : TrackerThreadLocalState) (rec : Committed) (h : ids_fresh env t0 tl0)
    (hpid : rec.event.sid.pid = (t0.cache_pid env).pid)
    (htid : rec.event.sid.tid = (cache_tid tl0 env).tid)
    (hring : t1.ring = t0.ring ++ [rec]) (hp : t1.pid = (t0.cache_pid env).pid)
    (ht : tl1.tid = (cache_tid tl0 env).tid) : stamps env t0 tl0 t1 tl1 := by
  have hc := cache_ids_fresh env t0 tl0 h
  refine ⟨[rec], hring, ?_, ?_, ?_⟩
  · intro r hr
    simp only [List.mem_singleton] at hr
    subst hr
    exact ⟨hpid.trans hc.1, htid.trans hc.2⟩
  · intro h0
    simp at h0
  · exact ⟨Or.inr (hp.trans hc.1), Or.inr (ht.trans hc.2)⟩

theorem push_clear_live_allocation_stamps (c : Consts) (t : AllocationTracker)
    (tl : TrackerThreadLocalState) (env : Env) (h : ids_fresh env t tl) :
    stamps env t tl (push_clear_live_allocation c t tl env).2.1
      (push_clear_live_allocation c t tl env).2.2 := by
  cases hr : env.clear.reserve
  · refine stamps_commit env t _ tl _
      (clear_record c env.clear.now (t.cache_pid env).pid (cache_tid tl env).tid) h rfl rfl
      ?_ ?_ ?_
    · rw [push_clear_live_allocation_ring]
      unfold cleared
      rw [if_pos hr]
    · simp only [push_clear_live_allocation, hr]
      split_ifs <;> simp
    · simp only [push_clear_live_allocation, hr]
      split_ifs <;> simp
  · refine stamps_same env _ _ _ _ h ?_ ?_ ?_ <;> simp [push_clear_live_allocation, hr]
  · refine stamps_same env _ _ _ _ h ?_ ?_ ?_ <;> simp [push_clear_live_allocation, hr]

theorem push_dealloc_sample_stamps (c : Consts) (t : AllocationTracker)
    (tl : TrackerThreadLocalState) (env : Env) (addr : Nat) (h : ids_fresh env t tl) :
    stamps env t tl (push_dealloc_sample c t tl env addr).2.1
      (push_dealloc_sample c t tl env addr).2.2 := by
  have hf := flush_lost_stamps c t tl env h
  refine stamps_trans env _ _ _ _ _ _ hf ?_
  have hfresh := hf.choose_spec.2.2.2
  unfold push_dealloc_sample
  dsimp only
  generalize flush_lost c t tl env = f at hfresh ⊢
  cases hr : env.main.reserve
  · dsimp only
    refine stamps_commit env f.1 _ f.2.1 _
      (dealloc_record c env.main.now (f.1.cache_pid env).pid (cache_tid f.2.1 env).tid addr)
      hfresh rfl rfl ?_ ?_ ?_ <;> split_ifs <;> simp
  · exact stamps_same env _ _ _ _ hfresh rfl rfl rfl
  · exact stamps_same env _ _ _ _ hfresh rfl rfl rfl

theorem push_alloc_sample_stamps (c : Consts) (t : AllocationTracker)
    (tl : TrackerThreadLocalState) (env : Env) (addr allocated_size : Nat)
    (h : ids_fresh env t tl) :
    stamps env t tl (push_alloc_sample c t tl env addr allocated_size).2.1
      (push_alloc_sample c t tl env addr allocated_size).2.2 := by
  have hf := flush_lost_stamps c t tl env h
  refine stamps_trans env _ _ _ _ _ _ hf ?_
  have hfresh := hf.choose_spec.2.2.2
  unfold push_alloc_sample
  dsimp only
  generalize flush_lost c t tl env = f at hfresh ⊢
  have hfresh2 : ids_fresh env f.1
      (if f.2.1.stack_bounds.empty = true then
        { f.2.1 with stack_bounds := env.retrieve_stack_bounds } else f.2.1) := by
    unfold ids_fresh at hfresh ⊢
    split_ifs <;> exact hfresh
  have hstep : stamps env f.1 f.2.1 f.1
      (if f.2.1.stack_bounds.empty = true then
        { f.2.1 with stack_bounds := env.retrieve_stack_bounds } else f.2.1) := by
    refine stamps_same env _ _ _ _ hfresh rfl rfl ?_
    split_ifs <;> rfl
  refine stamps_trans env _ _ _ _ _ _ hstep ?_
  generalize (if f.2.1.stack_bounds.empty = true then
    ({ f.2.1 with stack_bounds := env.retrieve_stack_bounds } : TrackerThreadLocalState)
    else f.2.1) = tlb at hfresh2 ⊢
  by_cases he : tlb.stack_bounds.empty = true
  · rw [if_pos he]
    exact stamps_same env _ _ _ _ hfresh2 rfl rfl rfl
  · rw [if_neg he]
    cases hr : env.main.reserve
    · dsimp only
      refine stamps_commit env f.1 _ tlb _
        (sample_record c env.main.now (f.1.cache_pid env).pid (cache_tid tlb env).tid addr
          allocated_size (sample_stack_size c f.1 tlb.stack_bounds env) env.dyn_size)
        hfresh2 rfl rfl ?_ ?_ ?_ <;> split_ifs <;> simp
    · exact stamps_same env _ _ _ _ hfresh2 rfl rfl rfl
    · exact stamps_same env _ _ _ _ hfresh2 rfl rfl rfl

theorem stamps_congr (env : Env) (t t1 t2 : AllocationTracker)
    (tl tl1 tl2 : TrackerThreadLocalState) (h : stamps env t tl t1 tl1)
    (hring : t2.ring = t1.ring) (hpid : t2.pid = t1.pid) (htid : tl2.tid = tl1.tid) :
    stamps env t tl t2 tl2 :=
  stamps_trans env t t1 t2 tl tl1 tl2 h
    (stamps_same env t1 t2 tl1 tl2 h.choose_spec.2.2.2 hring hpid htid)

theorem stamps_congr_left (env : Env) (t t0 t1 : AllocationTracker)
    (tl tl0 tl1 : TrackerThreadLocalState) (hf : ids_fresh env t tl)
    (h : stamps env t0 tl0 t1 tl1)
    (hring : t0.ring = t.ring) (hpid : t0.pid = t.pid) (htid : tl0.tid = tl.tid) :
    stamps env t tl t1 tl1 :=
  stamps_trans env t t0 t1 tl tl0 tl1 (stamps_same env t t0 tl tl0 hf hring hpid htid) h

theorem track_live_address_stamps (c : Consts) (t : AllocationTracker)
    (tl : TrackerThreadLocalState) (env : Env) (addr : Nat) (h : ids_fresh env t tl) :
    stamps env t tl (track_live_address c t tl env addr).1
      (track_live_address c t tl env addr).2.1 := by
  have hpc := stamps_congr_left env t
    { t with
      allocated_address_set := insert (c.address_slot addr) t.allocated_address_set } _ tl tl _ h
    (push_clear_live_allocation_stamps c
      { t with
        allocated_address_set := insert (c.address_slot addr) t.allocated_address_set } tl env h)
    rfl rfl rfl
  unfold track_live_address
  dsimp only
  by_cases hd : t.track_deallocations = true
  · rw [if_pos hd]
    by_cases hm : c.address_slot addr ∉ t.allocated_address_set
    · rw [if_pos hm]
      by_cases hc : (insert (c.address_slot addr) t.allocated_address_set).card > c.kMaxTracked
      · rw [if_pos hc]
        by_cases hok : IsDDResOK (push_clear_live_allocation c
            { t with allocated_address_set := insert (c.address_slot addr) t.allocated_address_set }
            tl env).1 = true
        · rw [if_pos hok]
          exact stamps_congr env _ _ _ _ _ _ hpc rfl rfl rfl
        · rw [if_neg hok]
          exact stamps_congr env _ _ _ _ _ _ hpc (by simp) (by simp) rfl
      · rw [if_neg hc]
        exact stamps_same env _ _ _ _ h rfl rfl rfl
    · rw [if_neg hm]
      exact stamps_same env _ _ _ _ h rfl rfl rfl
  · rw [if_neg hd]
    exact stamps_same env _ _ _ _ h rfl rfl rfl

theorem record_allocation_stamps (c : Consts) (t : AllocationTracker)
    (tl : TrackerThreadLocalState) (env : Env) (addr total_size : Nat)
    (h : ids_fresh env t tl) :
    stamps env t tl (record_allocation c t tl env addr total_size).1
      (record_allocation c t tl env addr total_size).2 := by
  have ha := track_live_address_stamps c t tl env addr h
  have hp := push_alloc_sample_stamps c (track_live_address c t tl env addr).1
    (track_live_address c t tl env addr).2.1 env (track_live_address c t tl env addr).2.2
    total_size ha.choose_spec.2.2.2
  have hall := stamps_trans env _ _ _ _ _ _ ha hp
  unfold record_allocation
  dsimp only
  split_ifs
  · exact stamps_congr env _ _ _ _ _ _ hall (by simp) (by simp) rfl
  · exact stamps_congr env _ _ _ _ _ _ hall (by simp) (by simp) rfl

theorem sampling_decision_tid (fuel : Nat) (t : AllocationTracker)
    (tl tl1 : TrackerThreadLocalState) (draws : Nat → Nat) (x : Option (Nat × Nat))
    (h : sampling_decision fuel t tl draws = .ok (tl1, x)) : tl1.tid = tl.tid := by
  rw [sampling_decision_eq] at h
  by_cases h1 : tl.remaining_bytes_initialized = false ∧ decision_start t tl draws < 0
  · rw [if_pos h1] at h
    simp only [Except.ok.injEq, Prod.mk.injEq] at h
    rw [← h.1]
  · rw [if_neg h1] at h
    by_cases h2 : t.sampling_interval = 0
    · rw [if_pos h2] at h
      simp at h
    · rw [if_neg h2] at h
      split at h
      · simp at h
      · simp only [Except.ok.injEq, Prod.mk.injEq] at h
        rw [← h.1]

theorem track_allocation_stamps (c : Consts) (fuel : Nat) (t : AllocationTracker)
    (tl : TrackerThreadLocalState) (env : Env) (addr : Nat)
    (r : AllocationTracker × TrackerThreadLocalState) (h : ids_fresh env t tl)
    (hta : track_allocation c fuel t tl env addr = .ok r) : stamps env t tl r.1 r.2 := by
  unfold track_allocation at hta
  split_ifs at hta
  · simp only [Except.ok.injEq] at hta
    subst hta
    exact stamps_same env _ _ _ _ h rfl rfl rfl
  · split at hta
    · simp at hta
    · rename_i tl1 hdec
      simp only [Except.ok.injEq] at hta
      subst hta
      exact stamps_same env _ _ _ _ h rfl rfl (sampling_decision_tid fuel t tl tl1 _ _ hdec)
    · rename_i tl1 n total hdec
      simp only [Except.ok.injEq] at hta
      subst hta
      have htid := sampling_decision_tid fuel t tl tl1 _ _ hdec
      have hf1 : ids_fresh env t tl1 := by
        unfold ids_fresh at h ⊢
        rw [htid]
        exact h
      exact stamps_congr_left env t t _ tl tl1 _ h
        (record_allocation_stamps c t tl1 env addr total hf1) rfl rfl htid

theorem track_deallocation_stamps (c : Consts) (t : AllocationTracker)
    (tl : TrackerThreadLocalState) (env : Env) (addr : Nat) (h : ids_fresh env t tl) :
    stamps env t tl (track_deallocation c t tl env addr).1
      (track_deallocation c t tl env addr).2 := by
  unfold track_deallocation
  dsimp only
  split_ifs
  · exact stamps_same env _ _ _ _ h rfl rfl rfl
  · have hp := stamps_congr_left env t
      { t with
        allocated_address_set := t.allocated_address_set.erase (c.address_slot addr) } _ tl tl _ h
      (push_dealloc_sample_stamps c
        { t with
          allocated_address_set := t.allocated_address_set.erase (c.address_slot addr) } tl env addr h)
      rfl rfl rfl
    exact stamps_congr env _ _ _ _ _ _ hp (by simp) (by simp) rfl

theorem thread_step_stamps (c : Consts) (fuel : Nat) (t : AllocationTracker)
    (tl : TrackerThreadLocalState) (op : ThreadCall)
    (r : AllocationTracker × TrackerThreadLocalState) (h : ids_fresh op.env t tl)
    (hstep : thread_step c fuel t tl op = .ok r) : stamps op.env t tl r.1 r.2 := by
  cases op with
  | alloc size addr env =>
    simp only [thread_step] at hstep
    have hf1 : ids_fresh env t (accumulate tl size) := h
    exact stamps_congr_left env t t _ tl (accumulate tl size) _ h
      (track_allocation_stamps c fuel t (accumulate tl size) env addr r hf1 hstep) rfl rfl rfl
  | dealloc addr env =>
    simp only [thread_step, Except.ok.injEq] at hstep
    subst hstep
    exact track_deallocation_stamps c t tl env addr h

theorem track_allocation_ring_mono (c : Consts) (fuel : Nat) (t : AllocationTracker)
    (tl : TrackerThreadLocalState) (env : Env) (addr : Nat)
    (r : AllocationTracker × TrackerThreadLocalState)
    (hta : track_allocation c fuel t tl env addr = .ok r) :
    ∃ new, r.1.ring = t.ring ++ new := by
  unfold track_allocation at hta
  split_ifs at hta
  · simp only [Except.ok.injEq] at hta
    subst hta
    exact ⟨[], by simp⟩
  · split at hta
    · simp at hta
    · simp only [Except.ok.injEq] at hta
      subst hta
      exact ⟨[], by simp⟩
    · simp only [Except.ok.injEq] at hta
      subst hta
      obtain ⟨new, hnew, _⟩ := record_allocation_new_records c t _ env addr _
      exact ⟨new, hnew⟩

theorem track_deallocation_ring_mono (c : Consts) (t : AllocationTracker)
    (tl : TrackerThreadLocalState) (env : Env) (addr : Nat) :
    ∃ new, (track_deallocation c t tl env addr).1.ring = t.ring ++ new := by
  by_cases h : t.track_deallocations = true ∧ c.address_slot addr ∈ t.allocated_address_set
  · exact ⟨_, by rw [(track_deallocation_present c t tl env addr h.1 h.2).1,
      List.append_assoc]⟩
  · have hno : t.track_deallocations = false ∨ c.address_slot addr ∉ t.allocated_address_set := by
      by_cases hd : t.track_deallocations = true
      · exact Or.inr (fun hm => h ⟨hd, hm⟩)
      · exact Or.inl (by simpa using hd)
    exact ⟨[], by rw [track_deallocation_absent c t tl env addr hno]; simp⟩

theorem thread_step_ring_mono (c : Consts) (fuel : Nat) (t : AllocationTracker)
    (tl : TrackerThreadLocalState) (op : ThreadCall)
    (r : AllocationTracker × TrackerThreadLocalState)
    (hstep : thread_step c fuel t tl op = .ok r) : ∃ new, r.1.ring = t.ring ++ new := by
  cases op with
  | alloc size addr env =>
    exact track_allocation_ring_mono c fuel t (accumulate tl size) env addr r hstep
  | dealloc addr env =>
    simp only [thread_step, Except.ok.injEq] at hstep
    subst hstep
    exact track_deallocation_ring_mono c t tl env addr

theorem run_thread_ring_mono (c : Consts) (fuel : Nat) (ops : List ThreadCall) :
    ∀ (t : AllocationTracker) (tl : TrackerThreadLocalState)
      (r : AllocationTracker × TrackerThreadLocalState),
      run_thread c fuel t tl ops = .ok r → ∃ new, r.1.ring = t.ring ++ new := by
  induction ops with
  | nil =>
    intro t tl r h
    simp only [run_thread, Except.ok.injEq] at h
    subst h
    exact ⟨[], by simp⟩
  | cons op rest ih =>
    intro t tl r h
    cases hs : thread_step c fuel t tl op with
    | error e => simp [run_thread, hs] at h
    | ok r1 =>
      simp only [run_thread, hs] at h
      obtain ⟨n1, h1⟩ := thread_step_ring_mono c fuel t tl op r1 hs
      obtain ⟨n2, h2⟩ := ih r1.1 r1.2 r h
      exact ⟨n1 ++ n2, by rw [h2, h1, List.append_assoc]⟩

/-- Starting with both cached ids unset, the first record a thread commits in
a sequence of its calls carries the pid and tid the system reports during the
call that commits it. -/
theorem first_record_ids (c : Consts) (fuel : Nat) (ops : List ThreadCall) :
    ∀ (t : AllocationTracker) (tl : TrackerThreadLocalState)
      (r : AllocationTracker × TrackerThreadLocalState),
      t.pid = 0 → tl.tid = 0 → run_thread c fuel t tl ops = .ok r →
      (r.1.ring = t.ring ∧ r.1.pid = 0 ∧ r.2.tid = 0) ∨
      ∃ rec rest pre op post r0 r1 rest1,
        r.1.ring = t.ring ++ rec :: rest ∧ ops = pre ++ op :: post ∧
        run_thread c fuel t tl pre = .ok r0 ∧ r0.1.ring = t.ring ∧
        thread_step c fuel r0.1 r0.2 op = .ok r1 ∧ r1.1.ring = t.ring ++ rec :: rest1 ∧
        rec.event.sid.pid = op.env.getpid ∧ rec.event.sid.tid = op.env.gettid := by
  induction ops with
  | nil =>
    intro t tl r hp ht h
    simp only [run_thread, Except.ok.injEq] at h
    subst h
    exact Or.inl ⟨rfl, hp, ht⟩
  | cons op rest ih =>
    intro t tl r hp ht h
    cases hs : thread_step c fuel t tl op with
    | error e => simp [run_thread, hs] at h
    | ok r1 =>
      simp only [run_thread, hs] at h
      obtain ⟨new, hring, hstamp, hempty, _⟩ :=
        thread_step_stamps c fuel t tl op r1 ⟨Or.inl hp, Or.inl ht⟩ hs
      cases new with
      | nil =>
        obtain ⟨hp1, ht1⟩ := hempty rfl
        rw [List.append_nil] at hring
        rcases ih r1.1 r1.2 r (hp1.trans hp) (ht1.trans ht) h with hl | hr
        · exact Or.inl ⟨hl.1.trans hring, hl.2⟩
        · obtain ⟨rec, rest', pre, op', post, r0, r1', rest1, h1, h2, h3, h4, h5, h6, h7⟩ := hr
          refine Or.inr ⟨rec, rest', op :: pre, op', post, r0, r1', rest1, ?_, ?_, ?_, ?_, h5,
            ?_, h7⟩
          · rw [h1, hring]
          · rw [h2, List.cons_append]
          · simp only [run_thread, hs]
            exact h3
          · rw [h4, hring]
          · rw [h6, hring]
      | cons rec rest1 =>
        obtain ⟨more, hmore⟩ := run_thread_ring_mono c fuel rest r1.1 r1.2 r h
        refine Or.inr ⟨rec, rest1 ++ more, [], op, rest, (t, tl), r1, rest1, ?_, rfl, rfl, rfl,
          hs, hring, hstamp rec (List.mem_cons_self _ _)⟩
        rw [hmore, hring]
        simp

/-- C10: `notify_fork`, called on a thread that has a thread-local state while
a tracker instance is set, leaves the cached pid and that thread's cached tid
at 0 and changes neither feature flag nor the ring; and in every sequence of
that thread's later calls, either nothing is committed and both ids stay 0, or
the first record committed (SAMPLE, DEALLOCATION, CLEAR or LOST) carries the
pid and the tid that `getpid()` and `gettid()` return during the call that
commits it. -/
theorem c10_notify_fork (c : Consts) (fuel : Nat) (t : AllocationTracker)
    (tl : TrackerThreadLocalState) (ops : List ThreadCall)
    (r : AllocationTracker × TrackerThreadLocalState) (hinst : t.has_instance = true)
    (hrun : run_thread c fuel (notify_fork t (some tl)).1 { tl with tid := 0 } ops = .ok r) :
    (notify_fork t (some tl)).1.pid = 0 ∧
    (notify_fork t (some tl)).2 = some { tl with tid := 0 } ∧
    (notify_fork t (some tl)).1.track_allocations = t.track_allocations ∧
    (notify_fork t (some tl)).1.track_deallocations = t.track_deallocations ∧
    (notify_fork t (some tl)).1.ring = t.ring ∧
    ((r.1.ring = t.ring ∧ r.1.pid = 0 ∧ r.2.tid = 0) ∨
      ∃ rec rest pre op post r0 r1 rest1,
        r.1.ring = t.ring ++ rec :: rest ∧ ops = pre ++ op :: post ∧
        run_thread c fuel (notify_fork t (some tl)).1 { tl with tid := 0 } pre = .ok r0 ∧
        r0.1.ring = t.ring ∧
        thread_step c fuel r0.1 r0.2 op = .ok r1 ∧ r1.1.ring = t.ring ++ rec :: rest1 ∧
        rec.event.sid.pid = op.env.getpid ∧ rec.event.sid.tid = op.env.gettid) := by
  have hnf : (notify_fork t (some tl)).1 = { t with thread_entries := ∅, pid := 0 } := by
    simp [notify_fork, hinst]
  rw [hnf] at hrun ⊢
  refine ⟨rfl, by simp [notify_fork], rfl, rfl, rfl, ?_⟩
  exact first_record_ids c fuel ops { t with thread_entries := ∅, pid := 0 }
    { tl with tid := 0 } r rfl rfl hrun

/-- C10 witness: scenario S6; the tracker holds the parent's pid 55 and the
thread the parent's tid 56; after `notify_fork` the child allocates one byte
and the SAMPLE carries the child's pid 77 and tid 78. -/
theorem c10_notify_fork_witness :
    t_parent.has_instance = true ∧ t_parent.pid = 55 ∧ tl_parent.tid = 56 ∧
    (∃ r, run_thread c0 1 (notify_fork t_parent (some tl_parent)).1
        { tl_parent with tid := 0 } [ThreadCall.alloc 1 0x2000 env_ok] = .ok r ∧
      r.1.ring.map (fun x => (x.isSample, x.event.sid.pid, x.event.sid.tid)) =
        [(true, 77, 78)] ∧
      ((notify_fork t_parent (some tl_parent)).1.pid = 0 ∧
      (notify_fork t_parent (some tl_parent)).2 = some { tl_parent with tid := 0 } ∧
      (notify_fork t_parent (some tl_parent)).1.track_allocations =
        t_parent.track_allocations ∧
      (notify_fork t_parent (some tl_parent)).1.track_deallocations =
        t_parent.track_deallocations ∧
      (notify_fork t_parent (some tl_parent)).1.ring = t_parent.ring ∧
      ((r.1.ring = t_parent.ring ∧ r.1.pid = 0 ∧ r.2.tid = 0) ∨
        ∃ rec rest pre op post r0 r1 rest1,
          r.1.ring = t_parent.ring ++ rec :: rest ∧
          [ThreadCall.alloc 1 0x2000 env_ok] = pre ++ op :: post ∧
          run_thread c0 1 (notify_fork t_parent (some tl_parent)).1
            { tl_parent with tid := 0 } pre = .ok r0 ∧
          r0.1.ring = t_parent.ring ∧
          thread_step c0 1 r0.1 r0.2 op = .ok r1 ∧
          r1.1.ring = t_parent.ring ++ rec :: rest1 ∧
          rec.event.sid.pid = op.env.getpid ∧ rec.event.sid.tid = op.env.gettid))) :=
  ⟨rfl, rfl, rfl, _, rfl, by decide,
    c10_notify_fork c0 1 t_parent tl_parent [ThreadCall.alloc 1 0x2000 env_ok] _ rfl rfl⟩

/-! ## C13: the lost count is never discarded -/

theorem lost_record_shape (c : Consts) (now : Int) (pid tid lost_count : Nat) :
    ∃ hdr sid, lost_record c now pid tid lost_count =
      Committed.mk c.sizeof_perf_event_lost (Event.lost hdr sid 0 lost_count) ∧
      hdr.type = EventType.PERF_RECORD_LOST :=
  ⟨_, _, rfl, rfl⟩

/-- C13: in a sequential execution, for every 64-bit value of `lost_count`,
`push_lost_sample` does exactly one of three things: with a zero count it
commits nothing and leaves the count 0; when the reservation succeeds it
commits one LOST record with `id = 0` and `lost` equal to the count and leaves
the count 0; when the reservation fails it commits nothing and leaves the
count as it was.  In every case the sum of `lost` over the committed LOST
records plus the pending count is unchanged. -/
theorem c13_lost_count_kept (c : Consts) (t : AllocationTracker)
    (tl : TrackerThreadLocalState) (env : Env) (hc : t.lost_count < 2 ^ 64) :
    (t.lost_count = 0 →
      (push_lost_sample c t tl env).2.1.ring = t.ring ∧
      (push_lost_sample c t tl env).2.1.lost_count = 0) ∧
    (t.lost_count ≠ 0 → env.lost.reserve = .ok →
      (∃ hdr sid, (push_lost_sample c t tl env).2.1.ring =
          t.ring ++ [Committed.mk c.sizeof_perf_event_lost
            (Event.lost hdr sid 0 t.lost_count)] ∧
        hdr.type = EventType.PERF_RECORD_LOST) ∧
      (push_lost_sample c t tl env).2.1.lost_count = 0) ∧
    (t.lost_count ≠ 0 → env.lost.reserve ≠ .ok →
      (push_lost_sample c t tl env).2.1.ring = t.ring ∧
      (push_lost_sample c t tl env).2.1.lost_count = t.lost_count) ∧
    sum_lost (push_lost_sample c t tl env).2.1.ring +
        (push_lost_sample c t tl env).2.1.lost_count =
      sum_lost t.ring + t.lost_count := by
  have hmod : t.lost_count % 2 ^ 64 = t.lost_count := Nat.mod_eq_of_lt hc
  rw [push_lost_sample_ring, push_lost_sample_lost_count, hmod]
  refine ⟨?_, ?_, ?_, ?_⟩
  · intro h0
    simp [flushed, h0]
  · intro h0 hres
    obtain ⟨hdr, sid, hshape, hty⟩ := lost_record_shape c env.lost.now (t.cache_pid env).pid
      (cache_tid tl env).tid t.lost_count
    refine ⟨⟨hdr, sid, ?_, hty⟩, ?_⟩
    · unfold flushed
      rw [if_pos ⟨h0, hres⟩, hshape]
    · rw [if_pos ⟨h0, hres⟩]
  · intro h0 hres
    have hno : ¬ (t.lost_count ≠ 0 ∧ env.lost.reserve = .ok) := fun h => hres h.2
    unfold flushed
    rw [if_neg hno, if_neg hno]
    simp
  · rw [sum_lost_append, (sum_flushed c t tl env).2]
    split_ifs <;> omega

/-- C13 witness: two dropped events are pending and the ring accepts the
reservation; one LOST record with `lost = 2` is committed and the pending
count is 0. -/
theorem c13_lost_count_kept_witness :
    t_two_lost.lost_count = 2 ∧
    (push_lost_sample c0 t_two_lost tl_ready env_ok).2.1.ring.map
      (fun r => (r.isLost, r.lostField)) = [(true, 2)] ∧
    ((t_two_lost.lost_count = 0 →
      (push_lost_sample c0 t_two_lost tl_ready env_ok).2.1.ring = t_two_lost.ring ∧
      (push_lost_sample c0 t_two_lost tl_ready env_ok).2.1.lost_count = 0) ∧
    (t_two_lost.lost_count ≠ 0 → env_ok.lost.reserve = .ok →
      (∃ hdr sid, (push_lost_sample c0 t_two_lost tl_ready env_ok).2.1.ring =
          t_two_lost.ring ++ [Committed.mk c0.sizeof_perf_event_lost
            (Event.lost hdr sid 0 t_two_lost.lost_count)] ∧
        hdr.type = EventType.PERF_RECORD_LOST) ∧
      (push_lost_sample c0 t_two_lost tl_ready env_ok).2.1.lost_count = 0) ∧
    (t_two_lost.lost_count ≠ 0 → env_ok.lost.reserve ≠ .ok →
      (push_lost_sample c0 t_two_lost tl_ready env_ok).2.1.ring = t_two_lost.ring ∧
      (push_lost_sample c0 t_two_lost tl_ready env_ok).2.1.lost_count =
        t_two_lost.lost_count) ∧
    sum_lost (push_lost_sample c0 t_two_lost tl_ready env_ok).2.1.ring +
        (push_lost_sample c0 t_two_lost tl_ready env_ok).2.1.lost_count =
      sum_lost t_two_lost.ring + t_two_lost.lost_count) :=
  ⟨rfl, by decide, c13_lost_count_kept c0 t_two_lost tl_ready env_ok (by decide)⟩

/-! ## C14: consecutive failures -/

theorem feed_outcomes_disabled (c : Consts) (outcomes : List Bool) :
    ∀ t : AllocationTracker, t.track_allocations = false → t.track_deallocations = false →
      (feed_outcomes c t outcomes).track_allocations = false ∧
      (feed_outcomes c t outcomes).track_deallocations = false := by
  induction outcomes with
  | nil => intro t h1 h2; exact ⟨h1, h2⟩
  | cons b rest ih =>
    intro t h1 h2
    have hf := free_on_consecutive_failures_flags c t b
    have ha : (free_on_consecutive_failures c t b).track_allocations = false := by
      cases h : (free_on_consecutive_failures c t b).track_allocations
      · rfl
      · have := hf.1 h
        rw [h1] at this
        exact absurd this (by simp)
    have hd : (free_on_consecutive_failures c t b).track_deallocations = false := by
      cases h : (free_on_consecutive_failures c t b).track_deallocations
      · rfl
      · have := hf.2 h
        rw [h2] at this
        exact absurd this (by simp)
    exact ih _ ha hd

theorem replicate_false_not_prefix_true (n : Nat) (rest : List Bool) (hn : 1 ≤ n) :
    ¬ (List.replicate n false <+: true :: rest) := by
  obtain ⟨j, rfl⟩ : ∃ j, n = j + 1 := ⟨n - 1, by omega⟩
  rw [List.replicate_succ, List.cons_prefix_cons]
  intro h
  exact absurd h.1 (by simp)

theorem replicate_prefix_mono (m n : Nat) (a : Bool) (l : List Bool) (hmn : m ≤ n)
    (h : List.replicate n a <+: l) : List.replicate m a <+: l := by
  obtain ⟨d, rfl⟩ : ∃ d, n = m + d := ⟨n - m, by omega⟩
  rw [List.replicate_add] at h
  exact (List.prefix_append _ _).trans h

/-- A failure that does not reach the maximum raises the count by one and
leaves the flags alone. -/
theorem free_on_consecutive_failures_below (c : Consts) (t : AllocationTracker)
    (hf : t.failure_count + 1 < 2 ^ 32)
    (hlt : t.failure_count + 1 < c.k_max_consecutive_failures) :
    (free_on_consecutive_failures c t false).track_allocations = t.track_allocations ∧
    (free_on_consecutive_failures c t false).failure_count = t.failure_count + 1 := by
  have hmod : (t.failure_count + 1) % 2 ^ 32 = t.failure_count + 1 := Nat.mod_eq_of_lt hf
  unfold free_on_consecutive_failures
  dsimp only
  rw [hmod]
  simp only [Bool.not_false, if_true]
  rw [if_neg (by omega)]
  exact ⟨rfl, rfl⟩

/-- A failure that reaches the maximum disables both flags. -/
theorem free_on_consecutive_failures_reach (c : Consts) (t : AllocationTracker)
    (hf : t.failure_count + 1 < 2 ^ 32)
    (hge : c.k_max_consecutive_failures ≤ t.failure_count + 1) :
    (free_on_consecutive_failures c t false).track_allocations = false ∧
    (free_on_consecutive_failures c t false).track_deallocations = false := by
  have hmod : (t.failure_count + 1) % 2 ^ 32 = t.failure_count + 1 := Nat.mod_eq_of_lt hf
  unfold free_on_consecutive_failures
  dsimp only
  rw [hmod]
  simp only [Bool.not_false, if_true]
  rw [if_pos hge]
  exact ⟨rfl, rfl⟩

theorem feed_outcomes_iff (c : Consts) (hk2 : c.k_max_consecutive_failures < 2 ^ 32)
    (outcomes : List Bool) :
    ∀ t : AllocationTracker, t.track_allocations = true →
      t.failure_count < c.k_max_consecutive_failures →
      (((feed_outcomes c t outcomes).track_allocations = false ∧
          (feed_outcomes c t outcomes).track_deallocations = false) ↔
        (List.replicate (c.k_max_consecutive_failures - t.failure_count) false <+: outcomes ∨
          List.replicate c.k_max_consecutive_failures false <:+: outcomes)) := by
  induction outcomes with
  | nil =>
    intro t hact hlt
    simp only [feed_outcomes, List.foldl_nil, hact, Bool.true_eq_false, false_and,
      List.prefix_nil, List.infix_nil, List.replicate_eq_nil_iff, false_iff, not_or]
    exact ⟨by omega, by omega⟩
  | cons b rest ih =>
    intro t hact hlt
    have hfeed : feed_outcomes c t (b :: rest) =
        feed_outcomes c (free_on_consecutive_failures c t b) rest := rfl
    rw [hfeed]
    cases b with
    | true =>
      have hs := free_on_consecutive_failures_success c t
      rw [ih _ (hs.1.trans hact) (by rw [hs.2.2]; omega), hs.2.2, Nat.sub_zero]
      rw [List.infix_cons_iff]
      constructor
      · rintro (h | h)
        · exact Or.inr (Or.inr h.isInfix)
        · exact Or.inr (Or.inr h)
      · rintro (h | h | h)
        · exact absurd h (replicate_false_not_prefix_true _ rest (by omega))
        · exact absurd h (replicate_false_not_prefix_true _ rest (by omega))
        · exact Or.inr h
    | false =>
      by_cases hreach : c.k_max_consecutive_failures ≤ t.failure_count + 1
      · have hr := free_on_consecutive_failures_reach c t (by omega) hreach
        have hd := feed_outcomes_disabled c rest _ hr.1 hr.2
        have h1 : c.k_max_consecutive_failures - t.failure_count = 1 := by omega
        rw [h1]
        constructor
        · intro _
          left
          rw [List.replicate_succ, List.cons_prefix_cons]
          exact ⟨rfl, List.nil_prefix⟩
        · intro _
          exact hd
      · have hb := free_on_consecutive_failures_below c t (by omega) (by omega)
        rw [ih _ (hb.1.trans hact) (by rw [hb.2]; omega), hb.2]
        obtain ⟨j, hj⟩ : ∃ j, c.k_max_consecutive_failures - t.failure_count = j + 1 :=
          ⟨c.k_max_consecutive_failures - t.failure_count - 1, by omega⟩
        obtain ⟨m, hm⟩ : ∃ m, c.k_max_consecutive_failures = m + 1 :=
          ⟨c.k_max_consecutive_failures - 1, by omega⟩
        have hj2 : c.k_max_consecutive_failures - (t.failure_count + 1) = j := by omega
        rw [hj, hj2, List.replicate_succ, List.cons_prefix_cons, List.infix_cons_iff]
        constructor
        · rintro (h | h)
          · exact Or.inl ⟨rfl, h⟩
          · exact Or.inr (Or.inr h)
        · rintro (h | h | h)
          · exact Or.inl h.2
          · rw [hm, List.replicate_succ, List.cons_prefix_cons] at h
            exact Or.inl (replicate_prefix_mono j m false rest (by omega) h.2)
          · exact Or.inr h

/-- C14: starting from `failure_count = 0` with tracking active, for every
sequence of push outcomes fed to `free_on_consecutive_failures`: a successful
push leaves `failure_count` at 0, a failed push raises it by one, and both
feature flags are false at the end if and only if the sequence contains
`k_max_consecutive_failures` failed pushes in a row. -/
theorem c14_consecutive_failures (c : Consts) (t : AllocationTracker) (outcomes : List Bool)
    (hk1 : 1 ≤ c.k_max_consecutive_failures) (hk2 : c.k_max_consecutive_failures < 2 ^ 32)
    (h0 : t.failure_count = 0) (hact : t.track_allocations = true) :
    (∀ s : AllocationTracker, (free_on_consecutive_failures c s true).failure_count = 0) ∧
    (∀ s : AllocationTracker, s.failure_count + 1 < 2 ^ 32 →
      (free_on_consecutive_failures c s false).failure_count = s.failure_count + 1) ∧
    (((feed_outcomes c t outcomes).track_allocations = false ∧
        (feed_outcomes c t outcomes).track_deallocations = false) ↔
      List.replicate c.k_max_consecutive_failures false <:+: outcomes) := by
  refine ⟨fun s => (free_on_consecutive_failures_success c s).2.2, ?_, ?_⟩
  · intro s hs
    have hmod : (s.failure_count + 1) % 2 ^ 32 = s.failure_count + 1 := Nat.mod_eq_of_lt hs
    unfold free_on_consecutive_failures
    dsimp only
    rw [hmod]
    simp only [Bool.not_false, if_true]
    split_ifs <;> simp
  · rw [feed_outcomes_iff c hk2 outcomes t hact (by omega), h0, Nat.sub_zero]
    constructor
    · rintro (h | h)
      · exact h.isInfix
      · exact h
    · exact fun h => Or.inr h

/-- C14 witness: with three failures allowed, the outcomes fail, fail,
succeed, fail, fail, fail contain three failures in a row and disable the
tracker; without the last failure they do not. -/
theorem c14_consecutive_failures_witness :
    ((feed_outcomes c0 t_active [false, false, true, false, false, false]).track_allocations
      = false) ∧
    ((feed_outcomes c0 t_active [false, false, true, false, false]).track_allocations = true) ∧
    ((∀ s : AllocationTracker, (free_on_consecutive_failures c0 s true).failure_count = 0) ∧
    (∀ s : AllocationTracker, s.failure_count + 1 < 2 ^ 32 →
      (free_on_consecutive_failures c0 s false).failure_count = s.failure_count + 1) ∧
    (((feed_outcomes c0 t_active
          [false, false, true, false, false, false]).track_allocations = false ∧
        (feed_outcomes c0 t_active
          [false, false, true, false, false, false]).track_deallocations = false) ↔
      List.replicate c0.k_max_consecutive_failures false <:+:
        [false, false, true, false, false, false])) :=
  ⟨by decide, by decide,
    c14_consecutive_failures c0 t_active [false, false, true, false, false, false]
      (by decide) (by decide) rfl rfl⟩


/-! ## C15: an address that is already live -/

theorem pushed_sample_addr (c : Consts) (t : AllocationTracker)
    (tl : TrackerThreadLocalState) (env : Env) (addr allocated_size : Nat) :
    ∀ r ∈ pushed_sample c t tl env addr allocated_size, r.addr = addr := by
  intro r hr
  unfold pushed_sample at hr
  split_ifs at hr
  · simp only [List.mem_singleton] at hr
    subst hr
    rfl
  · simp at hr

theorem track_live_address_addr (c : Consts) (t : AllocationTracker)
    (tl : TrackerThreadLocalState) (env : Env) (addr : Nat) :
    (track_live_address c t tl env addr).2.2 = sample_addr c t addr := by
  unfold track_live_address sample_addr
  dsimp only
  split_ifs <;> simp_all

theorem track_live_address_present (c : Consts) (t : AllocationTracker)
    (tl : TrackerThreadLocalState) (env : Env) (addr : Nat)
    (hd : t.track_deallocations = true) (hm : c.address_slot addr ∈ t.allocated_address_set) :
    track_live_address c t tl env addr = (t, tl, 0) := by
  unfold track_live_address
  rw [if_pos hd, if_neg (not_not.mpr hm)]

/-- The records `track_allocation` commits after the sampling decision: every
SAMPLE among them carries the address chosen by the live-address bookkeeping
and the period handed over, and one is committed when the stack bounds are
known and the reservation succeeds. -/
theorem record_allocation_samples (c : Consts) (t : AllocationTracker)
    (tl : TrackerThreadLocalState) (env : Env) (addr total_size : Nat) :
    ∃ new, (record_allocation c t tl env addr total_size).1.ring = t.ring ++ new ∧
      (∀ r ∈ new, r.isSample = true → r.addr = sample_addr c t addr ∧ r.period = total_size) ∧
      (stack_bounds_available tl env = true → env.main.reserve = .ok →
        ∃ r ∈ new, r.isSample = true) := by
  obtain ⟨l, hl, hclear⟩ := track_live_address_ring c t tl env addr
  obtain ⟨new, hnew, _, hex⟩ := record_allocation_new_records c t tl env addr total_size
  have hring : (record_allocation c t tl env addr total_size).1.ring =
      t.ring ++ (l ++ flushed c (track_live_address c t tl env addr).1
        (track_live_address c t tl env addr).2.1 env ++
      pushed_sample c (track_live_address c t tl env addr).1
        (track_live_address c t tl env addr).2.1 env
        (track_live_address c t tl env addr).2.2 total_size) := by
    rw [record_allocation_ring, push_alloc_sample_ring, hl]
    simp [List.append_assoc]
  have hsame := List.append_cancel_left (hnew.symm.trans hring)
  refine ⟨new, hnew, ?_, ?_⟩
  · intro r hr hs
    rw [hsame] at hr
    simp only [List.mem_append] at hr
    rcases hr with (hr | hr) | hr
    · rw [not_isSample_of_isClear r (hclear r hr)] at hs
      exact absurd hs (by simp)
    · rw [not_isSample_of_isLost r (flushed_isLost _ _ _ _ r hr)] at hs
      exact absurd hs (by simp)
    · refine ⟨?_, (pushed_sample_spec _ _ _ _ _ _ r hr).2⟩
      rw [pushed_sample_addr _ _ _ _ _ _ r hr, track_live_address_addr]
  · intro hstack hres
    obtain ⟨r, hr, hs, _⟩ := hex hstack hres
    exact ⟨r, hr, hs⟩

/-- With an address that is already live, the call leaves the live-address
set as it was, whatever the push answers. -/
theorem record_allocation_present_set (c : Consts) (t : AllocationTracker)
    (tl : TrackerThreadLocalState) (env : Env) (addr total_size : Nat)
    (hd : t.track_deallocations = true) (hm : c.address_slot addr ∈ t.allocated_address_set) :
    (record_allocation c t tl env addr total_size).1.allocated_address_set =
      t.allocated_address_set := by
  unfold record_allocation
  dsimp only
  rw [track_live_address_present c t tl env addr hd hm]
  simp

theorem sampling_decision_some (fuel : Nat) (t : AllocationTracker)
    (tl tl1 : TrackerThreadLocalState) (draws : Nat → Nat) (n total : Nat)
    (h : sampling_decision fuel t tl draws = .ok (tl1, some (n, total))) :
    tl1.stack_bounds = tl.stack_bounds ∧ total = (n * t.sampling_interval) % 2 ^ 64 := by
  rw [sampling_decision_eq] at h
  by_cases h1 : tl.remaining_bytes_initialized = false ∧ decision_start t tl draws < 0
  · rw [if_pos h1] at h
    simp at h
  · rw [if_neg h1] at h
    by_cases h2 : t.sampling_interval = 0
    · rw [if_pos h2] at h
      simp at h
    · rw [if_neg h2] at h
      split at h
      · simp at h
      · simp only [Except.ok.injEq, Prod.mk.injEq, Option.some.injEq] at h
        obtain ⟨h3, h4, h5⟩ := h
        subst h4
        rw [← h3]
        exact ⟨rfl, h5.symm⟩

/-- C15: with deallocation tracking on, when the sampling decision of a
`track_allocation` call yields `nsamples` and the period `total`, the call
returns, `total` is the 64-bit product `nsamples * I`, and every SAMPLE it
commits has that period whether or not the address is known; when the address
is already in the live-address set the SAMPLE has `addr = 0` and the set is
left unchanged (whatever the push answers), and when the address is new the
SAMPLE carries the address.  A SAMPLE is committed whenever the stack bounds
are known and the reservation succeeds.  An address is in the set when the bit
it is keyed to (`address_slot`) is set, which is what `add` reports; with an
exact set that is the address itself. -/
theorem c15_known_address (c : Consts) (fuel : Nat) (t : AllocationTracker)
    (tl tl1 : TrackerThreadLocalState) (env : Env) (addr nsamples total : Nat)
    (hact : t.track_allocations = true) (hd : t.track_deallocations = true)
    (hdec : sampling_decision fuel t tl env.draws = .ok (tl1, some (nsamples, total))) :
    ∃ res new,
      track_allocation c fuel t tl env addr = .ok res ∧
      res.1.ring = t.ring ++ new ∧
      total = (nsamples * t.sampling_interval) % 2 ^ 64 ∧
      (∀ r ∈ new, r.isSample = true → r.period = total) ∧
      (c.address_slot addr ∈ t.allocated_address_set →
        (∀ r ∈ new, r.isSample = true → r.addr = 0) ∧
        res.1.allocated_address_set = t.allocated_address_set) ∧
      (c.address_slot addr ∉ t.allocated_address_set →
        ∀ r ∈ new, r.isSample = true → r.addr = addr) ∧
      (stack_bounds_available tl env = true → env.main.reserve = .ok →
        ∃ r ∈ new, r.isSample = true) := by
  obtain ⟨hsb, htotal⟩ := sampling_decision_some fuel t tl tl1 env.draws nsamples total hdec
  obtain ⟨new, hring, hall, hex⟩ := record_allocation_samples c t tl1 env addr total
  have havail : stack_bounds_available tl1 env = stack_bounds_available tl env := by
    simp [stack_bounds_available, hsb]
  rw [havail] at hex
  refine ⟨record_allocation c t tl1 env addr total, new, ?_, hring, htotal,
    fun r hr hs => (hall r hr hs).2, ?_, ?_, hex⟩
  · simp only [track_allocation, hact, Bool.not_true, Bool.false_eq_true, if_false, hdec]
  · intro hm
    refine ⟨?_, record_allocation_present_set c t tl1 env addr total hd hm⟩
    intro r hr hs
    rw [(hall r hr hs).1, sample_addr, if_pos ⟨hd, hm⟩]
  · intro hm r hr hs
    rw [(hall r hr hs).1, sample_addr, if_neg (fun h => hm h.2)]

/-- C15 witness: the address 4096 is already live; the call commits one SAMPLE
with `addr = 0` and period 1 and keeps the set. -/
theorem c15_known_address_witness :
    (∃ res new,
      track_allocation c0 1 t_known tl_ready env_ok 4096 = .ok res ∧
      res.1.ring = t_known.ring ++ new ∧
      1 = (1 * t_known.sampling_interval) % 2 ^ 64 ∧
      (∀ r ∈ new, r.isSample = true → r.period = 1) ∧
      (4096 ∈ t_known.allocated_address_set →
        (∀ r ∈ new, r.isSample = true → r.addr = 0) ∧
        res.1.allocated_address_set = t_known.allocated_address_set) ∧
      (4096 ∉ t_known.allocated_address_set → ∀ r ∈ new, r.isSample = true → r.addr = 4096) ∧
      (stack_bounds_available tl_ready env_ok = true → env_ok.main.reserve = .ok →
        ∃ r ∈ new, r.isSample = true)) ∧
    (∃ res, track_allocation c0 1 t_known tl_ready env_ok 4096 = .ok res ∧
      res.1.ring.map Committed.addr = [0] ∧ res.1.ring.map Committed.period = [1] ∧
      res.1.allocated_address_set = {4096}) ∧
    (∃ res, track_allocation c0 1 t_known tl_ready env_ok 8192 = .ok res ∧
      res.1.ring.map Committed.addr = [8192] ∧ res.1.allocated_address_set = {4096, 8192}) :=
  ⟨c15_known_address c0 1 t_known tl_ready { tl_ready with remaining_bytes := -1 } env_ok
      4096 1 1 rfl rfl rfl,
    ⟨_, rfl, by decide, by decide, by decide⟩,
    ⟨_, rfl, by decide, by decide⟩⟩


/-! ## C16: the periodic timer -/

theorem update_timer_early (t : AllocationTracker) (now : Int)
    (h : now ≤ t.next_check_time) : update_timer t now = t := by
  unfold update_timer
  rw [if_pos h]

theorem update_timer_idle (t : AllocationTracker) (now : Int)
    (h : t.next_check_time < now) (hidle : timer_idle t) :
    update_timer t now = { t with next_check_time := time_point_max } := by
  have hc : (!t.interval_timer_check.is_set || t.interval_timer_check.interval == 0) = true := by
    rcases hidle with h1 | h1
    · simp [h1]
    · simp [h1]
  unfold update_timer
  rw [if_neg (by omega), if_pos hc]

theorem update_timer_fires (t : AllocationTracker) (now : Int)
    (h : t.next_check_time < now) (hidle : ¬ timer_idle t) :
    update_timer t now =
      { t with
        next_check_time := wrap_i64 (now + t.interval_timer_check.interval)
        callback_times := t.callback_times ++ [now] } := by
  have hc : ¬ ((!t.interval_timer_check.is_set || t.interval_timer_check.interval == 0) = true) := by
    intro hc
    apply hidle
    unfold timer_idle
    simpa using hc
  unfold update_timer
  rw [if_neg (by omega), if_neg hc]

theorem update_timer_config (t : AllocationTracker) (now : Int) :
    (update_timer t now).interval_timer_check = t.interval_timer_check := by
  unfold update_timer
  split_ifs <;> rfl

theorem update_timers_config (nows : List Int) : ∀ t : AllocationTracker,
    (update_timers t nows).interval_timer_check = t.interval_timer_check := by
  induction nows with
  | nil => intro t; rfl
  | cons now rest ih =>
    intro t
    have hstep : update_timers t (now :: rest) = update_timers (update_timer t now) rest := rfl
    rw [hstep, ih, update_timer_config]

/-- The callbacks a sequence of `update_timer` calls invokes: they are appended
to the log in call order, the first comes after the `next_check_time` the
sequence started with, none is invoked when the timer is idle, and when
`now + interval` fits 64 bits at every call each later one comes more than
`interval` after the one before. -/
theorem update_timers_fired (nows : List Int) : ∀ t : AllocationTracker,
    ∃ fired, (update_timers t nows).callback_times = t.callback_times ++ fired ∧
      fired.Sublist nows ∧
      (ticks_in_range t nows → spaced t.interval_timer_check.interval fired) ∧
      (∀ x ∈ fired.head?, t.next_check_time < x) ∧
      (timer_idle t → fired = []) := by
  induction nows with
  | nil =>
    intro t
    exact ⟨[], by simp [update_timers], List.Sublist.slnil, fun _ => List.chain'_nil, by simp,
      fun _ => rfl⟩
  | cons now rest ih =>
    intro t
    have hstep : update_timers t (now :: rest) = update_timers (update_timer t now) rest := rfl
    obtain ⟨fired, hlog, hsub, hsp, hhead, hnone⟩ := ih (update_timer t now)
    have hrange_rest : ticks_in_range t (now :: rest) →
        ticks_in_range (update_timer t now) rest := by
      intro hr x hx
      unfold ticks_in_range at hr
      rw [update_timer_config]
      exact hr x (List.mem_cons_of_mem _ hx)
    rw [update_timer_config] at hsp
    have hidle_eq : timer_idle (update_timer t now) ↔ timer_idle t := by
      unfold timer_idle
      rw [update_timer_config]
    rw [hidle_eq] at hnone
    rw [hstep]
    by_cases hearly : now ≤ t.next_check_time
    · rw [update_timer_early t now hearly] at hlog hhead ⊢
      exact ⟨fired, hlog, hsub.cons _, fun hr => hsp (hrange_rest hr), hhead, hnone⟩
    · by_cases hidle : timer_idle t
      · have hnil := hnone hidle
        subst hnil
        rw [update_timer_idle t now (by omega) hidle] at hlog ⊢
        exact ⟨[], hlog, List.nil_sublist _, fun _ => List.chain'_nil, by simp, fun _ => rfl⟩
      · rw [update_timer_fires t now (by omega) hidle] at hlog hhead ⊢
        refine ⟨now :: fired, ?_, hsub.cons₂ _, ?_, ?_, fun h => absurd h hidle⟩
        · rw [hlog]
          simp
        · intro hr
          have hnow := hr now (List.mem_cons_self _ _)
          have hw : wrap_i64 (now + t.interval_timer_check.interval) =
              now + t.interval_timer_check.interval :=
            wrap_i64_of_range _ hnow.1 hnow.2
          unfold spaced
          rw [List.chain'_cons']
          refine ⟨fun y hy => ?_, hsp (hrange_rest hr)⟩
          have := hhead y hy
          dsimp only at this
          rw [hw] at this
          exact this
        · intro x hx
          simp only [List.head?_cons, Option.mem_def, Option.some.injEq] at hx
          omega

/-- With an idle timer `next_check_time` is the maximum time point from the
first call that comes after it, and untouched before. -/
theorem update_timers_idle (nows : List Int) : ∀ t : AllocationTracker, timer_idle t →
    (update_timers t nows).next_check_time =
      if ∃ now ∈ nows, t.next_check_time < now then time_point_max else t.next_check_time := by
  induction nows with
  | nil => intro t _; simp [update_timers]
  | cons now rest ih =>
    intro t hidle
    have hstep : update_timers t (now :: rest) = update_timers (update_timer t now) rest := rfl
    have hidle1 : timer_idle (update_timer t now) := by
      unfold timer_idle
      rw [update_timer_config]
      exact hidle
    rw [hstep, ih _ hidle1]
    by_cases hearly : now ≤ t.next_check_time
    · rw [update_timer_early t now hearly]
      have hiff : (∃ x ∈ now :: rest, t.next_check_time < x) ↔
          ∃ x ∈ rest, t.next_check_time < x := by
        simp only [List.mem_cons, exists_eq_or_imp]
        constructor
        · rintro (h | h)
          · omega
          · exact h
        · exact fun h => Or.inr h
      simp only [hiff]
    · rw [update_timer_idle t now (by omega) hidle]
      have hex : ∃ x ∈ now :: rest, t.next_check_time < x :=
        ⟨now, List.mem_cons_self _ _, by omega⟩
      rw [if_pos hex]
      dsimp only
      split_ifs <;> rfl

/-- C16: `update_timer(now)` does nothing when `now ≤ next_check_time`;
otherwise, with the timer unset or a zero interval, it invokes no callback and
sets `next_check_time` to the maximum time point, and with a set timer of
non-zero interval it invokes the callback once and sets `next_check_time` to
the 64-bit sum `now + interval`, which is the exact sum when that fits 64
bits.  Hence over every sequence of `update_timer` calls in which
`now + interval` fits 64 bits at every call, the callbacks invoked are spaced
by more than `interval` (`t2 > t1 + interval` for consecutive invocations);
in every sequence the first invocation comes after the initial
`next_check_time`, and an idle timer never invokes the callback and has
`next_check_time` at the maximum from the first call that passes the
guard. -/
theorem c16_timer_fires_once_per_interval (t : AllocationTracker) (nows : List Int)
    (hrange : ticks_in_range t nows) :
    (∀ (s : AllocationTracker) (now : Int),
      (now ≤ s.next_check_time → update_timer s now = s) ∧
      (s.next_check_time < now → timer_idle s →
        (update_timer s now).callback_times = s.callback_times ∧
        (update_timer s now).next_check_time = time_point_max) ∧
      (s.next_check_time < now → ¬ timer_idle s →
        (update_timer s now).callback_times = s.callback_times ++ [now] ∧
        (update_timer s now).next_check_time =
          wrap_i64 (now + s.interval_timer_check.interval) ∧
        (-2 ^ 63 ≤ now + s.interval_timer_check.interval →
          now + s.interval_timer_check.interval < 2 ^ 63 →
          (update_timer s now).next_check_time = now + s.interval_timer_check.interval))) ∧
    (∃ fired, (update_timers t nows).callback_times = t.callback_times ++ fired ∧
      fired.Sublist nows ∧
      spaced t.interval_timer_check.interval fired ∧
      (∀ x ∈ fired.head?, t.next_check_time < x) ∧
      (timer_idle t → fired = [])) ∧
    (timer_idle t →
      (update_timers t nows).next_check_time =
        if ∃ now ∈ nows, t.next_check_time < now then time_point_max
        else t.next_check_time) := by
  refine ⟨?_, ?_, update_timers_idle nows t⟩
  · intro s now
    refine ⟨update_timer_early s now, ?_, ?_⟩
    · intro h hidle
      rw [update_timer_idle s now h hidle]
      exact ⟨rfl, rfl⟩
    · intro h hidle
      rw [update_timer_fires s now h hidle]
      exact ⟨rfl, rfl, fun h1 h2 => wrap_i64_of_range _ h1 h2⟩
  · obtain ⟨fired, hlog, hsub, hsp, hhead, hnone⟩ := update_timers_fired nows t
    exact ⟨fired, hlog, hsub, hsp hrange, hhead, hnone⟩

/-- C16 witness: with interval 10 and the timer due after 100, the calls at
times 90, 101, 105, 111, 112, 130 invoke the callback at 101, 112 and 130 and
leave the timer due after 140; a tracker without timer invokes nothing. -/
theorem c16_timer_fires_once_per_interval_witness :
    ticks_in_range t_timer [90, 101, 105, 111, 112, 130] ∧
    (update_timers t_timer [90, 101, 105, 111, 112, 130]).callback_times = [101, 112, 130] ∧
    (update_timers t_timer [90, 101, 105, 111, 112, 130]).next_check_time = 140 ∧
    (update_timers t_active [90, 101]).callback_times = [] ∧
    ((∀ (s : AllocationTracker) (now : Int),
      (now ≤ s.next_check_time → update_timer s now = s) ∧
      (s.next_check_time < now → timer_idle s →
        (update_timer s now).callback_times = s.callback_times ∧
        (update_timer s now).next_check_time = time_point_max) ∧
      (s.next_check_time < now → ¬ timer_idle s →
        (update_timer s now).callback_times = s.callback_times ++ [now] ∧
        (update_timer s now).next_check_time =
          wrap_i64 (now + s.interval_timer_check.interval) ∧
        (-2 ^ 63 ≤ now + s.interval_timer_check.interval →
          now + s.interval_timer_check.interval < 2 ^ 63 →
          (update_timer s now).next_check_time = now + s.interval_timer_check.interval))) ∧
    (∃ fired,
      (update_timers t_timer [90, 101, 105, 111, 112, 130]).callback_times =
        t_timer.callback_times ++ fired ∧
      fired.Sublist [90, 101, 105, 111, 112, 130] ∧
      spaced t_timer.interval_timer_check.interval fired ∧
      (∀ x ∈ fired.head?, t_timer.next_check_time < x) ∧
      (timer_idle t_timer → fired = [])) ∧
    (timer_idle t_timer →
      (update_timers t_timer [90, 101, 105, 111, 112, 130]).next_check_time =
        if ∃ now ∈ ([90, 101, 105, 111, 112, 130] : List Int), t_timer.next_check_time < now then
          time_point_max
        else t_timer.next_check_time)) :=
  ⟨by unfold ticks_in_range; decide, by decide, by decide, by decide,
    c16_timer_fires_once_per_interval t_timer [90, 101, 105, 111, 112, 130]
      (by unfold ticks_in_range; decide)⟩

/-- C16 counterexample: with the interval `2^63 - 1` and the timer due after
100, the call at time 101 invokes the callback and stores the 64-bit sum
`101 + (2^63 - 1)`, which wraps to `100 - 2^63`; the call at time 102 then
invokes the callback again, one tick after the first invocation. -/
theorem c16_counterexample :
    t_long_interval.interval_timer_check.is_set = true ∧
    t_long_interval.interval_timer_check.interval ≠ 0 ∧
    (update_timers t_long_interval [101]).next_check_time = 100 - 2 ^ 63 ∧
    (update_timers t_long_interval [101, 102]).callback_times = [101, 102] ∧
    ¬ ((102 : Int) > 101 + t_long_interval.interval_timer_check.interval) ∧
    ¬ spaced t_long_interval.interval_timer_check.interval
      (update_timers t_long_interval [101, 102]).callback_times := by
  refine ⟨rfl, by decide, by decide, by decide, by decide, ?_⟩
  have h : (update_timers t_long_interval [101, 102]).callback_times = [101, 102] := by decide
  rw [h]
  unfold spaced
  rw [List.chain'_cons]
  intro hc
  exact absurd hc.1 (by decide)

/-! ## C17: the sampling loop terminates -/

theorem drop_bits_le (fuel : Nat) : ∀ n : Nat, drop_bits fuel n ≤ fuel := by
  induction fuel with
  | zero => intro n; exact Nat.le_refl 0
  | succ k ih =>
    intro n
    rw [drop_bits]
    split_ifs
    · omega
    · have := ih (n / 2)
      omega

/-- The conversion to `double` does not carry a value of at most `2^63` above
`2^63`. -/
theorem to_double_le (n : Nat) (h : n ≤ 2 ^ 63) : to_double n ≤ 2 ^ 63 := by
  have hle : drop_bits 11 n ≤ 11 := drop_bits_le 11 n
  unfold to_double
  dsimp only
  generalize drop_bits 11 n = e at hle ⊢
  have hpos : 0 < 2 ^ e := Nat.pow_pos (by decide)
  have hsplit : 2 ^ 63 = 2 ^ (63 - e) * 2 ^ e := by
    rw [← Nat.pow_add]
    congr 1
    omega
  split_ifs with hup
  · have hr : 0 < n % 2 ^ e := by
      rcases hup with h1 | ⟨h1, _⟩ <;> omega
    have hne : n < 2 ^ 63 := by
      rcases Nat.lt_or_ge n (2 ^ 63) with h1 | h1
      · exact h1
      · have hn : n = 2 ^ 63 := Nat.le_antisymm h h1
        rw [hn, hsplit, Nat.mul_mod_left] at hr
        exact absurd hr (by decide)
    have hq : n / 2 ^ e < 2 ^ (63 - e) :=
      (Nat.div_lt_iff_lt_mul hpos).mpr (by rw [← hsplit]; exact hne)
    calc (n / 2 ^ e + 1) * 2 ^ e ≤ 2 ^ (63 - e) * 2 ^ e := Nat.mul_le_mul_right _ hq
      _ = 2 ^ 63 := hsplit.symm
  · exact Nat.le_trans (Nat.div_mul_le_self n (2 ^ e)) h

theorem next_sample_interval_const (t : AllocationTracker) (v : Nat)
    (h : t.sampling_interval = 1 ∨ t.deterministic_sampling = true) :
    t.next_sample_interval v = t.sampling_interval := by
  unfold next_sample_interval
  dsimp only
  by_cases h1 : t.sampling_interval = 1
  · simp [h1]
  · rcases h with h | h
    · exact absurd h h1
    · simp [h1, h]

/-- In random mode with `20 * I ≤ 2^63` the value is at least 8 and at most
`2^63`: the clamp `to_double (20 * I)` does not exceed `2^63`. -/
theorem next_sample_interval_random (t : AllocationTracker) (v : Nat)
    (hI : t.sampling_interval ≠ 1) (hdet : t.deterministic_sampling = false)
    (h20 : 20 * t.sampling_interval ≤ 2 ^ 63) :
    8 ≤ t.next_sample_interval v ∧ t.next_sample_interval v ≤ 2 ^ 63 := by
  have hmod : (t.sampling_interval * 20) % 2 ^ 64 = t.sampling_interval * 20 :=
    Nat.mod_eq_of_lt (by omega)
  have hM : to_double (t.sampling_interval * 20) ≤ 2 ^ 63 := to_double_le _ (by omega)
  unfold next_sample_interval
  dsimp only
  rw [hmod]
  simp only [hI, hdet, beq_iff_eq, if_false, Bool.false_eq_true]
  generalize to_double (t.sampling_interval * 20) = M at hM ⊢
  split_ifs <;> omega

/-- Every value `next_sample_interval` returns is at least 1 in deterministic
mode with `I ≥ 1` and in random mode with `20 * I ≤ 2^63`. -/
theorem next_sample_interval_pos (t : AllocationTracker) (v : Nat)
    (hI : 1 ≤ t.sampling_interval)
    (hmode : t.deterministic_sampling = true ∨ 20 * t.sampling_interval ≤ 2 ^ 63) :
    1 ≤ t.next_sample_interval v := by
  by_cases hconst : t.sampling_interval = 1 ∨ t.deterministic_sampling = true
  · rw [next_sample_interval_const t v hconst]
    exact hI
  · have hI1 : t.sampling_interval ≠ 1 := fun h => hconst (Or.inl h)
    have hdet : t.deterministic_sampling = false := by
      cases h : t.deterministic_sampling
      · rfl
      · exact absurd (Or.inr h) hconst
    have h20 : 20 * t.sampling_interval ≤ 2 ^ 63 := by
      rcases hmode with h | h
      · rw [hdet] at h
        exact absurd h (by simp)
      · exact h
    have := (next_sample_interval_random t v hI1 hdet h20).1
    omega

/-- The clamp is the `double` nearest to `max_value`: for `I = 2^55 + 1` the
product `20 * I` ends in 380 and a large draw is clamped to the double ending
in 360; for `I = (2^64 - 1) / 5` the product is `2^64 - 4`, its double is
`2^64`, and the conversion of that clamp back to 64 bits leaves 0. -/
theorem next_sample_interval_double_clamp :
    20 * (2 ^ 55 + 1) = 720575940379279380 ∧
    ({ t_random with sampling_interval := 2 ^ 55 + 1 } : AllocationTracker).next_sample_interval
      (2 ^ 62) = 720575940379279360 ∧
    to_double (2 ^ 64 - 4) = 2 ^ 64 ∧
    ({ t_random with sampling_interval := (2 ^ 64 - 1) / 5 } :
      AllocationTracker).next_sample_interval (2 ^ 64) = 0 := by
  decide

/-- The do-while loop returns when every draw lies in `[lo, 2^63]` with
`lo ≥ 1` and the fuel exceeds `m / lo`: it ends with a negative
`remaining_bytes` after at least one and at most `m / lo + 1` turns. -/
theorem sample_loop_terminates (t : AllocationTracker) (draws : Nat → Nat) (lo : Nat)
    (hlo : 1 ≤ lo)
    (hdraw : ∀ k, lo ≤ t.next_sample_interval (draws k) ∧
      t.next_sample_interval (draws k) ≤ 2 ^ 63) :
    ∀ (fuel k m n : Nat), m < 2 ^ 63 → m < lo * fuel → n + m / lo + 1 < 2 ^ 64 →
      ∃ rem1 n1, sample_loop t draws fuel k (m : Int) n = .ok (rem1, n1) ∧
        rem1 < 0 ∧ -2 ^ 63 ≤ rem1 ∧ n + 1 ≤ n1 ∧ n1 ≤ n + m / lo + 1 := by
  intro fuel
  induction fuel with
  | zero =>
    intro k m n _ hm _
    simp at hm
  | succ fuel ih =>
    intro k m n hm hfuel hn
    generalize hq : m / lo = q at hn ⊢
    obtain ⟨hv1, hv2⟩ := hdraw k
    have hw : wrap_i64 ((m : Int) - (t.next_sample_interval (draws k) : Nat)) =
        (m : Int) - (t.next_sample_interval (draws k) : Nat) :=
      wrap_i64_of_range _ (by omega) (by omega)
    have hn1 : (n + 1) % 2 ^ 64 = n + 1 := Nat.mod_eq_of_lt (by omega)
    rw [sample_loop, hw, hn1]
    by_cases hge : (m : Int) - (t.next_sample_interval (draws k) : Nat) ≥ 0
    · rw [if_pos hge]
      obtain ⟨m1, hm1⟩ : ∃ m1 : Nat, m = m1 + t.next_sample_interval (draws k) :=
        ⟨m - t.next_sample_interval (draws k), by omega⟩
      have hcast : (m : Int) - (t.next_sample_interval (draws k) : Nat) = (m1 : Int) := by
        omega
      have hdiv : m1 / lo + 1 ≤ m / lo := by
        rw [← Nat.add_div_right m1 (by omega : 0 < lo)]
        exact Nat.div_le_div_right (by omega)
      rw [hq] at hdiv
      have hmul : lo * (fuel + 1) = lo * fuel + lo := Nat.mul_succ lo fuel
      rw [hcast]
      obtain ⟨rem1, n1, hloop, h1, h2, h3, h4⟩ :=
        ih (k + 1) m1 (n + 1) (by omega) (by omega) (by omega)
      exact ⟨rem1, n1, hloop, h1, h2, by omega, by omega⟩
    · rw [if_neg hge]
      exact ⟨_, _, rfl, by omega, by omega, by omega, by omega⟩


/-- Bounds on the draws in the modes in which no draw reaches `2^63`: a lower
bound `lo ≥ 1`, and the number of samples it allows keeps `nsamples * I` below
`2^64` in deterministic mode and for `I ≤ 2^32`. -/
theorem draw_bounds (t : AllocationTracker) (draws : Nat → Nat)
    (hI1 : 1 ≤ t.sampling_interval) (hI2 : t.sampling_interval < 2 ^ 63)
    (hmode : t.deterministic_sampling = true ∨ 20 * t.sampling_interval ≤ 2 ^ 63) :
    ∃ lo, 1 ≤ lo ∧
      (∀ k, lo ≤ t.next_sample_interval (draws k) ∧
        t.next_sample_interval (draws k) ≤ 2 ^ 63) ∧
      ((t.deterministic_sampling = true ∨ t.sampling_interval ≤ 2 ^ 32) →
        ∀ m n1 : Nat, m < 2 ^ 63 →
          n1 ≤ m / t.sampling_interval + (m % t.sampling_interval) / lo + 1 →
          n1 * t.sampling_interval < 2 ^ 64) := by
  by_cases hconst : t.sampling_interval = 1 ∨ t.deterministic_sampling = true
  · refine ⟨t.sampling_interval, hI1, ?_, ?_⟩
    · intro k
      rw [next_sample_interval_const t _ hconst]
      omega
    · intro _ m n1 hm hn1
      have h0 : m % t.sampling_interval / t.sampling_interval = 0 :=
        Nat.div_eq_of_lt (Nat.mod_lt _ (by omega))
      rw [h0] at hn1
      have h1 : n1 * t.sampling_interval ≤ (m / t.sampling_interval + 1) * t.sampling_interval :=
        Nat.mul_le_mul_right _ (by omega)
      have h2 : (m / t.sampling_interval + 1) * t.sampling_interval =
          m / t.sampling_interval * t.sampling_interval + t.sampling_interval := by ring
      have h3 := Nat.div_mul_le_self m t.sampling_interval
      omega
  · have hI : t.sampling_interval ≠ 1 := fun h => hconst (Or.inl h)
    have hdet : t.deterministic_sampling = false := by
      cases h : t.deterministic_sampling
      · rfl
      · exact absurd (Or.inr h) hconst
    have h20 : 20 * t.sampling_interval ≤ 2 ^ 63 := by
      rcases hmode with h | h
      · rw [hdet] at h
        exact absurd h (by simp)
      · exact h
    refine ⟨8, by omega, fun k => next_sample_interval_random t _ hI hdet h20, ?_⟩
    intro hsmall m n1 hm hn1
    have hI32 : t.sampling_interval ≤ 2 ^ 32 := by
      rcases hsmall with h | h
      · rw [hdet] at h
        exact absurd h (by simp)
      · exact h
    have hmod : m % t.sampling_interval < t.sampling_interval := Nat.mod_lt _ (by omega)
    have h1 : n1 * t.sampling_interval ≤
        (m / t.sampling_interval + m % t.sampling_interval / 8 + 1) * t.sampling_interval :=
      Nat.mul_le_mul_right _ hn1
    have h2 : (m / t.sampling_interval + m % t.sampling_interval / 8 + 1) * t.sampling_interval =
        m / t.sampling_interval * t.sampling_interval +
          m % t.sampling_interval / 8 * t.sampling_interval + t.sampling_interval := by ring
    have h3 := Nat.div_mul_le_self m t.sampling_interval
    have h4 : m % t.sampling_interval / 8 * t.sampling_interval ≤ 2 ^ 29 * 2 ^ 32 :=
      Nat.mul_le_mul (by omega) hI32
    omega

/-- The sampling decision returns when every draw lies in `[lo, 2^63]`, the
start value is non-negative and the fuel exceeds `(r mod I) / lo`. -/
theorem sampling_decision_terminates (fuel : Nat) (t : AllocationTracker)
    (tl : TrackerThreadLocalState) (draws : Nat → Nat) (lo : Nat) (hlo : 1 ≤ lo)
    (hdraw : ∀ k, lo ≤ t.next_sample_interval (draws k) ∧
      t.next_sample_interval (draws k) ≤ 2 ^ 63)
    (hI1 : 1 ≤ t.sampling_interval) (hI2 : t.sampling_interval < 2 ^ 63)
    (hr0 : 0 ≤ decision_start t tl draws) (hr1 : decision_start t tl draws < 2 ^ 63)
    (hfuel : (decision_start t tl draws).toNat % t.sampling_interval < lo * fuel) :
    ∃ rem1 n1,
      sampling_decision fuel t tl draws =
        .ok ({ tl with remaining_bytes_initialized := true, remaining_bytes := rem1 },
          some (n1, (n1 * t.sampling_interval) % 2 ^ 64)) ∧
      rem1 < 0 ∧ 1 ≤ n1 ∧
      n1 ≤ (decision_start t tl draws).toNat / t.sampling_interval +
        (decision_start t tl draws).toNat % t.sampling_interval / lo + 1 := by
  have hu : to_u64 (decision_start t tl draws) = (decision_start t tl draws).toNat :=
    to_u64_of_nonneg _ hr0 (by omega)
  generalize hm : (decision_start t tl draws).toNat = m at hu hfuel ⊢
  have hm63 : m < 2 ^ 63 := by omega
  have hmod : m % t.sampling_interval < t.sampling_interval := Nat.mod_lt _ (by omega)
  have hw : wrap_i64 ((m % t.sampling_interval : Nat) : Int) =
      ((m % t.sampling_interval : Nat) : Int) := wrap_i64_of_range _ (by omega) (by omega)
  have hdiv1 : m / t.sampling_interval ≤ m := Nat.div_le_self _ _
  have hdiv2 : m % t.sampling_interval / lo ≤ m % t.sampling_interval := Nat.div_le_self _ _
  obtain ⟨rem1, n1, hloop, h1, _, h3, h4⟩ :=
    sample_loop_terminates t draws lo hlo hdraw fuel
      (if tl.remaining_bytes_initialized then 0 else 1) (m % t.sampling_interval)
      (m / t.sampling_interval) (by omega) hfuel (by omega)
  refine ⟨rem1, n1, ?_, h1, Nat.le_trans (Nat.le_add_left 1 _) h3, h4⟩
  rw [sampling_decision_eq, if_neg (by omega), if_neg (by omega), hu, hw, hloop]


/-- With `I = 2^59` in random mode a draw may be `2^63 + 2^61`; subtracting it
from a `remaining_bytes` of 0 wraps to `3 * 2^61`, and with the draws `2^62`
and `2^61` after it the loop is back at 0: on this sequence of draws the loop
runs out of every fuel. -/
theorem sample_loop_cycle (fuel : Nat) : ∀ k n : Nat,
    (k % 3 = 0 → sample_loop t_cycle cycle_draws fuel k 0 n = .error .out_of_fuel) ∧
    (k % 3 = 1 →
      sample_loop t_cycle cycle_draws fuel k (3 * 2 ^ 61) n = .error .out_of_fuel) ∧
    (k % 3 = 2 → sample_loop t_cycle cycle_draws fuel k (2 ^ 61) n = .error .out_of_fuel) := by
  induction fuel with
  | zero => intro k n; exact ⟨fun _ => rfl, fun _ => rfl, fun _ => rfl⟩
  | succ fuel ih =>
    intro k n
    have e0 : wrap_i64 ((0 : Int) -
        ((t_cycle.next_sample_interval (2 ^ 63 + 2 ^ 61) : Nat) : Int)) = 3 * 2 ^ 61 := by decide
    have e1 : wrap_i64 ((3 * 2 ^ 61 : Int) -
        ((t_cycle.next_sample_interval (2 ^ 62) : Nat) : Int)) = 2 ^ 61 := by decide
    have e2 : wrap_i64 ((2 ^ 61 : Int) -
        ((t_cycle.next_sample_interval (2 ^ 61) : Nat) : Int)) = 0 := by decide
    have p0 : (3 * 2 ^ 61 : Int) ≥ 0 := by decide
    have p1 : (2 ^ 61 : Int) ≥ 0 := by decide
    have p2 : (0 : Int) ≥ 0 := by decide
    refine ⟨?_, ?_, ?_⟩
    · intro hk
      have hd : cycle_draws k = 2 ^ 63 + 2 ^ 61 := by
        unfold cycle_draws
        rw [if_pos hk]
      rw [sample_loop, hd, e0, if_pos p0]
      exact (ih (k + 1) _).2.1 (by omega)
    · intro hk
      have hd : cycle_draws k = 2 ^ 62 := by
        unfold cycle_draws
        rw [if_neg (by omega), if_pos hk]
      rw [sample_loop, hd, e1, if_pos p1]
      exact (ih (k + 1) _).2.2 (by omega)
    · intro hk
      have hd : cycle_draws k = 2 ^ 61 := by
        unfold cycle_draws
        rw [if_neg (by omega), if_neg (by omega)]
      rw [sample_loop, hd, e2, if_pos p2]
      exact (ih (k + 1) _).1 (by omega)

/-- The sampling decision for `I = 2^59` in random mode, started at
`remaining_bytes = 0` on the repeating draws, never returns. -/
theorem sampling_decision_cycle :
    1 ≤ t_cycle.sampling_interval ∧ t_cycle.sampling_interval < 2 ^ 63 ∧
    0 ≤ decision_start t_cycle tl_ready cycle_draws ∧
    ∀ fuel, sampling_decision fuel t_cycle tl_ready cycle_draws = .error .out_of_fuel := by
  refine ⟨by decide, by decide, by decide, ?_⟩
  intro fuel
  have hds : decision_start t_cycle tl_ready cycle_draws = 0 := rfl
  have h0 : wrap_i64 ((to_u64 0 % t_cycle.sampling_interval : Nat) : Int) = 0 := by decide
  have h1 : to_u64 0 / t_cycle.sampling_interval = 0 := by decide
  have hk : (if tl_ready.remaining_bytes_initialized = true then 0 else 1) = 0 := rfl
  rw [sampling_decision_eq, hds, if_neg (by decide), if_neg (by decide), h0, h1, hk,
    (sample_loop_cycle fuel 0 0).1 rfl]


/-- C17: for `1 ≤ I < 2^63`, in deterministic mode or with `20 * I ≤ 2^63`,
when `remaining_bytes` is non-negative as the sampling decision starts, every
value of `next_sample_interval` is at least 1, the decision divides by the
non-zero `I` and returns for every fuel above `r mod I` (the loop ends), with
`nsamples ≥ 1` and a strictly negative `remaining_bytes` stored in the thread
state; every SAMPLE pushed has the 64-bit product `nsamples * I` as period,
which is at least `I` when the product does not wrap, and it does not wrap in
deterministic mode or for `I ≤ 2^32`. -/
theorem c17_sampling_terminates (c : Consts) (fuel : Nat) (t : AllocationTracker)
    (tl : TrackerThreadLocalState) (env : Env) (addr : Nat)
    (hI1 : 1 ≤ t.sampling_interval) (hI2 : t.sampling_interval < 2 ^ 63)
    (hmode : t.deterministic_sampling = true ∨ 20 * t.sampling_interval ≤ 2 ^ 63)
    (hact : t.track_allocations = true) (hrange : tl.remaining_bytes < 2 ^ 63)
    (hr : 0 ≤ decision_start t tl env.draws)
    (hfuel : (decision_start t tl env.draws).toNat % t.sampling_interval < fuel) :
    (∀ v, 1 ≤ t.next_sample_interval v) ∧
    ∃ res new nsamples tl1,
      sampling_decision fuel t tl env.draws =
        .ok (tl1, some (nsamples, (nsamples * t.sampling_interval) % 2 ^ 64)) ∧
      track_allocation c fuel t tl env addr = .ok res ∧
      1 ≤ nsamples ∧
      tl1.remaining_bytes < 0 ∧
      res.2.remaining_bytes = tl1.remaining_bytes ∧
      res.1.ring = t.ring ++ new ∧
      (∀ r ∈ new, r.isSample = true →
        r.period = (nsamples * t.sampling_interval) % 2 ^ 64) ∧
      (nsamples * t.sampling_interval < 2 ^ 64 →
        ∀ r ∈ new, r.isSample = true → t.sampling_interval ≤ r.period) ∧
      ((t.deterministic_sampling = true ∨ t.sampling_interval ≤ 2 ^ 32) →
        nsamples * t.sampling_interval < 2 ^ 64) := by
  refine ⟨fun v => next_sample_interval_pos t v hI1 hmode, ?_⟩
  have hr1 := decision_start_lt t tl env.draws hrange
  obtain ⟨lo, hlo, hdraw, hsmall⟩ := draw_bounds t env.draws hI1 hI2 hmode
  have hfuel1 : (decision_start t tl env.draws).toNat % t.sampling_interval < lo * fuel :=
    lt_of_lt_of_le hfuel (Nat.le_mul_of_pos_left fuel (by omega))
  obtain ⟨rem1, n1, hdec, hneg, hn1, hle⟩ :=
    sampling_decision_terminates fuel t tl env.draws lo hlo hdraw hI1 hI2 hr hr1 hfuel1
  obtain ⟨new, hring, hper, _⟩ := record_allocation_new_records c t
    { tl with remaining_bytes_initialized := true, remaining_bytes := rem1 }
    env addr ((n1 * t.sampling_interval) % 2 ^ 64)
  refine ⟨record_allocation c t
    { tl with remaining_bytes_initialized := true, remaining_bytes := rem1 }
    env addr ((n1 * t.sampling_interval) % 2 ^ 64), new, n1, _, hdec, ?_, hn1, hneg, ?_,
    hring, hper, ?_, ?_⟩
  · simp only [track_allocation, hact, Bool.not_true, Bool.false_eq_true, if_false, hdec]
  · rw [record_allocation_remaining_bytes]
  · intro hlt r hr hs
    rw [hper r hr hs, Nat.mod_eq_of_lt hlt]
    exact Nat.le_mul_of_pos_left _ (by omega)
  · intro hs
    exact hsmall hs _ n1 (by omega) hle

/-- C17 witness: random mode with interval 16, 40 bytes accumulated and draws
that are all raised to 8: the loop takes two turns, 4 samples, period 64. -/
theorem c17_sampling_terminates_witness :
    ((∀ v, 1 ≤ t_random.next_sample_interval v) ∧
    ∃ res new nsamples tl1,
      sampling_decision 9 t_random tl_forty env_ok.draws =
        .ok (tl1, some (nsamples, (nsamples * t_random.sampling_interval) % 2 ^ 64)) ∧
      track_allocation c0 9 t_random tl_forty env_ok 4096 = .ok res ∧
      1 ≤ nsamples ∧
      tl1.remaining_bytes < 0 ∧
      res.2.remaining_bytes = tl1.remaining_bytes ∧
      res.1.ring = t_random.ring ++ new ∧
      (∀ r ∈ new, r.isSample = true →
        r.period = (nsamples * t_random.sampling_interval) % 2 ^ 64) ∧
      (nsamples * t_random.sampling_interval < 2 ^ 64 →
        ∀ r ∈ new, r.isSample = true → t_random.sampling_interval ≤ r.period) ∧
      ((t_random.deterministic_sampling = true ∨ t_random.sampling_interval ≤ 2 ^ 32) →
        nsamples * t_random.sampling_interval < 2 ^ 64)) ∧
    (∃ res, track_allocation c0 9 t_random tl_forty env_ok 4096 = .ok res ∧
      res.1.ring.map Committed.period = [64] ∧ res.2.remaining_bytes = -8) :=
  ⟨c17_sampling_terminates c0 9 t_random tl_forty env_ok 4096 (by decide) (by decide)
      (Or.inr (by decide)) rfl (by decide) (by decide) (by decide),
    ⟨_, rfl, by decide, by decide⟩⟩

/-- C17 counterexample: random mode with `I = 2^62`, so `I * 20` is 0 in 64
bits and every draw becomes 8; with `2^62 + 16` bytes accumulated the decision
ends with `nsamples = 4`, the product `4 * 2^62` wraps to 0, and the SAMPLE
pushed has period 0, below `I`. -/
theorem c17_counterexample :
    1 ≤ t_wide.sampling_interval ∧ t_wide.sampling_interval < 2 ^ 63 ∧
    t_wide.track_allocations = true ∧
    0 ≤ decision_start t_wide tl_wide env_ok.draws ∧
    ∃ res tl1,
      sampling_decision 3 t_wide tl_wide env_ok.draws = .ok (tl1, some (4, 0)) ∧
      track_allocation c0 3 t_wide tl_wide env_ok 4096 = .ok res ∧
      res.1.ring.map Committed.isSample = [true] ∧
      res.1.ring.map Committed.period = [0] ∧
      ¬ (∀ r ∈ res.1.ring, r.isSample = true → t_wide.sampling_interval ≤ r.period) :=
  ⟨by decide, by decide, rfl, by decide,
    ⟨_, { tl_wide with remaining_bytes := -8 }, rfl, rfl, by decide, by decide, by decide⟩⟩


/-! ## C11: ELF offsets -/

theorem rx_value : PF_X ||| PF_R = 5 := by decide

/-- The mask test of `get_elf_offsets` holds exactly when both the execute bit
(bit 0) and the read bit (bit 2) are set. -/
theorem land_rx_iff (n : Nat) :
    (n &&& 5 = 5) ↔ (n.testBit 0 = true ∧ n.testBit 2 = true) := by
  constructor
  · intro h
    have h0 : (n &&& 5).testBit 0 = true := by rw [h]; decide
    have h2 : (n &&& 5).testBit 2 = true := by rw [h]; decide
    rw [Nat.testBit_land] at h0 h2
    simp only [Bool.and_eq_true] at h0 h2
    exact ⟨h0.1, h2.1⟩
  · rintro ⟨h0, h2⟩
    apply Nat.eq_of_testBit_eq
    intro i
    rw [Nat.testBit_land]
    match i with
    | 0 => rw [h0]; decide
    | 1 => have : Nat.testBit 5 1 = false := by decide
           rw [this, Bool.and_false]
    | 2 => rw [h2]; decide
    | k + 3 =>
      have : Nat.testBit 5 (k + 3) = false := by
        apply Nat.testBit_eq_false_of_lt
        calc 5 < 2 ^ 3 := by decide
          _ ≤ 2 ^ (k + 3) := Nat.pow_le_pow_right (by decide) (by omega)
      rw [this, Bool.and_false]

theorem visit_phdr_eq (s : ElfOffsets) (ph : Phdr) :
    visit_phdr s ph =
      if is_exec_load ph = true then
        if s.found_exec = true then { s with failed_assumptions := s.failed_assumptions + 1 }
        else { s with
          bias_offset := to_offset ((ph.p_vaddr : Int) - ph.p_offset), found_exec := true }
      else s := by
  unfold visit_phdr is_exec_load
  dsimp only
  rw [rx_value]
  have hfl : ((ph.p_flags &&& 5) == 5) = (ph.p_flags.testBit 0 && ph.p_flags.testBit 2) := by
    rw [Bool.eq_iff_iff]
    simp only [beq_iff_eq, Bool.and_eq_true]
    exact land_rx_iff _
  rw [hfl]
  generalize ph.p_flags.testBit 0 = b0
  generalize ph.p_flags.testBit 2 = b2
  generalize (ph.p_type == PT_LOAD) = a
  cases a <;> cases b0 <;> cases b2 <;> cases hfe : s.found_exec <;> simp [hfe]

theorem scan_phdrs_some (phdrs : List Phdr) : ∀ s : ElfOffsets,
    scan_phdrs (phdrs.map some) s = .ok (phdrs.foldl visit_phdr s) := by
  induction phdrs with
  | nil => intro s; rfl
  | cons ph rest ih =>
    intro s
    simp only [List.map_cons, List.foldl_cons, scan_phdrs]
    exact ih _

theorem range_map_getElem (l : List Phdr) :
    (List.range l.length).map (fun i => l[i]?) = l.map some := by
  apply List.ext_getElem?
  intro n
  by_cases hn : n < l.length
  · simp [List.getElem?_map, List.getElem?_range hn, List.getElem?_eq_getElem hn]
  · have hn2 : l.length ≤ n := by omega
    simp [List.getElem?_map, List.getElem?_eq_none, hn2]

/-- On a file whose libelf calls all succeed, `get_elf_offsets` is the fold of
the loop body over the program headers, for the three supported types. -/
theorem get_elf_offsets_elf_of (e_type : Nat) (phdrs : List Phdr) (b0 : Nat) :
    get_elf_offsets (elf_of e_type phdrs) b0 =
      if e_type = ET_EXEC ∨ e_type = ET_DYN ∨ e_type = ET_CORE then
        ((phdrs.foldl visit_phdr
            { found_exec := false, bias_offset := b0, failed_assumptions := 0 }).found_exec,
          phdrs.foldl visit_phdr
            { found_exec := false, bias_offset := b0, failed_assumptions := 0 })
      else (false, { found_exec := false, bias_offset := b0, failed_assumptions := 0 }) := by
  unfold get_elf_offsets elf_of
  dsimp only
  rw [range_map_getElem, scan_phdrs_some]
  by_cases h : e_type = ET_EXEC ∨ e_type = ET_DYN ∨ e_type = ET_CORE
  · rw [if_pos h]
    rcases h with h | h | h <;> simp [h]
  · rw [if_neg h]
    simp only [not_or] at h
    simp [h.1, h.2.1, h.2.2]

/-- Once an executable LOAD segment was found the loop keeps its offset. -/
theorem foldl_visit_found (phdrs : List Phdr) : ∀ s : ElfOffsets, s.found_exec = true →
    (phdrs.foldl visit_phdr s).found_exec = true ∧
    (phdrs.foldl visit_phdr s).bias_offset = s.bias_offset ∧
    (phdrs.foldl visit_phdr s).failed_assumptions =
      s.failed_assumptions + (phdrs.filter is_exec_load).length := by
  induction phdrs with
  | nil => intro s hs; exact ⟨hs, rfl, rfl⟩
  | cons ph rest ih =>
    intro s hs
    rw [List.foldl_cons, visit_phdr_eq]
    by_cases hp : is_exec_load ph = true
    · rw [if_pos hp, if_pos hs]
      obtain ⟨h1, h2, h3⟩ := ih { s with failed_assumptions := s.failed_assumptions + 1 } hs
      refine ⟨h1, h2, ?_⟩
      rw [h3, List.filter_cons_of_pos hp]
      simp only [List.length_cons]
      omega
    · rw [if_neg hp]
      obtain ⟨h1, h2, h3⟩ := ih s hs
      refine ⟨h1, h2, ?_⟩
      rw [h3, List.filter_cons_of_neg hp]

/-- The loop started with `found_exec = false`: it finds a segment exactly
when one exists, keeps the offset of the first one, and reports one failed
assumption for each further one. -/
theorem foldl_visit_fresh (phdrs : List Phdr) : ∀ s : ElfOffsets, s.found_exec = false →
    (phdrs.foldl visit_phdr s).found_exec = phdrs.any is_exec_load ∧
    (∀ ph, phdrs.find? is_exec_load = some ph →
      (phdrs.foldl visit_phdr s).bias_offset =
        to_offset ((ph.p_vaddr : Int) - ph.p_offset)) ∧
    (phdrs.find? is_exec_load = none →
      (phdrs.foldl visit_phdr s).bias_offset = s.bias_offset) ∧
    (phdrs.foldl visit_phdr s).failed_assumptions =
      s.failed_assumptions + ((phdrs.filter is_exec_load).length - 1) := by
  induction phdrs with
  | nil =>
    intro s hs
    exact ⟨hs, fun ph h => by simp at h, fun _ => rfl, rfl⟩
  | cons ph rest ih =>
    intro s hs
    rw [List.foldl_cons, visit_phdr_eq]
    by_cases hp : is_exec_load ph = true
    · rw [if_pos hp, if_neg (by rw [hs]; simp)]
      obtain ⟨h1, h2, h3⟩ := foldl_visit_found rest
        { s with bias_offset := to_offset ((ph.p_vaddr : Int) - ph.p_offset),
                 found_exec := true } rfl
      refine ⟨?_, ?_, ?_, ?_⟩
      · rw [h1, List.any_cons, hp, Bool.true_or]
      · intro ph1 hfind
        rw [List.find?_cons_of_pos _ hp] at hfind
        simp only [Option.some.injEq] at hfind
        rw [h2, ← hfind]
      · intro hfind
        rw [List.find?_cons_of_pos _ hp] at hfind
        simp at hfind
      · rw [h3, List.filter_cons_of_pos hp]
        simp only [List.length_cons]
        omega
    · rw [if_neg hp]
      obtain ⟨h1, h2, h3, h4⟩ := ih s hs
      have hpf : is_exec_load ph = false := by simpa using hp
      refine ⟨?_, ?_, ?_, ?_⟩
      · rw [h1, List.any_cons, hpf, Bool.false_or]
      · intro ph1 hfind
        rw [List.find?_cons_of_neg _ hp] at hfind
        exact h2 ph1 hfind
      · intro hfind
        rw [List.find?_cons_of_neg _ hp] at hfind
        exact h3 hfind
      · rw [h4, List.filter_cons_of_neg hp]


/-- C11: for every ELF type and every list of program headers (all libelf
calls succeeding), `get_elf_offsets` returns true if and only if `e_type` is
EXEC, DYN or CORE and some PT_LOAD segment has both the read and the execute
flag; it then leaves in `bias_offset` the 64-bit difference
`p_vaddr - p_offset` of the first such segment in program-header order
(reporting one failed assumption per further such segment), and
`report_module` passes `bias = dso._start - dso._pgoff - bias_offset` (64-bit)
to `dwfl_report_elf` and stores it in `_sym_bias`. -/
theorem c11_elf_offsets (e_type : Nat) (phdrs : List Phdr) (b0 : Nat) (dso : Dso)
    (sym_bias : Nat) :
    ((get_elf_offsets (elf_of e_type phdrs) b0).1 = true ↔
      (e_type = ET_EXEC ∨ e_type = ET_DYN ∨ e_type = ET_CORE) ∧
        ∃ ph ∈ phdrs, is_exec_load ph = true) ∧
    (∀ (ph : Phdr) (env : ModuleEnv),
      (e_type = ET_EXEC ∨ e_type = ET_DYN ∨ e_type = ET_CORE) →
      phdrs.find? is_exec_load = some ph →
      get_elf_offsets (elf_of e_type phdrs) b0 =
        (true, { found_exec := true
                 bias_offset := to_offset ((ph.p_vaddr : Int) - ph.p_offset)
                 failed_assumptions := (phdrs.filter is_exec_load).length - 1 }) ∧
      (env.elf = elf_of e_type phdrs → env.dwfl_addrmodule = false → env.dup_ok = true →
        (report_module env dso false sym_bias).reported_bias =
          some (to_offset ((dso._start : Int) - dso._pgoff -
            to_offset ((ph.p_vaddr : Int) - ph.p_offset))) ∧
        (env.dwfl_report_elf = true →
          (report_module env dso false sym_bias).result = .ddres_init ∧
          (report_module env dso false sym_bias)._sym_bias =
            to_offset ((dso._start : Int) - dso._pgoff -
              to_offset ((ph.p_vaddr : Int) - ph.p_offset))))) := by
  have hany : phdrs.any is_exec_load = true ↔ ∃ ph ∈ phdrs, is_exec_load ph = true :=
    List.any_eq_true
  refine ⟨?_, ?_⟩
  · rw [get_elf_offsets_elf_of]
    by_cases h : e_type = ET_EXEC ∨ e_type = ET_DYN ∨ e_type = ET_CORE
    · rw [if_pos h]
      dsimp only
      rw [(foldl_visit_fresh phdrs _ rfl).1, hany]
      exact ⟨fun hx => ⟨h, hx⟩, fun hx => hx.2⟩
    · rw [if_neg h]
      dsimp only
      exact ⟨fun hx => absurd hx (by simp), fun hx => absurd hx.1 h⟩
  · intro ph env h hfind
    have hex : phdrs.any is_exec_load = true :=
      hany.mpr ⟨ph, List.mem_of_find?_eq_some hfind, List.find?_some hfind⟩
    have hval : ∀ b : Nat, get_elf_offsets (elf_of e_type phdrs) b =
        (true, { found_exec := true
                 bias_offset := to_offset ((ph.p_vaddr : Int) - ph.p_offset)
                 failed_assumptions := (phdrs.filter is_exec_load).length - 1 }) := by
      intro b
      rw [get_elf_offsets_elf_of, if_pos h]
      obtain ⟨h1, h2, _, h4⟩ := foldl_visit_fresh phdrs
        { found_exec := false, bias_offset := b, failed_assumptions := 0 } rfl
      rw [hex] at h1
      have h2a := h2 ph hfind
      generalize phdrs.foldl visit_phdr
        { found_exec := false, bias_offset := b, failed_assumptions := 0 } = s at h1 h2a h4
      cases s
      simp only at h1 h2a h4
      simp only [Nat.zero_add] at h4
      rw [h1, h2a, h4]
    refine ⟨hval b0, ?_⟩
    intro helf hmod hdup
    have hrep : report_module env dso false sym_bias =
        if env.dwfl_report_elf = true then
          { result := .ddres_init, _errored := false, inconsistent := false
            reported_bias := some (to_offset ((dso._start : Int) - dso._pgoff -
              to_offset ((ph.p_vaddr : Int) - ph.p_offset)))
            _sym_bias := to_offset ((dso._start : Int) - dso._pgoff -
              to_offset ((ph.p_vaddr : Int) - ph.p_offset)) }
        else
          { result := .ddres_warn_module, _errored := true, inconsistent := false
            reported_bias := some (to_offset ((dso._start : Int) - dso._pgoff -
              to_offset ((ph.p_vaddr : Int) - ph.p_offset)))
            _sym_bias := sym_bias } := by
      unfold report_module
      dsimp only
      rw [helf, hval 0, hmod, hdup]
      cases env.dwfl_report_elf <;> simp
    rw [hrep]
    refine ⟨?_, ?_⟩
    · split_ifs <;> rfl
    · intro hr
      rw [if_pos hr]
      exact ⟨rfl, rfl⟩

/-- C11 example: a shared object whose third and fifth program headers are
executable LOAD segments: the offset is that of the third
(`0x2000 - 0x1000`), one failed assumption is reported, and `report_module`
uses `0x7f0000001000 - 0x1000 - 0x1000`; a relocatable file (type 1) and a
file without such a segment are refused; a segment with
`p_vaddr < p_offset` gives the wrapped difference. -/
theorem c11_elf_offsets_example :
    get_elf_offsets (elf_of ET_DYN phdrs_two_exec) 0 =
      (true, { found_exec := true, bias_offset := 0x1000, failed_assumptions := 1 }) ∧
    report_module (module_env_of (elf_of ET_DYN phdrs_two_exec))
        { _start := 0x7f0000001000, _pgoff := 0x1000, _type := 0, _filename := "/usr/lib/libc.so" }
        false 0 =
      { result := .ddres_init, _errored := false, inconsistent := false,
        reported_bias := some 0x7efffffff000, _sym_bias := 0x7efffffff000 } ∧
    (get_elf_offsets (elf_of 1 phdrs_two_exec) 0).1 = false ∧
    (get_elf_offsets (elf_of ET_EXEC (phdrs_two_exec.take 2)) 0).1 = false ∧
    (get_elf_offsets (elf_of ET_EXEC
      [{ p_type := 1, p_flags := 5, p_vaddr := 0, p_offset := 0x1000 }]) 0).2.bias_offset =
      2 ^ 64 - 0x1000 := by
  decide


/-! ## C12: stable symbol indices -/

theorem get_or_insert_of_not_recorded (env : DsoEnv) (l : DsoSymbolLookup) (addr : Nat)
    (dso : Dso) (table : List Symbol) (addr_type : String)
    (h : addresses_recorded env dso = false) :
    get_or_insert env l addr dso table addr_type =
      get_or_insert_unhandled_type env l dso table := by
  unfold addresses_recorded at h
  simp only [Bool.or_eq_false_iff, beq_eq_false_iff_ne, ne_eq] at h
  unfold get_or_insert
  rw [if_pos (by simp [h.1.1, h.1.2, h.2])]

/-- A call for a DSO type that is already a key returns its index and changes
nothing. -/
theorem get_or_insert_unhandled_hit (env : DsoEnv) (l : DsoSymbolLookup) (dso : Dso)
    (table : List Symbol) (idx : Nat) (h : l._map_unhandled_dso dso._type = some idx) :
    get_or_insert_unhandled_type env l dso table = (idx, l, table) := by
  unfold get_or_insert_unhandled_type
  rw [h]

/-- A call for a file name and address that are already recorded returns the
index and changes nothing. -/
theorem get_or_insert_hit (env : DsoEnv) (l : DsoSymbolLookup) (addr : Nat)
    (dso : Dso) (table : List Symbol) (addr_type : String) (m : Nat → Option Nat) (idx : Nat)
    (h : addresses_recorded env dso = true)
    (hp : l._map_dso_path dso._filename = some m) (hm : m addr = some idx) :
    get_or_insert env l addr dso table addr_type = (idx, l, table) := by
  unfold addresses_recorded at h
  have hc : (!env.has_relevant_path dso._type && dso._type != env.kVdso &&
      dso._type != env.kVsysCall) = false := by
    simp only [Bool.or_eq_true, beq_iff_eq] at h
    rcases h with (h | h) | h <;> simp [h]
  have hs : Function.update l._map_dso_path dso._filename (some m) = l._map_dso_path := by
    rw [← hp]
    exact Function.update_eq_self _ _
  unfold get_or_insert
  rw [hc]
  simp only [Bool.false_eq_true, if_false]
  rw [hp]
  simp only [Option.getD_some]
  rw [hm]
  simp only [hs]

/-- A call for a file name and address that are not yet recorded appends one
symbol, returns the previous size and records it. -/
theorem get_or_insert_miss (env : DsoEnv) (l : DsoSymbolLookup) (addr : Nat)
    (dso : Dso) (table : List Symbol) (addr_type : String)
    (h : addresses_recorded env dso = true)
    (hnone : (l._map_dso_path dso._filename).bind (fun m => m addr) = none) :
    ∃ (l1 : DsoSymbolLookup) (m1 : Nat → Option Nat),
      get_or_insert env l addr dso table addr_type =
        (table.length, l1, table ++ [symbol_from_dso env addr dso addr_type]) ∧
      l1._map_dso_path dso._filename = some m1 ∧ m1 addr = some table.length := by
  unfold addresses_recorded at h
  have hc : (!env.has_relevant_path dso._type && dso._type != env.kVdso &&
      dso._type != env.kVsysCall) = false := by
    simp only [Bool.or_eq_true, beq_iff_eq] at h
    rcases h with (h | h) | h <;> simp [h]
  have hlook : ((l._map_dso_path dso._filename).getD (fun _ => none)) addr = none := by
    cases hp : l._map_dso_path dso._filename with
    | none => rfl
    | some m =>
      rw [hp] at hnone
      simpa using hnone
  refine ⟨{ l with
      _map_dso_path := Function.update l._map_dso_path dso._filename
        (some (Function.update ((l._map_dso_path dso._filename).getD (fun _ => none)) addr
          (some table.length))) },
    Function.update ((l._map_dso_path dso._filename).getD (fun _ => none)) addr
      (some table.length), ?_, ?_, ?_⟩
  · unfold get_or_insert
    rw [hc]
    simp only [Bool.false_eq_true, if_false]
    rw [hlook]
    rfl
  · simp only [Function.update_same]
  · simp only [Function.update_same]

/-- C12: `get_or_insert` returns a stable index.  The first call either
returns the index the lookup already holds for the key, changing nothing, or
appends exactly one symbol and returns the previous size of the table; after
it the lookup holds the returned index for the key, and a second call with the
same key (same file name and address when addresses are recorded for the DSO,
same DSO type otherwise) returns the same index and leaves the symbol table
and both maps as the first call left them. -/
theorem c12_stable_index (env : DsoEnv) (l : DsoSymbolLookup) (table : List Symbol)
    (dso dso2 : Dso) (addr addr2 : Nat) (addr_type addr_type2 : String)
    (hkey : same_key env dso addr dso2 addr2) :
    ((recorded_index env l addr dso = some (get_or_insert env l addr dso table addr_type).1 ∧
        (get_or_insert env l addr dso table addr_type).2.1 = l ∧
        (get_or_insert env l addr dso table addr_type).2.2 = table) ∨
      (recorded_index env l addr dso = none ∧
        (get_or_insert env l addr dso table addr_type).1 = table.length ∧
        ∃ sym, (get_or_insert env l addr dso table addr_type).2.2 = table ++ [sym])) ∧
    recorded_index env (get_or_insert env l addr dso table addr_type).2.1 addr dso =
      some (get_or_insert env l addr dso table addr_type).1 ∧
    get_or_insert env (get_or_insert env l addr dso table addr_type).2.1 addr2 dso2
        (get_or_insert env l addr dso table addr_type).2.2 addr_type2 =
      get_or_insert env l addr dso table addr_type := by
  rcases hkey with ⟨h, h2, hfile, haddr⟩ | ⟨h, htype⟩
  · subst haddr
    have hrec : ∀ l0 : DsoSymbolLookup, recorded_index env l0 addr2 dso =
        (l0._map_dso_path dso._filename).bind (fun m => m addr2) := by
      intro l0
      unfold recorded_index
      rw [if_pos h]
    cases hb : (l._map_dso_path dso._filename).bind (fun m => m addr2) with
    | none =>
      obtain ⟨l1, m1, hcall, hp1, hm1⟩ :=
        get_or_insert_miss env l addr2 dso table addr_type h hb
      rw [hcall]
      dsimp only
      refine ⟨Or.inr ⟨by rw [hrec, hb], rfl, _, rfl⟩, ?_, ?_⟩
      · rw [hrec, hp1]
        exact hm1
      · exact get_or_insert_hit env l1 addr2 dso2 _ addr_type2 m1 _ h2 (by rw [hfile, hp1]) hm1
    | some idx =>
      obtain ⟨m, hp, hm⟩ : ∃ m, l._map_dso_path dso._filename = some m ∧ m addr2 = some idx := by
        cases hp : l._map_dso_path dso._filename with
        | none => rw [hp] at hb; simp at hb
        | some m => rw [hp] at hb; exact ⟨m, rfl, by simpa using hb⟩
      rw [get_or_insert_hit env l addr2 dso table addr_type m idx h hp hm]
      dsimp only
      refine ⟨Or.inl ⟨by rw [hrec, hb], rfl, rfl⟩, by rw [hrec, hb], ?_⟩
      exact get_or_insert_hit env l addr2 dso2 table addr_type2 m idx h2 (by rw [hfile, hp]) hm
  · have h2 : addresses_recorded env dso2 = false := by
      unfold addresses_recorded at h ⊢
      rw [htype]
      exact h
    have hrec : ∀ l0 : DsoSymbolLookup, recorded_index env l0 addr dso =
        l0._map_unhandled_dso dso._type := by
      intro l0
      unfold recorded_index
      rw [if_neg (by rw [h]; simp)]
    rw [get_or_insert_of_not_recorded env l addr dso table addr_type h]
    cases hm : l._map_unhandled_dso dso._type with
    | none =>
      have hcall : get_or_insert_unhandled_type env l dso table =
          (table.length,
            { l with
              _map_unhandled_dso :=
                Function.update l._map_unhandled_dso dso._type (some table.length) },
            table ++ [symbol_from_unhandled_dso env dso]) := by
        unfold get_or_insert_unhandled_type
        rw [hm]
        rfl
      rw [hcall]
      dsimp only
      refine ⟨Or.inr ⟨by rw [hrec, hm], rfl, _, rfl⟩, ?_, ?_⟩
      · rw [hrec]
        simp only [Function.update_same]
      · rw [get_or_insert_of_not_recorded env _ addr2 dso2 _ addr_type2 h2]
        exact get_or_insert_unhandled_hit env _ dso2 _ table.length
          (by rw [htype]; simp only [Function.update_same])
    | some idx =>
      rw [get_or_insert_unhandled_hit env l dso table idx hm]
      dsimp only
      refine ⟨Or.inl ⟨by rw [hrec, hm], rfl, rfl⟩, by rw [hrec, hm], ?_⟩
      rw [get_or_insert_of_not_recorded env l addr2 dso2 table addr_type2 h2]
      exact get_or_insert_unhandled_hit env l dso2 table idx (by rw [htype]; exact hm)

/-- C12 witness: on an empty lookup and table, a file-backed DSO at address
`0x40` gets index 0 and a stack mapping index 1; asking again returns the same
indices and a table of the same two symbols. -/
theorem c12_stable_index_witness :
    same_key dso_env0 dso_libc 0x40 dso_libc 0x40 ∧
    (((recorded_index dso_env0 lookup_empty 0x40 dso_libc =
          some (get_or_insert dso_env0 lookup_empty 0x40 dso_libc [] "pc").1 ∧
        (get_or_insert dso_env0 lookup_empty 0x40 dso_libc [] "pc").2.1 = lookup_empty ∧
        (get_or_insert dso_env0 lookup_empty 0x40 dso_libc [] "pc").2.2 = []) ∨
      (recorded_index dso_env0 lookup_empty 0x40 dso_libc = none ∧
        (get_or_insert dso_env0 lookup_empty 0x40 dso_libc [] "pc").1 =
          ([] : List Symbol).length ∧
        ∃ sym, (get_or_insert dso_env0 lookup_empty 0x40 dso_libc [] "pc").2.2 = [] ++ [sym])) ∧
    recorded_index dso_env0 (get_or_insert dso_env0 lookup_empty 0x40 dso_libc [] "pc").2.1
        0x40 dso_libc =
      some (get_or_insert dso_env0 lookup_empty 0x40 dso_libc [] "pc").1 ∧
    get_or_insert dso_env0 (get_or_insert dso_env0 lookup_empty 0x40 dso_libc [] "pc").2.1
        0x40 dso_libc (get_or_insert dso_env0 lookup_empty 0x40 dso_libc [] "pc").2.2 "pc" =
      get_or_insert dso_env0 lookup_empty 0x40 dso_libc [] "pc") ∧
    (get_or_insert dso_env0 lookup_empty 0x40 dso_libc [] "pc").1 = 0 ∧
    (get_or_insert dso_env0 (get_or_insert dso_env0 lookup_empty 0x40 dso_libc [] "pc").2.1
      0 dso_stack (get_or_insert dso_env0 lookup_empty 0x40 dso_libc [] "pc").2.2 "pc").1 = 1 :=
  ⟨Or.inl ⟨rfl, rfl, rfl, rfl⟩,
    c12_stable_index dso_env0 lookup_empty [] dso_libc dso_libc 0x40 0x40 "pc" "pc"
      (Or.inl ⟨rfl, rfl, rfl, rfl⟩),
    by decide, by decide⟩


/-! ## The deterministic rate over a sequence of calls -/

/-- Consequence of the deterministic sampling decision over a sequence of
calls of one thread, each starting with a non-negative `remaining_bytes`: the
decisions all return, and the sum of their periods plus the remainder carried
at the end equals the remainder carried at the start plus the bytes
accumulated; the carried remainder lies in `[-I, -1]` after every call, so the
total period differs from the total bytes by less than `I` once a remainder
is carried. -/
theorem deterministic_rate_over_calls (fuel : Nat) (t : AllocationTracker)
    (hdet : t.deterministic_sampling = true)
    (hI1 : 1 ≤ t.sampling_interval) (hI2 : t.sampling_interval < 2 ^ 63)
    (calls : List (Nat × (Nat → Nat))) :
    ∀ tl : TrackerThreadLocalState, tl.remaining_bytes_initialized = true →
      -2 ^ 63 ≤ tl.remaining_bytes →
      nonneg_at_each_call (fuel + 1) t tl calls = true →
      ∃ tl1 total, decision_run (fuel + 1) t tl calls = .ok (tl1, total) ∧
        (total : Int) + tl1.remaining_bytes =
          tl.remaining_bytes + ((calls.map Prod.fst).sum : Nat) ∧
        tl1.remaining_bytes_initialized = true ∧
        (calls ≠ [] →
          -(t.sampling_interval : Int) ≤ tl1.remaining_bytes ∧ tl1.remaining_bytes ≤ -1) := by
  induction calls with
  | nil =>
    intro tl hinit _ _
    exact ⟨tl, 0, rfl, by simp, hinit, fun h => absurd rfl h⟩
  | cons x rest ih =>
    intro tl hinit hlow hnn
    obtain ⟨size, draws⟩ := x
    simp only [nonneg_at_each_call, Bool.and_eq_true, decide_eq_true_eq] at hnn
    obtain ⟨⟨hup, hstart⟩, hrest⟩ := hnn
    have hds : decision_start t (accumulate tl size) draws = tl.remaining_bytes + size := by
      unfold decision_start accumulate
      dsimp only
      rw [if_pos hinit]
      exact wrap_i64_of_range _ (by omega) hup
    rw [hds] at hstart
    have hdec := sampling_decision_deterministic fuel t (accumulate tl size) draws hdet hI1 hI2
      (by rw [hds]; exact hstart) (by rw [hds]; exact hup)
    rw [hds] at hdec
    obtain ⟨m, hm⟩ : ∃ m : Nat, tl.remaining_bytes + size = (m : Int) :=
      ⟨(tl.remaining_bytes + size).toNat, (Int.toNat_of_nonneg hstart).symm⟩
    rw [hm, Int.toNat_ofNat] at hdec
    have hmod : m % t.sampling_interval < t.sampling_interval := Nat.mod_lt _ (by omega)
    have hdiv : m / t.sampling_interval * t.sampling_interval + m % t.sampling_interval = m :=
      Nat.div_add_mod' m t.sampling_interval
    have hmul : (m / t.sampling_interval + 1) * t.sampling_interval =
        m / t.sampling_interval * t.sampling_interval + t.sampling_interval := by ring
    rw [hdec] at hrest
    dsimp only at hrest
    obtain ⟨tl1, total, hrun, hsum, hinit1, _⟩ := ih _ rfl (by dsimp only; omega) hrest
    dsimp only at hsum
    refine ⟨tl1, (m / t.sampling_interval + 1) * t.sampling_interval + total, ?_, ?_, hinit1, ?_⟩
    · rw [decision_run, hdec]
      dsimp only
      rw [hrun]
    · simp only [List.map_cons, List.sum_cons]
      push_cast
      push_cast at hsum
      omega
    · intro _
      cases rest with
      | nil =>
        simp only [decision_run, Except.ok.injEq, Prod.mk.injEq] at hrun
        rw [← hrun.1]
        dsimp only
        omega
      | cons y ys =>
        obtain ⟨_, _, hrun2, _, _, hbound⟩ := ih _ rfl (by dsimp only; omega) hrest
        rw [hrun] at hrun2
        simp only [Except.ok.injEq, Prod.mk.injEq] at hrun2
        rw [hrun2.1]
        exact hbound (by simp)

/-- Example over three calls with interval 16 and sizes 16, 40, 24 on a thread
carrying -16: the periods are 16, 32, 32, in total 80 for 80 bytes, and the
remainder carried at the end is -16 again. -/
theorem deterministic_rate_example :
    nonneg_at_each_call 1 t_sixteen tl_carry
      [(16, fun _ => 0), (40, fun _ => 0), (24, fun _ => 0)] = true ∧
    ∃ tl1, decision_run 1 t_sixteen tl_carry
        [(16, fun _ => 0), (40, fun _ => 0), (24, fun _ => 0)] = .ok (tl1, 80) ∧
      tl1.remaining_bytes = -16 :=
  ⟨by decide, _, rfl, by decide⟩

end ddprof
